import Mathlib

/-!
Shallow embedding of MuseScore's fret-diagram sub-model
(`src/engraving/libmscore/fret.cpp`): the sparse dot/marker/barre state,
the mutation API, and the two serialization formats, together with proofs
about the specified behaviour.

`std::map<int, V>` is modelled as a key-sorted association list `SMap V`;
`std::vector` as `List`.  Machine `int` is modelled as `Int` (all values
involved are small indices, far from overflow).
-/

set_option maxHeartbeats 1000000

/-- A `std::map<int, V>`: an association list kept sorted by strictly
increasing key.  All operations below preserve sortedness, and two maps
built by them are equal as lists exactly when they are equal as maps. -/
abbrev SMap (V : Type) : Type := List (Int × V)

namespace SMap

/-- `m.find(k)` / `m.at(k)` lookup. -/
def find? {V : Type} : SMap V → Int → Option V
  | [], _ => none
  | (k, v) :: rest, key => if key = k then some v else find? rest key

/-- `m[k] = v`: sorted insert-or-replace, as `std::map::operator[]` assignment. -/
def insert {V : Type} : SMap V → Int → V → SMap V
  | [], k, v => [(k, v)]
  | (k', v') :: rest, k, v =>
    if k < k' then (k, v) :: (k', v') :: rest
    else if k = k' then (k, v) :: rest
    else (k', v') :: insert rest k v

/-- `m.erase(k)` (no-op when the key is absent). -/
def erase {V : Type} : SMap V → Int → SMap V
  | [], _ => []
  | (k', v') :: rest, k => if k = k' then rest else (k', v') :: erase rest k

/-- The `std::map` representation invariant: keys strictly increase. -/
def SortedKeys {V : Type} (m : SMap V) : Prop :=
  List.Pairwise (fun a b => a.1 < b.1) m

end SMap

/-- `for (int i = lo; i < hi; ++i)` iteration order, as a list of `Int`. -/
def intRange (lo hi : Int) : List Int :=
  (List.range (hi - lo).toNat).map (fun (j : Nat) => lo + (j : Int))

/-- `for (int i = lo; i <= hi; ++i)` iteration order. -/
def intRangeIncl (lo hi : Int) : List Int := intRange lo (hi + 1)

/-- `enum class FretDotType` from the fret-diagram model. -/
inductive FretDotType
  | NORMAL
  | CROSS
  | SQUARE
  | TRIANGLE
deriving DecidableEq

/-- `enum class FretMarkerType`. -/
inductive FretMarkerType
  | NONE
  | CIRCLE
  | CROSS
deriving DecidableEq

namespace FretItem

/-- `FretItem::Dot`: a finger dot on one string. -/
structure Dot where
  fret : Int
  dtype : FretDotType
deriving DecidableEq

/-- `FretItem::Marker`: a per-string open/muted marker. -/
structure Marker where
  mtype : FretMarkerType
deriving DecidableEq

/-- `FretItem::Barre`: one fret pressed across a string range;
`endString = -1` means "extends to the last string". -/
structure Barre where
  startString : Int
  endString : Int
deriving DecidableEq

/-- Modelled from the spec: `fret.h` is not part of the excerpt; the data
model states that a `Dot`'s fret value `0` is the "does not exist"
sentinel, so a dot exists exactly when its fret is positive. -/
def Dot.exists' (d : Dot) : Bool := decide (0 < d.fret)

/-- Modelled from the spec: `fret.h` is not part of the excerpt; a marker
entry of type `NONE` denotes "no marker", so a marker exists exactly when
its type is not `NONE`. -/
def Marker.exists' (m : Marker) : Bool := decide (m.mtype ≠ FretMarkerType.NONE)

/-- Modelled from the spec: `fret.h` is not part of the excerpt; the `barre`
accessor in `fret.cpp` returns `Barre(-1, -1)` for a missing barre, so a
barre exists exactly when its start string is greater than `-1`. -/
def Barre.exists' (b : Barre) : Bool := decide (-1 < b.startString)

/-- `FretItem::markerTypeNameMap`. -/
def markerTypeNameMap : List (FretMarkerType × String) :=
  [(FretMarkerType.CIRCLE, "circle"),
   (FretMarkerType.CROSS, "cross"),
   (FretMarkerType.NONE, "none")]

/-- `FretItem::markerTypeToName` (linear scan of the name map). -/
def markerTypeToName (t : FretMarkerType) : String :=
  match markerTypeNameMap.find? (fun i => decide (i.1 = t)) with
  | some i => i.2
  | none => ""

/-- `FretItem::nameToMarkerType`; unknown names fall back to `NONE`. -/
def nameToMarkerType (n : String) : FretMarkerType :=
  match markerTypeNameMap.find? (fun i => decide (i.2 = n)) with
  | some i => i.1
  | none => FretMarkerType.NONE

/-- `FretItem::dotTypeNameMap`. -/
def dotTypeNameMap : List (FretDotType × String) :=
  [(FretDotType.NORMAL, "normal"),
   (FretDotType.CROSS, "cross"),
   (FretDotType.SQUARE, "square"),
   (FretDotType.TRIANGLE, "triangle")]

/-- `FretItem::dotTypeToName`. -/
def dotTypeToName (t : FretDotType) : String :=
  match dotTypeNameMap.find? (fun i => decide (i.1 = t)) with
  | some i => i.2
  | none => ""

/-- `FretItem::nameToDotType`; unknown names fall back to `NORMAL`. -/
def nameToDotType (n : String) : FretDotType :=
  match dotTypeNameMap.find? (fun i => decide (i.2 = n)) with
  | some i => i.1
  | none => FretDotType.NORMAL

/-- `FretItem::markerToChar`. -/
def markerToChar (t : FretMarkerType) : Char :=
  match t with
  | FretMarkerType.CIRCLE => 'O'
  | FretMarkerType.CROSS => 'X'
  | FretMarkerType.NONE => Char.ofNat 0

end FretItem

/-- The fret-diagram state relevant to the claims: string/fret counts, the
fret offset and the three sparse maps.  Styling, geometry and the harmony
child are out of scope of the claims. -/
structure FretDiagram where
  strings : Int
  frets : Int
  fretOffset : Int
  dots : SMap (List FretItem.Dot)
  markers : SMap FretItem.Marker
  barres : SMap FretItem.Barre
deriving DecidableEq

/-- A freshly constructed diagram: empty maps, fret offset `0`. -/
def initDiagram (strings frets : Int) : FretDiagram :=
  FretDiagram.mk strings frets 0 [] [] []

namespace FretDiagram

/-- `FretDiagram::dot(s, f)`: with `f = 0` the stored vector, with `f ≠ 0`
the first stored dot of fret `f`; a sentinel non-existing `Dot(0)` when
nothing matches. -/
def dot (d : FretDiagram) (s : Int) (f : Int) : List FretItem.Dot :=
  match SMap.find? d.dots s with
  | some l =>
    if f ≠ 0 then
      match l.find? (fun dd => decide (dd.fret = f)) with
      | some dd => [dd]
      | none => [FretItem.Dot.mk 0 FretDotType.NORMAL]
    else l
  | none => [FretItem.Dot.mk 0 FretDotType.NORMAL]

/-- `FretDiagram::marker(s)`. -/
def marker (d : FretDiagram) (s : Int) : FretItem.Marker :=
  match SMap.find? d.markers s with
  | some m => m
  | none => FretItem.Marker.mk FretMarkerType.NONE

/-- `FretDiagram::barre(f)`. -/
def barre (d : FretDiagram) (f : Int) : FretItem.Barre :=
  match SMap.find? d.barres f with
  | some b => b
  | none => FretItem.Barre.mk (-1) (-1)

/-- `FretDiagram::removeBarre(f)`. -/
def removeBarre (d : FretDiagram) (f : Int) : FretDiagram :=
  { d with barres := SMap.erase d.barres f }

/-- `FretDiagram::removeBarres(string, fret)`: erases every existing barre
crossing `string` (any fret when `fret ≤ 0`, else only fret `fret`). -/
def removeBarres (d : FretDiagram) (string : Int) (fret : Int) : FretDiagram :=
  { d with barres := d.barres.filter (fun i =>
      !(i.2.exists' && decide (i.2.startString ≤ string)
        && (decide (i.2.endString ≥ string) || decide (i.2.endString = -1))
        && (decide (fret ≤ 0) || decide (fret = i.1)))) }

/-- The barre-span test of `removeBarres`: an existing barre whose string
range (open end included) covers `s`. -/
def barreTouches (s : Int) (i : Int × FretItem.Barre) : Bool :=
  i.2.exists' && decide (i.2.startString ≤ s)
    && (decide (i.2.endString ≥ s) || decide (i.2.endString = -1))

/-- `FretDiagram::removeMarker(s)`. -/
def removeMarker (d : FretDiagram) (s : Int) : FretDiagram :=
  { d with markers := SMap.erase d.markers s }

/-- `FretDiagram::removeDot(s, f)`: `f ≤ 0` drops all dots on `s`; `f > 0`
keeps only the existing dots of other frets, pruning the key when the
remaining vector is empty (the source writes `_dots[s] = tempDots` and then
erases the key when the vector is empty; insert-then-erase of the same key
equals the direct form used here). -/
def removeDot (d : FretDiagram) (s : Int) (f : Int) : FretDiagram :=
  if 0 < f then
    let tempDots := (d.dot s 0).filter (fun dd => dd.exists' && decide (dd.fret ≠ f))
    if tempDots.isEmpty then { d with dots := SMap.erase d.dots s }
    else { d with dots := SMap.insert d.dots s tempDots }
  else
    { d with dots := SMap.erase d.dots s }

/-- The vector `tempDots` computed by `removeDot` for a positive fret:
the existing dots of the string whose fret differs from `f`. -/
def remainingDots (d : FretDiagram) (s f : Int) : List FretItem.Dot :=
  ((SMap.find? d.dots s).getD []).filter (fun dd => dd.exists' && decide (dd.fret ≠ f))

/-- `FretDiagram::setMarker(string, mtype)`: in range, always stores the
marker (also `NONE`); a non-`NONE` marker additionally removes the dots on
the string and the barres crossing it. -/
def setMarker (d : FretDiagram) (string : Int) (mtype : FretMarkerType) : FretDiagram :=
  if 0 ≤ string ∧ string < d.strings then
    let d1 := { d with markers := SMap.insert d.markers string (FretItem.Marker.mk mtype) }
    if mtype ≠ FretMarkerType.NONE then removeBarres (removeDot d1 string 0) string 0
    else d1
  else d

/-- `FretDiagram::setDot(string, fret, add, dtype)`. -/
def setDot (d : FretDiagram) (string fret : Int) (add : Bool) (dtype : FretDotType) :
    FretDiagram :=
  if fret = 0 then d.removeDot string fret
  else if 0 ≤ string ∧ string < d.strings then
    if add && ((d.dot string fret).headD (FretItem.Dot.mk 0 FretDotType.NORMAL)).exists' then
      d.removeDot string fret
    else
      let base := if add then d else { d with dots := SMap.insert d.dots string [] }
      let cur := (SMap.find? base.dots string).getD []
      let d1 := { base with
        dots := SMap.insert base.dots string (cur ++ [FretItem.Dot.mk fret dtype]) }
      if add then d1 else d1.setMarker string FretMarkerType.NONE
  else d

/-- `FretDiagram::setBarre(startString, endString, fret)` (three-argument
form): `startString = -1` removes; otherwise stores when both endpoints are
in range. -/
def setBarre (d : FretDiagram) (startString endString fret : Int) : FretDiagram :=
  if startString = -1 then d.removeBarre fret
  else if 0 ≤ startString ∧ -1 ≤ endString ∧ startString < d.strings ∧ endString < d.strings then
    { d with barres := SMap.insert d.barres fret (FretItem.Barre.mk startString endString) }
  else d

/-- The loop body of `removeDotsMarkers`: remove the dots of fret `fret`
on one string, then the marker when one exists. -/
def rdmStep (fret : Int) (acc : FretDiagram) (string : Int) : FretDiagram :=
  let acc1 := acc.removeDot string fret
  if (acc1.marker string).exists' then acc1.removeMarker string else acc1

/-- `FretDiagram::removeDotsMarkers(ss, es, fret)`: for each string of
`[ss, es]` (`es = -1` meaning through `strings`), removes the dots of fret
`fret` and any existing marker. -/
def removeDotsMarkers (d : FretDiagram) (ss es fret : Int) : FretDiagram :=
  if ss = -1 then d
  else
    let lastS := if es = -1 then d.strings else es
    (intRangeIncl ss lastS).foldl (rdmStep fret) d

/-- `FretDiagram::setBarre(string, fret, add)` (interactive toggle form). -/
def setBarreToggle (d : FretDiagram) (string fret : Int) : FretDiagram :=
  let b := d.barre fret
  if !b.exists' then
    if string < d.strings - 1 then
      ({ d with barres := SMap.insert d.barres fret (FretItem.Barre.mk string (-1)) }
        ).removeDotsMarkers string (-1) fret
    else d
  else if b.endString = -1 ∧ b.startString < string then
    { d with barres := SMap.insert d.barres fret (FretItem.Barre.mk b.startString string) }
  else
    (d.removeDotsMarkers b.startString b.endString fret).removeBarre fret

/-- `FretDiagram::clear()`. -/
def clear (d : FretDiagram) : FretDiagram :=
  { d with barres := [], dots := [], markers := [] }

/-- `FretDiagram::setFrets(n)` (trivial field setter from the header). -/
def setFrets (d : FretDiagram) (n : Int) : FretDiagram := { d with frets := n }

/-- `FretDiagram::setFretOffset(n)` (trivial field setter from the header). -/
def setFretOffset (d : FretDiagram) (n : Int) : FretDiagram := { d with fretOffset := n }

/-- The existing dots stored on string `i` (the vector filtered to the
dots whose fret is positive). -/
def existingDots (d : FretDiagram) (i : Int) : List FretItem.Dot :=
  ((SMap.find? d.dots i).getD []).filter (fun dd => dd.exists')

/-- The barre re-indexing of `setStrings` as a partial value map: drop the
barre when its shifted start would be `≤ 0`, else shift (the `max 0` clamp
is dead after the guard) with an open end staying `-1`. -/
def shiftedBarre (diff : Int) (b : FretItem.Barre) : Option FretItem.Barre :=
  if b.startString + diff ≤ 0 then none
  else some (FretItem.Barre.mk (max 0 (b.startString + diff))
    (if b.endString = -1 then -1 else b.endString + diff))

/-- The per-string `tempDots` accumulation of `setStrings`: skip strings
shifted below `0`, push each existing dot of the string onto the entry at
the shifted index (`tempDots[string + difference].push_back`). -/
def setStringsDotStep (d : FretDiagram) (difference : Int)
    (m : SMap (List FretItem.Dot)) (string : Int) : SMap (List FretItem.Dot) :=
  if string + difference < 0 then m
  else (d.dot string 0).foldl (fun m2 dd =>
    if dd.exists' then
      SMap.insert m2 (string + difference)
        ((SMap.find? m2 (string + difference)).getD [] ++ [dd])
    else m2) m

/-- The per-string `tempMarkers` accumulation of `setStrings`. -/
def setStringsMarkerStep (d : FretDiagram) (difference : Int)
    (m : SMap FretItem.Marker) (string : Int) : SMap FretItem.Marker :=
  if string + difference < 0 then m
  else if (d.marker string).exists' then
    SMap.insert m (string + difference) (d.marker string)
  else m

/-- The per-fret barre re-indexing loop body of `setStrings`: an existing
barre is dropped when its shifted start is `≤ 0`, else start is shifted
(clamped at `0`, dead after the guard) and an open end stays `-1`. -/
def setStringsBarreStep (difference : Int) (acc : FretDiagram) (fret : Int) : FretDiagram :=
  if (acc.barre fret).exists' then
    let b := (SMap.find? acc.barres fret).getD (FretItem.Barre.mk (-1) (-1))
    if b.startString + difference ≤ 0 then acc.removeBarre fret
    else
      let nb := FretItem.Barre.mk (max 0 (b.startString + difference))
        (if b.endString = -1 then -1 else b.endString + difference)
      { acc with barres := SMap.insert acc.barres fret nb }
  else acc

/-- `FretDiagram::setStrings(n)`: re-indexes every dot, marker and barre by
`n - strings`.  The source fills `tempDots` and `tempMarkers` in one loop
over the old strings; the two maps are independent, so they are built by
two folds over the same iteration order here. -/
def setStrings (d : FretDiagram) (n : Int) : FretDiagram :=
  let difference := n - d.strings
  if difference = 0 ∨ n ≤ 0 then d
  else
    let tempDots : SMap (List FretItem.Dot) :=
      (intRange 0 d.strings).foldl (setStringsDotStep d difference) []
    let tempMarkers : SMap FretItem.Marker :=
      (intRange 0 d.strings).foldl (setStringsMarkerStep d difference) []
    let d1 := { d with dots := tempDots, markers := tempMarkers }
    let d2 := (intRangeIncl 1 d.frets).foldl (setStringsBarreStep difference) d1
    { d2 with strings := n }

end FretDiagram

/-- One record of the current ("new", 3.1+) wire format: the `marker`,
`dot` and `barre` tags emitted by `writeNew`, in document order.  The XML
transport itself is an external collaborator; the tag contents are the
model. -/
inductive WireItem
  | marker (no : Int) (name : String)
  | dot (no : Int) (fret : Int) (name : String)
  | barre (startString endString fret : Int)
deriving DecidableEq

namespace FretDiagram

/-- The `<string no=i>` block emitted by `FretDiagram::writeNew` for one
string: the marker (when existing) followed by the existing dots. -/
def writeNewString (d : FretDiagram) (i : Int) : List WireItem :=
  let m := d.marker i
  let allDots := d.dot i 0
  let dotExists := allDots.any (fun dd => dd.exists')
  if !dotExists && !m.exists' then []
  else
    (if m.exists' then [WireItem.marker i (FretItem.markerTypeToName m.mtype)] else [])
    ++ (allDots.filter (fun dd => dd.exists')).map
        (fun dd => WireItem.dot i dd.fret (FretItem.dotTypeToName dd.dtype))

/-- `FretDiagram::writeNew`: per-string blocks for strings `0..strings-1`,
then one `barre` record per existing barre of frets `1..frets`. -/
def writeNew (d : FretDiagram) : List WireItem :=
  ((intRange 0 d.strings).map (fun i => writeNewString d i)).flatten
  ++ (intRangeIncl 1 d.frets).filterMap (fun f =>
      let b := d.barre f
      if b.exists' then some (WireItem.barre b.startString b.endString f) else none)

/-- One step of `FretDiagram::readNew`. -/
def readNewItem (d : FretDiagram) : WireItem → FretDiagram
  | WireItem.marker no name => d.setMarker no (FretItem.nameToMarkerType name)
  | WireItem.dot no fret name => d.setDot no fret true (FretItem.nameToDotType name)
  | WireItem.barre s e f => d.setBarre s e f

/-- `FretDiagram::readNew`: consume the wire items in document order. -/
def readNew (d : FretDiagram) (items : List WireItem) : FretDiagram :=
  items.foldl readNewItem d

end FretDiagram

/-- One `<string no=i>` block of the legacy (pre-3.1) format: an optional
one-character marker code and the bare dot fret numbers, in document
order. -/
structure LegacyStringBlock where
  no : Int
  markerChar : Option Char
  dotFrets : List Int
deriving DecidableEq

/-- A legacy-format document: the string blocks followed by the boolean
`barre` flag. -/
structure LegacyDoc where
  blocks : List LegacyStringBlock
  barreFlag : Bool
deriving DecidableEq

namespace FretDiagram

/-- The first half of `FretDiagram::writeOld`: the scan computing
`lowestDotFret` and `furthestLeftLowestDot`. -/
def writeOldLowest (d : FretDiagram) : Int × Int :=
  (intRange 0 d.strings).foldl (fun p i =>
    let allDots := d.dot i 0
    if !(allDots.any (fun dd => dd.exists')) then p
    else allDots.foldl (fun q dd =>
      if dd.exists' then
        if dd.fret < q.1 ∨ q.1 = -1 then (dd.fret, i)
        else if dd.fret = q.1 ∧ (i < q.2 ∨ q.2 = -1) then (q.1, i)
        else q
      else q) p) (-1, -1)

/-- The barre-selection scan of `FretDiagram::writeOld`: the first stored
barre (in fret order) that sits at or below the lowest dotted fret, has an
open end, and does not start right of the leftmost lowest dot when on that
fret.  Returns `(barreStartString, barreFret)`, `(-1, -1)` when none. -/
def writeOldBarre (d : FretDiagram) : Int × Int :=
  let lowest := (writeOldLowest d).1
  let furthest := (writeOldLowest d).2
  match List.find? (fun i =>
      i.2.exists' && decide (i.1 ≤ lowest) && decide (i.2.endString = -1)
      && !(decide (i.1 = lowest) && decide (i.2.startString > furthest))) d.barres with
  | some i => (i.2.startString, i.1)
  | none => (-1, -1)

/-- `FretDiagram::writeOld`: string blocks (suppressing the real dot at the
selected barre's fret on its start string and appending the synthetic dot
there), then the boolean barre flag. -/
def writeOld (d : FretDiagram) : LegacyDoc :=
  let bss := (writeOldBarre d).1
  let bf := (writeOldBarre d).2
  let blocks := (intRange 0 d.strings).filterMap (fun i =>
    let m := d.marker i
    let allDots := d.dot i 0
    let dotExists := allDots.any (fun dd => dd.exists')
    if !dotExists && !m.exists' && decide (i ≠ bss) then none
    else some (LegacyStringBlock.mk i
      (if m.exists' then some (FretItem.markerToChar m.mtype) else none)
      (((allDots.filter (fun dd =>
            dd.exists' && !(decide (i = bss) && decide (dd.fret = bf)))).map
          (fun dd => dd.fret))
        ++ (if bss = i then [bf] else []))))
  LegacyDoc.mk blocks (decide (0 < bf))

/-- One legacy `<string>` block consumed by `FretDiagram::read` in
compatibility mode: the marker code then each bare `dot` via
`setDot(no, fret)` with `add = false`. -/
def readOldBlock (d : FretDiagram) (blk : LegacyStringBlock) : FretDiagram :=
  let d1 := match blk.markerChar with
    | some c =>
      d.setMarker blk.no
        (if c = 'X' then FretMarkerType.CROSS else FretMarkerType.CIRCLE)
    | none => d
  blk.dotFrets.foldl (fun acc f => acc.setDot blk.no f false FretDotType.NORMAL) d1

/-- The scan at the end of `FretDiagram::read` converting a true legacy
barre flag: the first existing dot, by string then vector order. -/
def firstExistingDot (d : FretDiagram) : Option (Int × Int) :=
  (intRange 0 d.strings).findSome? (fun s =>
    match (d.dot s 0).find? (fun dd => dd.exists') with
    | some dd => some (s, dd.fret)
    | none => none)

/-- The legacy read path of `FretDiagram::read`: consume the string blocks,
then convert a true barre flag into an open barre at the first existing
dot. -/
def readOld (d : FretDiagram) (doc : LegacyDoc) : FretDiagram :=
  let d1 := doc.blocks.foldl readOldBlock d
  if doc.barreFlag then
    match firstExistingDot d1 with
    | some p => d1.setBarre p.1 (-1) p.2
    | none => d1
  else d1

end FretDiagram

/-- `Char::digitValue()` restricted to the ASCII digits used by the
pattern parser. -/
def digitValue (c : Char) : Int :=
  if '0' ≤ c ∧ c ≤ '9' then (c.toNat : Int) - ('0'.toNat : Int) else -1

/-- The scanning state of `FretDiagram::createFromString`: the diagram
under construction, the running offset, the barre start string and the
recorded dots. -/
structure ScanState where
  fd : FretDiagram
  offset : Int
  barreString : Int
  dotsToAdd : List (Int × Int)

/-- One character step of the `createFromString` scan. -/
def scanStep (st : ScanState) (i : Int) (c : Char) : ScanState :=
  if c = 'X' ∨ c = 'O' then
    let mt := if c = 'X' then FretMarkerType.CROSS else FretMarkerType.CIRCLE
    { st with fd := st.fd.setMarker i mt }
  else if c = '-' ∧ st.barreString = -1 then
    { st with barreString := i }
  else
    let fret := digitValue c
    if fret ≠ -1 then
      { st with
        dotsToAdd := st.dotsToAdd ++ [(i, fret)],
        offset := if 0 < fret - 3 ∧ st.offset < fret - 3 then fret - 3 else st.offset }
    else st

/-- `FretDiagram::createFromString(score, s)`, starting from the fresh
factory diagram `d0`: set the string count, scan the pattern, apply the
offset, add the recorded dots, and create the open barre when a `-` was
seen. -/
def createFromString (d0 : FretDiagram) (s : List Char) : FretDiagram :=
  let strings : Int := (s.length : Int)
  let fd1 := (d0.setStrings strings).setFrets 4
  let st := (s.enumFrom 0).foldl (fun st p => scanStep st (p.1 : Int) p.2)
      (ScanState.mk fd1 0 (-1) [])
  let fd2 := if 0 < st.offset then st.fd.setFretOffset st.offset else st.fd
  let fd3 := st.dotsToAdd.foldl
      (fun acc p => acc.setDot p.1 (p.2 - st.offset) true FretDotType.NORMAL) fd2
  if 0 ≤ st.barreString then fd3.setBarre st.barreString (-1) 1 else fd3

/-- The reachable-state invariant on the dots map used by the claims:
sorted, in-range keys, each key holding a non-empty vector of existing
dots with pairwise distinct frets. -/
def DotsWF (d : FretDiagram) : Prop :=
  SMap.SortedKeys d.dots ∧ ∀ p ∈ d.dots,
    0 ≤ p.1 ∧ p.1 < d.strings ∧ p.2 ≠ [] ∧
    (∀ dd ∈ p.2, 0 < dd.fret) ∧ (p.2.map (fun dd => dd.fret)).Nodup

/-- Sorted markers map with in-range keys (entries of type `NONE` are
permitted: the code stores them). -/
def MarkersWF (d : FretDiagram) : Prop :=
  SMap.SortedKeys d.markers ∧ ∀ p ∈ d.markers, 0 ≤ p.1 ∧ p.1 < d.strings

/-- Sorted barres map whose frets lie in the writable window `[1, frets]`
and whose endpoints are in range (`-1` allowed as the open end). -/
def BarresWF (d : FretDiagram) : Prop :=
  SMap.SortedKeys d.barres ∧ ∀ p ∈ d.barres,
    1 ≤ p.1 ∧ p.1 ≤ d.frets ∧
    0 ≤ p.2.startString ∧ p.2.startString < d.strings ∧
    -1 ≤ p.2.endString ∧ p.2.endString < d.strings

/-- The weak dots invariant of claim C10: every key present in the dots map
holds a non-empty vector. -/
def DotsNonEmpty (d : FretDiagram) : Prop := ∀ p ∈ d.dots, p.2 ≠ []

/-- Diagram states reachable from a fresh diagram through the public
mutation API (the read paths only compose these mutators). -/
inductive Reachable : FretDiagram → Prop
  | init (strings frets : Int) : Reachable (initDiagram strings frets)
  | setDot (d : FretDiagram) (s f : Int) (add : Bool) (t : FretDotType) :
      Reachable d → Reachable (d.setDot s f add t)
  | setMarker (d : FretDiagram) (s : Int) (t : FretMarkerType) :
      Reachable d → Reachable (d.setMarker s t)
  | setBarre (d : FretDiagram) (ss es f : Int) :
      Reachable d → Reachable (d.setBarre ss es f)
  | setBarreToggle (d : FretDiagram) (s f : Int) :
      Reachable d → Reachable (d.setBarreToggle s f)
  | setStrings (d : FretDiagram) (n : Int) :
      Reachable d → Reachable (d.setStrings n)
  | clear (d : FretDiagram) : Reachable d → Reachable d.clear
  | removeDot (d : FretDiagram) (s f : Int) :
      Reachable d → Reachable (d.removeDot s f)

/-- Spec-side (from the claim's words): the digits recorded by the scan,
as (string, digit) pairs in pattern order. -/
def c9DigitsFrom (j0 : Nat) (s : List Char) : List (Int × Int) :=
  (s.enumFrom j0).filterMap
    (fun p => if digitValue p.2 = -1 then none else some ((p.1 : Int), digitValue p.2))

/-- Spec-side: the markers map described by the claim, CROSS at each `X`
and CIRCLE at each `O`. -/
def c9MarkersFrom (j0 : Nat) (s : List Char) : SMap FretItem.Marker :=
  (s.enumFrom j0).filterMap (fun p =>
    if p.2 = 'X' then some ((p.1 : Int), FretItem.Marker.mk FretMarkerType.CROSS)
    else if p.2 = 'O' then some ((p.1 : Int), FretItem.Marker.mk FretMarkerType.CIRCLE)
    else none)

/-- Spec-side: the position of the first `-` in the pattern, `-1` when
there is none. -/
def c9DashFrom (j0 : Nat) (s : List Char) : Int :=
  match (s.enumFrom j0).find? (fun p => p.2 = '-') with
  | some p => (p.1 : Int)
  | none => -1

/-- Spec-side: the global offset, `max(0, maxDigit - 3)` over the
recorded digits. -/
def c9Offset (s : List Char) : Int :=
  (c9DigitsFrom 0 s).foldl (fun o p => max o (p.2 - 3)) 0

/-- Spec-side: the dots map actually produced — one dot per recorded
digit whose offset-adjusted fret is nonzero. -/
def c9Dots (s : List Char) : SMap (List FretItem.Dot) :=
  (c9DigitsFrom 0 s).filterMap (fun p =>
    if p.2 - c9Offset s = 0 then none
    else some (p.1, [FretItem.Dot.mk (p.2 - c9Offset s) FretDotType.NORMAL]))

/-- Spec-side: the single open barre at relative fret 1 from the first
`-` position, when one was seen. -/
def c9Barres (s : List Char) : SMap FretItem.Barre :=
  if 0 ≤ c9DashFrom 0 s then [(1, FretItem.Barre.mk (c9DashFrom 0 s) (-1))] else []

/-! ## Lemmas about the sorted-map model -/

instance {V : Type} (m : SMap V) : Decidable (SMap.SortedKeys m) :=
  inferInstanceAs (Decidable (List.Pairwise (fun (a b : Int × V) => a.1 < b.1) m))

namespace SMap

variable {V : Type}

theorem find?_nil (k : Int) : find? ([] : SMap V) k = none := rfl

theorem find?_cons (k' : Int) (v' : V) (rest : SMap V) (k : Int) :
    find? ((k', v') :: rest) k = if k = k' then some v' else find? rest k := rfl

theorem find?_insert_self (m : SMap V) (k : Int) (v : V) :
    find? (insert m k v) k = some v := by
  induction m with
  | nil => simp [insert, find?]
  | cons p rest ih =>
    obtain ⟨k', v'⟩ := p
    by_cases h1 : k < k'
    · simp [insert, h1, find?]
    · by_cases h2 : k = k'
      · simp [insert, h1, h2, find?]
      · simp [insert, h1, h2, find?, ih]

theorem find?_insert_ne (m : SMap V) (k k' : Int) (v : V) (h : k' ≠ k) :
    find? (insert m k v) k' = find? m k' := by
  induction m with
  | nil => simp [insert, find?, h]
  | cons p rest ih =>
    obtain ⟨ka, va⟩ := p
    by_cases h1 : k < ka
    · simp [insert, h1, find?, h]
    · by_cases h2 : k = ka
      · subst h2
        simp [insert, h1, find?, h]
      · by_cases h3 : k' = ka
        · simp [insert, h1, h2, find?, h3]
        · simp [insert, h1, h2, find?, h3, ih]

theorem find?_erase_ne (m : SMap V) (k k' : Int) (h : k' ≠ k) :
    find? (erase m k) k' = find? m k' := by
  induction m with
  | nil => simp [erase]
  | cons p rest ih =>
    obtain ⟨ka, va⟩ := p
    by_cases h1 : k = ka
    · subst h1
      simp [erase, find?, h]
    · by_cases h3 : k' = ka
      · simp [erase, h1, find?, h3]
      · simp [erase, h1, find?, h3, ih]

theorem sorted_tail {p : Int × V} {rest : SMap V} (h : SortedKeys (p :: rest)) :
    SortedKeys rest := by
  exact (List.pairwise_cons.mp h).2

theorem sorted_head_lt {p : Int × V} {rest : SMap V} (h : SortedKeys (p :: rest)) :
    ∀ q ∈ rest, p.1 < q.1 := by
  exact (List.pairwise_cons.mp h).1

theorem find?_eq_none_iff (m : SMap V) (k : Int) :
    find? m k = none ↔ ∀ p ∈ m, p.1 ≠ k := by
  induction m with
  | nil => simp [find?]
  | cons p rest ih =>
    obtain ⟨ka, va⟩ := p
    by_cases h1 : k = ka
    · subst h1
      simp [find?]
    · simp [find?, h1, ih]
      intro _
      exact fun h2 => h1 h2.symm

theorem find?_erase_self (m : SMap V) (k : Int) (h : SortedKeys m) :
    find? (erase m k) k = none := by
  induction m with
  | nil => simp [erase, find?]
  | cons p rest ih =>
    obtain ⟨ka, va⟩ := p
    by_cases h1 : k = ka
    · subst h1
      simp only [erase, if_pos rfl]
      rw [find?_eq_none_iff]
      intro q hq
      exact Int.ne_of_gt (sorted_head_lt h q hq)
    · simp only [erase, if_neg h1, find?, if_neg h1]
      exact ih (sorted_tail h)

theorem erase_of_not_mem (m : SMap V) (k : Int) (h : ∀ p ∈ m, p.1 ≠ k) :
    erase m k = m := by
  induction m with
  | nil => rfl
  | cons p rest ih =>
    obtain ⟨ka, va⟩ := p
    have hka : ka ≠ k := h (ka, va) (by simp)
    have hkka : ¬ (k = ka) := fun hh => hka hh.symm
    simp only [erase, if_neg hkka]
    rw [ih (fun q hq => h q (by simp [hq]))]

theorem insert_insert (m : SMap V) (k : Int) (v v' : V) :
    insert (insert m k v) k v' = insert m k v' := by
  induction m with
  | nil => simp [insert]
  | cons p rest ih =>
    obtain ⟨ka, va⟩ := p
    by_cases h1 : k < ka
    · simp [insert, h1, if_neg (lt_irrefl k)]
    · by_cases h2 : k = ka
      · subst h2
        simp [insert, h1, if_neg (lt_irrefl k)]
      · simp [insert, h1, h2, ih]

theorem insert_append (m : SMap V) (k : Int) (v : V) (h : ∀ p ∈ m, p.1 < k) :
    insert m k v = m ++ [(k, v)] := by
  induction m with
  | nil => rfl
  | cons p rest ih =>
    obtain ⟨ka, va⟩ := p
    have hka : ka < k := h (ka, va) (by simp)
    have h1 : ¬ k < ka := not_lt.mpr (le_of_lt hka)
    have h2 : k ≠ ka := Int.ne_of_gt hka
    simp only [insert, if_neg h1, if_neg h2, List.cons_append, List.cons.injEq, true_and]
    exact ih (fun q hq => h q (by simp [hq]))

theorem insert_of_find?_eq (m : SMap V) (k : Int) (v : V) (hs : SortedKeys m)
    (h : find? m k = some v) : insert m k v = m := by
  induction m with
  | nil => simp [find?] at h
  | cons p rest ih =>
    obtain ⟨ka, va⟩ := p
    by_cases h1 : k = ka
    · subst h1
      simp [find?] at h
      subst h
      simp [insert, if_neg (lt_irrefl k)]
    · simp only [find?, if_neg h1] at h
      have hk : ∃ q ∈ rest, q.1 = k := by
        by_contra hc
        push_neg at hc
        have hnone : find? rest k = none := (find?_eq_none_iff rest k).mpr hc
        simp [hnone] at h
      obtain ⟨q, hq, hqk⟩ := hk
      have hlt : ka < k := by
        have := sorted_head_lt hs q hq
        simpa [hqk] using this
      simp only [insert, if_neg (not_lt.mpr (le_of_lt hlt)), if_neg h1]
      rw [ih (sorted_tail hs) h]

theorem mem_insert (m : SMap V) (k : Int) (v : V) :
    ∀ q ∈ insert m k v, q = (k, v) ∨ q ∈ m := by
  induction m with
  | nil => simp [insert]
  | cons p rest ih =>
    obtain ⟨ka, va⟩ := p
    intro q hq
    by_cases h1 : k < ka
    · simp only [insert, if_pos h1] at hq
      rcases List.mem_cons.mp hq with h2 | h2
      · exact Or.inl h2
      · exact Or.inr h2
    · by_cases h2 : k = ka
      · simp only [insert, if_neg h1, if_pos h2] at hq
        rcases List.mem_cons.mp hq with h3 | h3
        · exact Or.inl h3
        · exact Or.inr (by simp [h3])
      · simp only [insert, if_neg h1, if_neg h2] at hq
        rcases List.mem_cons.mp hq with h3 | h3
        · exact Or.inr (by simp [h3])
        · rcases ih q h3 with h4 | h4
          · exact Or.inl h4
          · exact Or.inr (by simp [h4])

theorem sorted_insert (m : SMap V) (k : Int) (v : V) (h : SortedKeys m) :
    SortedKeys (insert m k v) := by
  induction m with
  | nil => simp [insert, SortedKeys]
  | cons p rest ih =>
    obtain ⟨ka, va⟩ := p
    by_cases h1 : k < ka
    · simp only [insert, if_pos h1]
      refine List.pairwise_cons.mpr ⟨?_, h⟩
      intro q hq
      rcases List.mem_cons.mp hq with h2 | h2
      · simp [h2, h1]
      · exact lt_trans h1 (sorted_head_lt h q h2)
    · by_cases h2 : k = ka
      · subst h2
        simp only [insert, if_neg h1, if_pos rfl]
        exact List.pairwise_cons.mpr ⟨fun q hq => sorted_head_lt h q hq, sorted_tail h⟩
      · have hlt : ka < k := lt_of_le_of_ne (not_lt.mp h1) (fun hh => h2 hh.symm)
        simp only [insert, if_neg h1, if_neg h2]
        refine List.pairwise_cons.mpr ⟨?_, ih (sorted_tail h)⟩
        intro q hq
        rcases mem_insert rest k v q hq with h3 | h3
        · simp [h3, hlt]
        · exact sorted_head_lt h q h3

theorem mem_of_mem_erase (m : SMap V) (k : Int) (q : Int × V) (h : q ∈ erase m k) :
    q ∈ m := by
  induction m with
  | nil => simp [erase] at h
  | cons p rest ih =>
    obtain ⟨ka, va⟩ := p
    by_cases h1 : k = ka
    · simp only [erase, if_pos h1] at h
      exact List.mem_cons.mpr (Or.inr h)
    · simp only [erase, if_neg h1] at h
      rcases List.mem_cons.mp h with h2 | h2
      · exact List.mem_cons.mpr (Or.inl h2)
      · exact List.mem_cons.mpr (Or.inr (ih h2))

theorem sorted_erase (m : SMap V) (k : Int) (h : SortedKeys m) :
    SortedKeys (erase m k) := by
  induction m with
  | nil => simpa [erase] using h
  | cons p rest ih =>
    obtain ⟨ka, va⟩ := p
    by_cases h1 : k = ka
    · simp only [erase, if_pos h1]
      exact sorted_tail h
    · simp only [erase, if_neg h1]
      refine List.pairwise_cons.mpr ⟨?_, ih (sorted_tail h)⟩
      intro q hq
      exact sorted_head_lt h q (mem_of_mem_erase rest k q hq)

theorem sorted_filter (m : SMap V) (p : Int × V → Bool) (h : SortedKeys m) :
    SortedKeys (List.filter p m) := by
  exact h.sublist (List.filter_sublist m)

theorem find?_filter (m : SMap V) (p : Int × V → Bool) (k : Int) (h : SortedKeys m) :
    find? (List.filter p m) k =
      match find? m k with
      | some v => if p (k, v) then some v else none
      | none => none := by
  induction m with
  | nil => simp [find?]
  | cons q rest ih =>
    obtain ⟨ka, va⟩ := q
    by_cases h1 : k = ka
    · subst h1
      by_cases h2 : p (k, va)
      · simp [List.filter_cons, h2, find?]
      · have hnone : find? (List.filter p rest) k = none := by
          rw [find?_eq_none_iff]
          intro q hq
          exact Int.ne_of_gt (sorted_head_lt h q (List.mem_of_mem_filter hq))
        simp [List.filter_cons, h2, hnone, find?]
    · by_cases h2 : p (ka, va)
      · simp [List.filter_cons, h2, find?, h1, ih (sorted_tail h)]
      · simp [List.filter_cons, h2, find?, h1, ih (sorted_tail h)]

theorem foldl_insert_append (l acc : SMap V)
    (hacc : ∀ p ∈ acc, ∀ q ∈ l, p.1 < q.1) (hl : SortedKeys l) :
    l.foldl (fun m q => insert m q.1 q.2) acc = acc ++ l := by
  induction l generalizing acc with
  | nil => simp
  | cons q rest ih =>
    obtain ⟨k, v⟩ := q
    simp only [List.foldl_cons]
    rw [insert_append acc k v (fun p hp => hacc p hp (k, v) (by simp))]
    rw [ih (acc ++ [(k, v)]) ?ha (sorted_tail hl)]
    · simp
    case ha =>
      intro p hp q hq
      rcases List.mem_append.mp hp with h | h
      · exact hacc p h q (by simp [hq])
      · simp only [List.mem_singleton] at h
        subst h
        exact sorted_head_lt hl q hq

end SMap

/-! ## Lemmas about integer iteration ranges -/

theorem intRange_of_le (lo hi : Int) (h : hi ≤ lo) : intRange lo hi = [] := by
  unfold intRange
  have : (hi - lo).toNat = 0 := by omega
  simp [this]

theorem intRange_cons (lo hi : Int) (h : lo < hi) :
    intRange lo hi = lo :: intRange (lo + 1) hi := by
  unfold intRange
  have h1 : (hi - lo).toNat = (hi - (lo + 1)).toNat + 1 := by omega
  rw [h1, List.range_succ_eq_map]
  simp only [List.map_cons, List.map_map, Nat.cast_zero, add_zero]
  have h2 : ((fun (j : Nat) => lo + (j : Int)) ∘ Nat.succ)
      = (fun (j : Nat) => lo + 1 + (j : Int)) := by
    funext j
    simp only [Function.comp_apply, Nat.succ_eq_add_one]
    push_cast
    ring
  rw [h2]

theorem intRange_append (lo hi : Int) (h : lo ≤ hi) :
    intRange lo (hi + 1) = intRange lo hi ++ [hi] := by
  unfold intRange
  have h1 : (hi + 1 - lo).toNat = (hi - lo).toNat + 1 := by omega
  rw [h1, List.range_succ]
  rw [List.map_append]
  congr 1
  simp only [List.map_cons, List.map_nil]
  congr 1
  omega

theorem mem_intRange (k lo hi : Int) : k ∈ intRange lo hi ↔ lo ≤ k ∧ k < hi := by
  unfold intRange
  simp only [List.mem_map, List.mem_range]
  constructor
  · rintro ⟨j, hj, rfl⟩
    omega
  · intro hk
    refine ⟨(k - lo).toNat, by omega, by omega⟩

/-! ## Effect lemmas for the mutation API -/

namespace FretDiagram

theorem dot_zero (d : FretDiagram) (s : Int) :
    d.dot s 0 = match SMap.find? d.dots s with
      | some l => l
      | none => [FretItem.Dot.mk 0 FretDotType.NORMAL] := by
  unfold dot
  cases SMap.find? d.dots s <;> simp

theorem dot_zero_filter (d : FretDiagram) (s : Int) (p : FretItem.Dot → Bool)
    (hp : p (FretItem.Dot.mk 0 FretDotType.NORMAL) = false) :
    (d.dot s 0).filter p = ((SMap.find? d.dots s).getD []).filter p := by
  rw [dot_zero]
  cases SMap.find? d.dots s <;> simp [hp]

theorem removeDot_def_pos (d : FretDiagram) (s f : Int) (hf : 0 < f) :
    d.removeDot s f =
      (if remainingDots d s f = [] then { d with dots := SMap.erase d.dots s }
       else { d with dots := SMap.insert d.dots s (remainingDots d s f) }) := by
  unfold removeDot
  rw [if_pos hf]
  rw [dot_zero_filter d s _ (by simp [FretItem.Dot.exists'])]
  rcases h : ((SMap.find? d.dots s).getD []).filter
      (fun dd => dd.exists' && decide (dd.fret ≠ f)) with _ | ⟨a, l⟩
  · simp [remainingDots, h]
  · simp [remainingDots, h]

theorem removeDot_def_nonpos (d : FretDiagram) (s f : Int) (hf : ¬ 0 < f) :
    d.removeDot s f = { d with dots := SMap.erase d.dots s } := by
  unfold removeDot
  rw [if_neg hf]

theorem removeDot_def_pos_empty (d : FretDiagram) (s f : Int) (hf : 0 < f)
    (hl : remainingDots d s f = []) :
    d.removeDot s f = { d with dots := SMap.erase d.dots s } := by
  rw [removeDot_def_pos d s f hf, if_pos hl]

theorem removeDot_def_pos_nonempty (d : FretDiagram) (s f : Int) (hf : 0 < f)
    (hl : ¬ remainingDots d s f = []) :
    d.removeDot s f = { d with dots := SMap.insert d.dots s (remainingDots d s f) } := by
  rw [removeDot_def_pos d s f hf, if_neg hl]

theorem removeDot_cases (d : FretDiagram) (s f : Int) :
    (d.removeDot s f).markers = d.markers ∧ (d.removeDot s f).barres = d.barres ∧
    (d.removeDot s f).strings = d.strings ∧ (d.removeDot s f).frets = d.frets ∧
    (d.removeDot s f).fretOffset = d.fretOffset := by
  by_cases hf : 0 < f
  · by_cases hl : remainingDots d s f = []
    · rw [removeDot_def_pos_empty d s f hf hl]
      exact ⟨rfl, rfl, rfl, rfl, rfl⟩
    · rw [removeDot_def_pos_nonempty d s f hf hl]
      exact ⟨rfl, rfl, rfl, rfl, rfl⟩
  · rw [removeDot_def_nonpos d s f hf]
    exact ⟨rfl, rfl, rfl, rfl, rfl⟩

theorem markers_removeDot (d : FretDiagram) (s f : Int) :
    (d.removeDot s f).markers = d.markers := (removeDot_cases d s f).1

theorem barres_removeDot (d : FretDiagram) (s f : Int) :
    (d.removeDot s f).barres = d.barres := (removeDot_cases d s f).2.1

theorem strings_removeDot (d : FretDiagram) (s f : Int) :
    (d.removeDot s f).strings = d.strings := (removeDot_cases d s f).2.2.1

theorem frets_removeDot (d : FretDiagram) (s f : Int) :
    (d.removeDot s f).frets = d.frets := (removeDot_cases d s f).2.2.2.1

theorem fretOffset_removeDot (d : FretDiagram) (s f : Int) :
    (d.removeDot s f).fretOffset = d.fretOffset := (removeDot_cases d s f).2.2.2.2

theorem sorted_dots_removeDot (d : FretDiagram) (s f : Int)
    (hs : SMap.SortedKeys d.dots) : SMap.SortedKeys (d.removeDot s f).dots := by
  by_cases hf : 0 < f
  · by_cases hl : remainingDots d s f = []
    · rw [removeDot_def_pos_empty d s f hf hl]
      exact SMap.sorted_erase _ _ hs
    · rw [removeDot_def_pos_nonempty d s f hf hl]
      exact SMap.sorted_insert _ _ _ hs
  · rw [removeDot_def_nonpos d s f hf]
    exact SMap.sorted_erase _ _ hs

theorem find?_dots_removeDot (d : FretDiagram) (s f k : Int)
    (hs : SMap.SortedKeys d.dots) :
    SMap.find? (d.removeDot s f).dots k =
      if k = s then
        (if 0 < f then
          (if remainingDots d s f = [] then none else some (remainingDots d s f))
         else none)
      else SMap.find? d.dots k := by
  by_cases hf : 0 < f
  · by_cases hl : remainingDots d s f = []
    · rw [removeDot_def_pos_empty d s f hf hl]
      by_cases hk : k = s
      · subst hk
        simp only [if_pos rfl, if_pos hf, if_pos hl]
        exact SMap.find?_erase_self d.dots k hs
      · simp only [if_neg hk]
        exact SMap.find?_erase_ne d.dots s k hk
    · rw [removeDot_def_pos_nonempty d s f hf hl]
      by_cases hk : k = s
      · subst hk
        simp only [if_pos rfl, if_pos hf, if_neg hl]
        exact SMap.find?_insert_self d.dots k _
      · simp only [if_neg hk]
        exact SMap.find?_insert_ne d.dots s k _ hk
  · rw [removeDot_def_nonpos d s f hf]
    by_cases hk : k = s
    · subst hk
      simp only [if_pos rfl, if_neg hf]
      exact SMap.find?_erase_self d.dots k hs
    · simp only [if_neg hk]
      exact SMap.find?_erase_ne d.dots s k hk

theorem removeDot_all (d : FretDiagram) (s : Int) :
    d.removeDot s 0 = { d with dots := SMap.erase d.dots s } :=
  removeDot_def_nonpos d s 0 (by omega)

end FretDiagram

namespace FretDiagram

theorem marker_eq (d : FretDiagram) (s : Int) :
    d.marker s = (SMap.find? d.markers s).getD (FretItem.Marker.mk FretMarkerType.NONE) := by
  unfold marker
  cases SMap.find? d.markers s <;> simp

theorem barre_eq (d : FretDiagram) (f : Int) :
    d.barre f = (SMap.find? d.barres f).getD (FretItem.Barre.mk (-1) (-1)) := by
  unfold barre
  cases SMap.find? d.barres f <;> simp

theorem removeBarres_zero (d : FretDiagram) (s : Int) :
    d.removeBarres s 0 =
      { d with barres := d.barres.filter (fun i => !(barreTouches s i)) } := by
  unfold removeBarres
  congr 1
  apply List.filter_congr
  intro i _
  simp only [barreTouches]
  have h0 : decide ((0 : Int) ≤ 0) = true := by decide
  rw [h0]
  cases i.2.exists' <;> cases decide (i.2.startString ≤ s)
    <;> cases decide (i.2.endString ≥ s) <;> cases decide (i.2.endString = -1) <;> rfl

theorem setMarker_out (d : FretDiagram) (s : Int) (t : FretMarkerType)
    (h : ¬ (0 ≤ s ∧ s < d.strings)) : d.setMarker s t = d := by
  unfold setMarker
  rw [if_neg h]

theorem setMarker_none (d : FretDiagram) (s : Int) (h : 0 ≤ s ∧ s < d.strings) :
    d.setMarker s FretMarkerType.NONE =
      { d with markers := SMap.insert d.markers s (FretItem.Marker.mk FretMarkerType.NONE) } := by
  unfold setMarker
  rw [if_pos h]
  simp

theorem setMarker_some (d : FretDiagram) (s : Int) (t : FretMarkerType)
    (h : 0 ≤ s ∧ s < d.strings) (ht : t ≠ FretMarkerType.NONE) :
    d.setMarker s t =
      { d with markers := SMap.insert d.markers s (FretItem.Marker.mk t),
               dots := SMap.erase d.dots s,
               barres := d.barres.filter (fun i => !(barreTouches s i)) } := by
  unfold setMarker
  rw [if_pos h]
  simp only [if_pos ht]
  rw [removeDot_all]
  rw [removeBarres_zero]

theorem setDot_zero (d : FretDiagram) (s : Int) (add : Bool) (t : FretDotType) :
    d.setDot s 0 add t = { d with dots := SMap.erase d.dots s } := by
  unfold setDot
  rw [if_pos rfl]
  exact removeDot_all d s

theorem setDot_out (d : FretDiagram) (s f : Int) (add : Bool) (t : FretDotType)
    (hf : f ≠ 0) (h : ¬ (0 ≤ s ∧ s < d.strings)) : d.setDot s f add t = d := by
  unfold setDot
  rw [if_neg hf, if_neg h]

theorem setDot_add_found (d : FretDiagram) (s f : Int) (t : FretDotType)
    (hf : f ≠ 0) (h : 0 ≤ s ∧ s < d.strings)
    (hfound : ((d.dot s f).headD (FretItem.Dot.mk 0 FretDotType.NORMAL)).exists' = true) :
    d.setDot s f true t = d.removeDot s f := by
  unfold setDot
  rw [if_neg hf, if_pos h]
  simp only [Bool.true_and]
  rw [if_pos hfound]

theorem setDot_add_new (d : FretDiagram) (s f : Int) (t : FretDotType)
    (hf : f ≠ 0) (h : 0 ≤ s ∧ s < d.strings)
    (hnf : ((d.dot s f).headD (FretItem.Dot.mk 0 FretDotType.NORMAL)).exists' = false) :
    d.setDot s f true t =
      { d with dots := SMap.insert d.dots s (((SMap.find? d.dots s).getD []) ++ [FretItem.Dot.mk f t]) } := by
  unfold setDot
  rw [if_neg hf, if_pos h]
  simp only [Bool.true_and]
  have hnf' : ¬ ((d.dot s f).headD (FretItem.Dot.mk 0 FretDotType.NORMAL)).exists' = true := by
    rw [hnf]
    simp
  rw [if_neg hnf']
  simp

theorem setDot_replace (d : FretDiagram) (s f : Int) (t : FretDotType)
    (hf : f ≠ 0) (h : 0 ≤ s ∧ s < d.strings) :
    d.setDot s f false t =
      { d with dots := SMap.insert d.dots s [FretItem.Dot.mk f t],
               markers := SMap.insert d.markers s (FretItem.Marker.mk FretMarkerType.NONE) } := by
  unfold setDot
  rw [if_neg hf, if_pos h]
  simp only [Bool.false_and, Bool.false_eq_true, if_false]
  rw [setMarker_none]
  · simp [SMap.find?_insert_self, SMap.insert_insert]
  · exact h

theorem setBarre_remove (d : FretDiagram) (e f : Int) :
    d.setBarre (-1) e f = d.removeBarre f := by
  unfold setBarre
  simp

theorem setBarre_store (d : FretDiagram) (ss es f : Int) (hss : ss ≠ -1)
    (h : 0 ≤ ss ∧ -1 ≤ es ∧ ss < d.strings ∧ es < d.strings) :
    d.setBarre ss es f =
      { d with barres := SMap.insert d.barres f (FretItem.Barre.mk ss es) } := by
  unfold setBarre
  rw [if_neg hss, if_pos h]

theorem setBarre_out (d : FretDiagram) (ss es f : Int) (hss : ss ≠ -1)
    (h : ¬ (0 ≤ ss ∧ -1 ≤ es ∧ ss < d.strings ∧ es < d.strings)) :
    d.setBarre ss es f = d := by
  unfold setBarre
  rw [if_neg hss, if_neg h]

theorem clear_def (d : FretDiagram) :
    d.clear = { d with barres := [], dots := [], markers := [] } := rfl

end FretDiagram

/-! ## The `removeDotsMarkers` loop -/

namespace FretDiagram

theorem intRange_nodup (lo hi : Int) : (intRange lo hi).Nodup := by
  unfold intRange
  refine List.Nodup.map ?_ (List.nodup_range _)
  intro a b hab
  have hab' : lo + (a : Int) = lo + (b : Int) := hab
  omega

theorem rdmStep_strings (fret : Int) (d : FretDiagram) (s : Int) :
    (rdmStep fret d s).strings = d.strings := by
  simp only [rdmStep]
  split
  · exact strings_removeDot d s fret
  · exact strings_removeDot d s fret

theorem rdmStep_frets (fret : Int) (d : FretDiagram) (s : Int) :
    (rdmStep fret d s).frets = d.frets := by
  simp only [rdmStep]
  split
  · exact frets_removeDot d s fret
  · exact frets_removeDot d s fret

theorem rdmStep_barres (fret : Int) (d : FretDiagram) (s : Int) :
    (rdmStep fret d s).barres = d.barres := by
  simp only [rdmStep]
  split
  · exact barres_removeDot d s fret
  · exact barres_removeDot d s fret

theorem rdmStep_dots (fret : Int) (d : FretDiagram) (s : Int) :
    (rdmStep fret d s).dots = (d.removeDot s fret).dots := by
  simp only [rdmStep]
  split
  · rfl
  · rfl

theorem rdmStep_markers (fret : Int) (d : FretDiagram) (s : Int) (k : Int)
    (hsm : SMap.SortedKeys d.markers) :
    SMap.find? (rdmStep fret d s).markers k =
      (if k = s then
        (match SMap.find? d.markers k with
         | some m => if m.mtype = FretMarkerType.NONE then some m else none
         | none => none)
       else SMap.find? d.markers k) := by
  simp only [rdmStep]
  have hm : (d.removeDot s fret).markers = d.markers := markers_removeDot d s fret
  split
  · next hex =>
    rw [marker_eq, hm] at hex
    show SMap.find? ((d.removeDot s fret).markers.erase s) k = _
    rw [hm]
    by_cases hk : k = s
    · subst hk
      rw [SMap.find?_erase_self _ _ hsm]
      cases hfind : SMap.find? d.markers k with
      | none => simp
      | some m =>
        rw [hfind] at hex
        simp only [Option.getD_some, FretItem.Marker.exists'] at hex
        rw [decide_eq_true_eq] at hex
        simp [hex]
    · rw [SMap.find?_erase_ne _ _ _ hk]
      simp [hk]
  · next hex =>
    rw [marker_eq, hm] at hex
    rw [hm]
    by_cases hk : k = s
    · subst hk
      cases hfind : SMap.find? d.markers k with
      | none => simp
      | some m =>
        rw [hfind] at hex
        simp only [Option.getD_some, FretItem.Marker.exists'] at hex
        rw [Bool.not_eq_true, decide_eq_false_iff_not] at hex
        push_neg at hex
        simp [hex]
    · simp [hk]

theorem rdmStep_sorted_dots (fret : Int) (d : FretDiagram) (s : Int)
    (hs : SMap.SortedKeys d.dots) : SMap.SortedKeys (rdmStep fret d s).dots := by
  rw [rdmStep_dots]
  exact sorted_dots_removeDot d s fret hs

theorem rdmStep_sorted_markers (fret : Int) (d : FretDiagram) (s : Int)
    (hs : SMap.SortedKeys d.markers) : SMap.SortedKeys (rdmStep fret d s).markers := by
  simp only [rdmStep]
  split
  · show SMap.SortedKeys ((d.removeDot s fret).markers.erase s)
    rw [markers_removeDot]
    exact SMap.sorted_erase _ _ hs
  · show SMap.SortedKeys (d.removeDot s fret).markers
    rw [markers_removeDot]
    exact hs

end FretDiagram

namespace FretDiagram

theorem remainingDots_congr (d d' : FretDiagram) (s f : Int)
    (h : SMap.find? d'.dots s = SMap.find? d.dots s) :
    remainingDots d' s f = remainingDots d s f := by
  unfold remainingDots
  rw [h]

theorem rdmStep_find?_dots (fret : Int) (d : FretDiagram) (s k : Int)
    (hsd : SMap.SortedKeys d.dots) :
    SMap.find? (rdmStep fret d s).dots k =
      if k = s then
        (if 0 < fret then
          (if remainingDots d s fret = [] then none else some (remainingDots d s fret))
         else none)
      else SMap.find? d.dots k := by
  rw [rdmStep_dots]
  exact find?_dots_removeDot d s fret k hsd

theorem rdmFold_effect (fret : Int) (L : List Int) (hL : L.Nodup) (d : FretDiagram)
    (hsd : SMap.SortedKeys d.dots) (hsm : SMap.SortedKeys d.markers) :
    (L.foldl (rdmStep fret) d).strings = d.strings ∧
    (L.foldl (rdmStep fret) d).frets = d.frets ∧
    (L.foldl (rdmStep fret) d).barres = d.barres ∧
    SMap.SortedKeys (L.foldl (rdmStep fret) d).dots ∧
    SMap.SortedKeys (L.foldl (rdmStep fret) d).markers ∧
    (∀ k, SMap.find? (L.foldl (rdmStep fret) d).dots k =
      if k ∈ L then
        (if 0 < fret then
          (if remainingDots d k fret = [] then none else some (remainingDots d k fret))
         else none)
      else SMap.find? d.dots k) ∧
    (∀ k, SMap.find? (L.foldl (rdmStep fret) d).markers k =
      if k ∈ L then
        (match SMap.find? d.markers k with
         | some m => if m.mtype = FretMarkerType.NONE then some m else none
         | none => none)
      else SMap.find? d.markers k) := by
  induction L generalizing d with
  | nil => exact ⟨rfl, rfl, rfl, hsd, hsm, fun k => by simp, fun k => by simp⟩
  | cons s0 rest ih =>
    have hs0 : s0 ∉ rest := (List.nodup_cons.mp hL).1
    have hrest : rest.Nodup := (List.nodup_cons.mp hL).2
    have hsd' : SMap.SortedKeys (rdmStep fret d s0).dots := rdmStep_sorted_dots fret d s0 hsd
    have hsm' : SMap.SortedKeys (rdmStep fret d s0).markers :=
      rdmStep_sorted_markers fret d s0 hsm
    obtain ⟨ih1, ih2, ih3, ih4, ih5, ih6, ih7⟩ := ih hrest (rdmStep fret d s0) hsd' hsm'
    simp only [List.foldl_cons]
    refine ⟨by rw [ih1, rdmStep_strings], by rw [ih2, rdmStep_frets],
      by rw [ih3, rdmStep_barres], ih4, ih5, ?_, ?_⟩
    · intro k
      rw [ih6 k]
      by_cases hkr : k ∈ rest
      · have hks0 : k ≠ s0 := fun hh => hs0 (hh ▸ hkr)
        have hfind : SMap.find? (rdmStep fret d s0).dots k = SMap.find? d.dots k := by
          rw [rdmStep_find?_dots fret d s0 k hsd, if_neg hks0]
        rw [if_pos hkr, if_pos (List.mem_cons.mpr (Or.inr hkr))]
        rw [remainingDots_congr d (rdmStep fret d s0) k fret hfind]
      · rw [if_neg hkr]
        rw [rdmStep_find?_dots fret d s0 k hsd]
        by_cases hks0 : k = s0
        · subst hks0
          rw [if_pos rfl, if_pos (List.mem_cons.mpr (Or.inl rfl))]
        · rw [if_neg hks0, if_neg (by simp [hks0, hkr])]
    · intro k
      rw [ih7 k]
      by_cases hkr : k ∈ rest
      · have hks0 : k ≠ s0 := fun hh => hs0 (hh ▸ hkr)
        have hfind : SMap.find? (rdmStep fret d s0).markers k = SMap.find? d.markers k := by
          rw [rdmStep_markers fret d s0 k hsm, if_neg hks0]
        rw [if_pos hkr, if_pos (List.mem_cons.mpr (Or.inr hkr))]
        rw [hfind]
      · rw [if_neg hkr]
        rw [rdmStep_markers fret d s0 k hsm]
        by_cases hks0 : k = s0
        · subst hks0
          rw [if_pos rfl, if_pos (List.mem_cons.mpr (Or.inl rfl))]
        · rw [if_neg hks0, if_neg (by simp [hks0, hkr])]

theorem removeDotsMarkers_effect (d : FretDiagram) (ss es fret : Int) (hss : ¬ ss = -1)
    (hsd : SMap.SortedKeys d.dots) (hsm : SMap.SortedKeys d.markers) :
    (d.removeDotsMarkers ss es fret).strings = d.strings ∧
    (d.removeDotsMarkers ss es fret).frets = d.frets ∧
    (d.removeDotsMarkers ss es fret).barres = d.barres ∧
    SMap.SortedKeys (d.removeDotsMarkers ss es fret).dots ∧
    SMap.SortedKeys (d.removeDotsMarkers ss es fret).markers ∧
    (∀ k, SMap.find? (d.removeDotsMarkers ss es fret).dots k =
      if ss ≤ k ∧ k ≤ (if es = -1 then d.strings else es) then
        (if 0 < fret then
          (if remainingDots d k fret = [] then none else some (remainingDots d k fret))
         else none)
      else SMap.find? d.dots k) ∧
    (∀ k, SMap.find? (d.removeDotsMarkers ss es fret).markers k =
      if ss ≤ k ∧ k ≤ (if es = -1 then d.strings else es) then
        (match SMap.find? d.markers k with
         | some m => if m.mtype = FretMarkerType.NONE then some m else none
         | none => none)
      else SMap.find? d.markers k) := by
  have hdef : d.removeDotsMarkers ss es fret =
      (intRangeIncl ss (if es = -1 then d.strings else es)).foldl (rdmStep fret) d := by
    unfold removeDotsMarkers
    rw [if_neg hss]
  obtain ⟨h1, h2, h3, h4, h5, h6, h7⟩ :=
    rdmFold_effect fret (intRangeIncl ss (if es = -1 then d.strings else es))
      (intRange_nodup _ _) d hsd hsm
  rw [hdef]
  refine ⟨h1, h2, h3, h4, h5, ?_, ?_⟩
  · intro k
    rw [h6 k]
    have hiff : k ∈ intRangeIncl ss (if es = -1 then d.strings else es) ↔
        (ss ≤ k ∧ k ≤ (if es = -1 then d.strings else es)) := by
      unfold intRangeIncl
      rw [mem_intRange]
      omega
    by_cases hk : ss ≤ k ∧ k ≤ (if es = -1 then d.strings else es)
    · rw [if_pos (hiff.mpr hk), if_pos hk]
    · rw [if_neg (fun hh => hk (hiff.mp hh)), if_neg hk]
  · intro k
    rw [h7 k]
    have hiff : k ∈ intRangeIncl ss (if es = -1 then d.strings else es) ↔
        (ss ≤ k ∧ k ≤ (if es = -1 then d.strings else es)) := by
      unfold intRangeIncl
      rw [mem_intRange]
      omega
    by_cases hk : ss ≤ k ∧ k ≤ (if es = -1 then d.strings else es)
    · rw [if_pos (hiff.mpr hk), if_pos hk]
    · rw [if_neg (fun hh => hk (hiff.mp hh)), if_neg hk]

end FretDiagram

/-! ## Toggle-form setBarre lemmas -/

instance {V : Type} (m : SMap V) : Decidable (SMap.SortedKeys m) :=
  inferInstanceAs (Decidable (List.Pairwise (fun (a b : Int × V) => a.1 < b.1) m))

namespace FretDiagram

theorem setBarreToggle_noop (d : FretDiagram) (s f : Int)
    (hb : (d.barre f).exists' = false) (hs : ¬ s < d.strings - 1) :
    d.setBarreToggle s f = d := by
  unfold setBarreToggle
  rw [if_pos (by simp [hb])]
  rw [if_neg hs]

theorem setBarreToggle_create (d : FretDiagram) (s f : Int)
    (hb : (d.barre f).exists' = false) (hs : s < d.strings - 1) :
    d.setBarreToggle s f =
      removeDotsMarkers { d with barres := SMap.insert d.barres f (FretItem.Barre.mk s (-1)) } s (-1) f := by
  unfold setBarreToggle
  rw [if_pos (by simp [hb])]
  rw [if_pos hs]

theorem setBarreToggle_close (d : FretDiagram) (s f : Int)
    (hb : (d.barre f).exists' = true)
    (he : (d.barre f).endString = -1 ∧ (d.barre f).startString < s) :
    d.setBarreToggle s f =
      { d with barres := SMap.insert d.barres f (FretItem.Barre.mk (d.barre f).startString s) } := by
  unfold setBarreToggle
  rw [if_neg (by simp [hb])]
  rw [if_pos he]

theorem setBarreToggle_remove (d : FretDiagram) (s f : Int)
    (hb : (d.barre f).exists' = true)
    (he : ¬ ((d.barre f).endString = -1 ∧ (d.barre f).startString < s)) :
    d.setBarreToggle s f =
      (d.removeDotsMarkers (d.barre f).startString (d.barre f).endString f).removeBarre f := by
  unfold setBarreToggle
  rw [if_neg (by simp [hb])]
  rw [if_neg he]

end FretDiagram

namespace FretDiagram

theorem marker_exists_none_formula (o : Option FretItem.Marker) :
    FretItem.Marker.exists' ((match o with
      | some m => if m.mtype = FretMarkerType.NONE then some m else none
      | none => none).getD (FretItem.Marker.mk FretMarkerType.NONE)) = false := by
  cases o with
  | none => rfl
  | some m =>
    by_cases hm : m.mtype = FretMarkerType.NONE
    · simp [hm, FretItem.Marker.exists']
    · simp [hm, FretItem.Marker.exists']

end FretDiagram


/-! ## Claims -/

open FretDiagram

/-- C1: the claim states that the markers map never holds an entry of type
NONE after public mutations, and that `setMarker(s, NONE)` removes the
entry at `s`.  The code stores a `Marker(NONE)` instead: after the single
mutation `setMarker(0, NONE)` on a fresh 6-string diagram — a reachable
state — the markers map holds the key `0` with a NONE marker, which is
neither CIRCLE nor CROSS. -/
theorem c1_counterexample :
    Reachable ((initDiagram 6 4).setMarker 0 FretMarkerType.NONE) ∧
    SMap.find? ((initDiagram 6 4).setMarker 0 FretMarkerType.NONE).markers 0
      = some (FretItem.Marker.mk FretMarkerType.NONE) :=
  ⟨Reachable.setMarker _ 0 _ (Reachable.init 6 4), by decide⟩

/-- C1 (amended): for an in-range string, `setMarker(s, t)` always stores
the entry `t` at key `s` — including `t = NONE`, which is stored rather
than removed — leaving the other keys untouched; a NONE entry is reported
as non-existing by the `marker` accessor, and `setMarker(s, NONE)` touches
neither dots nor barres. -/
theorem c1_amended (d : FretDiagram) (s : Int) (t : FretMarkerType)
    (h : 0 ≤ s ∧ s < d.strings) :
    SMap.find? (d.setMarker s t).markers s = some (FretItem.Marker.mk t) ∧
    ((d.setMarker s t).marker s).exists' = decide (t ≠ FretMarkerType.NONE) ∧
    (t = FretMarkerType.NONE →
      (d.setMarker s t).dots = d.dots ∧ (d.setMarker s t).barres = d.barres) ∧
    (∀ q, q ≠ s → SMap.find? (d.setMarker s t).markers q = SMap.find? d.markers q) := by
  by_cases ht : t = FretMarkerType.NONE
  · subst ht
    rw [setMarker_none d s h]
    refine ⟨SMap.find?_insert_self _ _ _, ?_, fun _ => ⟨rfl, rfl⟩, ?_⟩
    · rw [marker_eq]
      show FretItem.Marker.exists'
          ((SMap.find? (SMap.insert d.markers s (FretItem.Marker.mk FretMarkerType.NONE)) s).getD
            (FretItem.Marker.mk FretMarkerType.NONE)) = _
      rw [SMap.find?_insert_self]
      decide
    · intro q hq
      exact SMap.find?_insert_ne d.markers s q _ hq
  · rw [setMarker_some d s t h ht]
    refine ⟨SMap.find?_insert_self _ _ _, ?_, fun hh => absurd hh ht, ?_⟩
    · rw [marker_eq]
      show FretItem.Marker.exists'
          ((SMap.find? (SMap.insert d.markers s (FretItem.Marker.mk t)) s).getD
            (FretItem.Marker.mk FretMarkerType.NONE)) = _
      rw [SMap.find?_insert_self]
      simp [FretItem.Marker.exists']
    · intro q hq
      exact SMap.find?_insert_ne d.markers s q _ hq

/-- C1 (amended) witness: a concrete in-range call. -/
theorem c1_amended_witness :
    (0 ≤ (0 : Int) ∧ (0 : Int) < (initDiagram 6 4).strings) ∧
    SMap.find? ((initDiagram 6 4).setMarker 0 FretMarkerType.NONE).markers 0
      = some (FretItem.Marker.mk FretMarkerType.NONE) :=
  ⟨by decide, (c1_amended (initDiagram 6 4) 0 FretMarkerType.NONE (by decide)).1⟩

/-- C7: the claim states that a mutator call with an out-of-range string
or fret argument leaves the diagram exactly as it was.  `setDot` never
validates the fret: on a fresh 6-string, 4-fret diagram, the call
`setDot(0, -1)` — fret `-1` is out of range for any diagram — stores a
(non-existing) dot and a NONE marker, changing the state. -/
theorem c7_counterexample :
    (initDiagram 6 4).setDot 0 (-1) false FretDotType.NORMAL ≠ initDiagram 6 4 := by
  decide

/-- C7 (amended): `setDot` (with a nonzero fret), `setMarker`, and the
three-argument `setBarre` are silent no-ops when the *string* argument is
out of range (for `setBarre`, when either end point is out of range, `-1`
being the removal/open-end sentinel); fret arguments are not validated. -/
theorem c7_amended (d : FretDiagram) (s : Int) (hs : ¬ (0 ≤ s ∧ s < d.strings)) :
    (∀ f add t, f ≠ 0 → d.setDot s f add t = d) ∧
    (∀ tm, d.setMarker s tm = d) ∧
    (∀ es f, s ≠ -1 → d.setBarre s es f = d) ∧
    (∀ ss f, ss ≠ -1 → s ≠ -1 → d.setBarre ss s f = d) := by
  refine ⟨?_, ?_, ?_, ?_⟩
  · intro f add t hf
    exact setDot_out d s f add t hf hs
  · intro tm
    exact setMarker_out d s tm hs
  · intro es f hneg
    refine setBarre_out d s es f hneg ?_
    intro hh
    exact hs ⟨hh.1, hh.2.2.1⟩
  · intro ss f hss hneg
    refine setBarre_out d ss s f hss ?_
    intro hh
    rcases hh with ⟨h1, h2, h3, h4⟩
    rcases not_and_or.mp hs with h5 | h5
    · omega
    · omega

/-- C7 (amended) witness: string 6 is out of range on a 6-string diagram;
the three mutators leave the fresh diagram untouched. -/
theorem c7_amended_witness :
    (initDiagram 6 4).setDot 6 1 false FretDotType.NORMAL = initDiagram 6 4 ∧
    (initDiagram 6 4).setMarker 6 FretMarkerType.CIRCLE = initDiagram 6 4 ∧
    (initDiagram 6 4).setBarre 6 (-1) 1 = initDiagram 6 4 ∧
    (initDiagram 6 4).setBarre 0 6 1 = initDiagram 6 4 := by
  obtain ⟨h1, h2, h3, h4⟩ := c7_amended (initDiagram 6 4) 6 (by decide)
  exact ⟨h1 1 false FretDotType.NORMAL (by decide), h2 FretMarkerType.CIRCLE,
    h3 (-1) 1 (by decide), h4 0 1 (by decide) (by decide)⟩


/-- C8: the claim omits the creation guard and overstates the clearing.
First conjunct: on a fresh 6-string diagram with no barre at fret 1,
`setBarre(5, 1, add)` creates nothing, because a barre may not start at
the last string (`string < strings - 1` fails).  Second conjunct: the
clearing pass removes only dots *at the barre's fret*: a dot at
(string 2, fret 3) survives `setBarre(0, 1, add)` although the claim says
dots on every string in `[0, 6)` are cleared. -/
theorem c8_counterexample :
    ((initDiagram 6 4).setBarreToggle 5 1).barres = [] ∧
    SMap.find?
      ((((initDiagram 6 4).setDot 2 3 true FretDotType.NORMAL)).setBarreToggle 0 1).dots 2
      = some [FretItem.Dot.mk 3 FretDotType.NORMAL] := by
  constructor
  · decide
  · decide

/-- C8 (amended): the toggle form is a three-way case split, with two
corrections.  Creation only happens for `string < strings - 1` (otherwise
the call is a no-op), and the clearing passes remove the markers and only
the dots at the barre's own fret.  Branch 1 (no barre at `fret`): create
`(string, -1)` and clear markers/fret-dots on strings `[string, strings]`,
leaving lower strings and other barres alone.  Branch 2 (open barre
starting left of `string`): close it at `string`.  Branch 3 (otherwise):
clear markers/fret-dots across the barre's span and erase the barre. -/
theorem c8_amended (d : FretDiagram) (string fret : Int)
    (hsd : SMap.SortedKeys d.dots) (hsm : SMap.SortedKeys d.markers)
    (hsb : SMap.SortedKeys d.barres) (hf : 0 < fret) (h0 : 0 ≤ string) :
    ((d.barre fret).exists' = false → ¬ string < d.strings - 1 →
      d.setBarreToggle string fret = d) ∧
    ((d.barre fret).exists' = false → string < d.strings - 1 →
      SMap.find? (d.setBarreToggle string fret).barres fret
          = some (FretItem.Barre.mk string (-1)) ∧
      (∀ g, g ≠ fret → SMap.find? (d.setBarreToggle string fret).barres g
          = SMap.find? d.barres g) ∧
      (∀ k, string ≤ k → k ≤ d.strings →
        SMap.find? (d.setBarreToggle string fret).dots k =
          (if remainingDots d k fret = [] then none
           else some (remainingDots d k fret)) ∧
        ((d.setBarreToggle string fret).marker k).exists' = false) ∧
      (∀ k, k < string →
        SMap.find? (d.setBarreToggle string fret).dots k = SMap.find? d.dots k ∧
        SMap.find? (d.setBarreToggle string fret).markers k = SMap.find? d.markers k)) ∧
    ((d.barre fret).exists' = true → (d.barre fret).endString = -1 →
        (d.barre fret).startString < string →
      d.setBarreToggle string fret =
        { d with barres := SMap.insert d.barres fret (FretItem.Barre.mk (d.barre fret).startString string) }) ∧
    ((d.barre fret).exists' = true →
        ¬ ((d.barre fret).endString = -1 ∧ (d.barre fret).startString < string) →
      SMap.find? (d.setBarreToggle string fret).barres fret = none ∧
      (∀ g, g ≠ fret → SMap.find? (d.setBarreToggle string fret).barres g
          = SMap.find? d.barres g) ∧
      (∀ k, (d.barre fret).startString ≤ k →
          k ≤ (if (d.barre fret).endString = -1 then d.strings
               else (d.barre fret).endString) →
        SMap.find? (d.setBarreToggle string fret).dots k =
          (if remainingDots d k fret = [] then none
           else some (remainingDots d k fret)) ∧
        ((d.setBarreToggle string fret).marker k).exists' = false)) := by
  refine ⟨?_, ?_, ?_, ?_⟩
  · intro hb hs
    exact setBarreToggle_noop d string fret hb hs
  · intro hb hs
    rw [setBarreToggle_create d string fret hb hs]
    set d1 : FretDiagram :=
      { d with barres := SMap.insert d.barres fret (FretItem.Barre.mk string (-1)) } with hd1
    have hss : ¬ string = -1 := by omega
    obtain ⟨e1, e2, e3, e4, e5, e6, e7⟩ :=
      removeDotsMarkers_effect d1 string (-1) fret hss hsd hsm
    constructor
    · rw [e3]
      show SMap.find? (SMap.insert d.barres fret (FretItem.Barre.mk string (-1))) fret = _
      exact SMap.find?_insert_self _ _ _
    constructor
    · intro g hg
      rw [e3]
      exact SMap.find?_insert_ne d.barres fret g _ hg
    constructor
    · intro k hk1 hk2
      constructor
      · rw [e6 k, if_pos (by simp; omega), if_pos hf]
        rfl
      · rw [marker_eq, e7 k, if_pos (by simp; omega)]
        exact marker_exists_none_formula (SMap.find? d.markers k)
    · intro k hk
      constructor
      · rw [e6 k, if_neg (by simp; omega)]
      · rw [e7 k, if_neg (by simp; omega)]
  · intro hb he1 he2
    exact setBarreToggle_close d string fret hb ⟨he1, he2⟩
  · intro hb hne
    rw [setBarreToggle_remove d string fret hb hne]
    have hstart : 0 ≤ (d.barre fret).startString := by
      have := hb
      unfold FretItem.Barre.exists' at this
      rw [decide_eq_true_eq] at this
      omega
    have hss : ¬ (d.barre fret).startString = -1 := by omega
    obtain ⟨e1, e2, e3, e4, e5, e6, e7⟩ :=
      removeDotsMarkers_effect d (d.barre fret).startString (d.barre fret).endString
        fret hss hsd hsm
    constructor
    · show SMap.find? (SMap.erase _ fret) fret = none
      rw [e3]
      exact SMap.find?_erase_self d.barres fret hsb
    constructor
    · intro g hg
      show SMap.find? (SMap.erase _ fret) g = _
      rw [e3]
      exact SMap.find?_erase_ne d.barres fret g hg
    · intro k hk1 hk2
      constructor
      · show SMap.find?
            (removeDotsMarkers d (d.barre fret).startString (d.barre fret).endString fret).dots k = _
        rw [e6 k, if_pos ⟨hk1, hk2⟩, if_pos hf]
      · show FretItem.Marker.exists'
            ((removeDotsMarkers d (d.barre fret).startString (d.barre fret).endString fret).marker k) = _
        rw [marker_eq, e7 k, if_pos ⟨hk1, hk2⟩]
        exact marker_exists_none_formula (SMap.find? d.markers k)

/-- C8 (amended) witness: on a diagram with one dot at (0, 2) and no
barre, toggling at (0, 2) creates the open barre `(0, -1)` at fret 2. -/
theorem c8_amended_witness :
    SMap.find?
      (((initDiagram 6 4).setDot 0 2 true FretDotType.NORMAL).setBarreToggle 0 2).barres 2
      = some (FretItem.Barre.mk 0 (-1)) := by
  have h := c8_amended ((initDiagram 6 4).setDot 0 2 true FretDotType.NORMAL) 0 2
    (by decide) (by decide) (by decide) (by decide) (by decide)
  exact (h.2.1 (by decide) (by decide)).1


namespace SMap

theorem find?_mem {V : Type} (m : SMap V) (k : Int) (v : V)
    (h : find? m k = some v) : (k, v) ∈ m := by
  induction m with
  | nil => simp [find?] at h
  | cons p rest ih =>
    obtain ⟨ka, va⟩ := p
    by_cases hk : k = ka
    · subst hk
      simp [find?] at h
      subst h
      exact List.mem_cons_self _ _
    · simp only [find?, if_neg hk] at h
      exact List.mem_cons.mpr (Or.inr (ih h))

end SMap

namespace FretDiagram

theorem dot_of_find?_none (d : FretDiagram) (s f : Int)
    (h : SMap.find? d.dots s = none) :
    d.dot s f = [FretItem.Dot.mk 0 FretDotType.NORMAL] := by
  unfold dot
  rw [h]

theorem dot_pos_eq (d : FretDiagram) (s f : Int) (hf : f ≠ 0) :
    d.dot s f =
      match ((SMap.find? d.dots s).getD []).find? (fun dd => decide (dd.fret = f)) with
      | some dd => [dd]
      | none => [FretItem.Dot.mk 0 FretDotType.NORMAL] := by
  unfold dot
  cases SMap.find? d.dots s with
  | none => simp
  | some l =>
    simp only [Option.getD_some]
    rw [if_pos hf]

theorem dot_head_exists_iff (d : FretDiagram) (s f : Int) (hf : 0 < f) :
    (((d.dot s f).headD (FretItem.Dot.mk 0 FretDotType.NORMAL)).exists' = true) ↔
      ∃ dd ∈ (SMap.find? d.dots s).getD [], dd.fret = f := by
  have hf' : f ≠ 0 := by omega
  rw [dot_pos_eq d s f hf']
  cases hsearch : ((SMap.find? d.dots s).getD []).find? (fun dd => decide (dd.fret = f)) with
  | some dd =>
    have hp : dd.fret = f := by
      have := List.find?_some hsearch
      rwa [decide_eq_true_eq] at this
    have hmem : dd ∈ (SMap.find? d.dots s).getD [] := List.mem_of_find?_eq_some hsearch
    simp only [List.headD_cons]
    constructor
    · intro _
      exact ⟨dd, hmem, hp⟩
    · intro _
      unfold FretItem.Dot.exists'
      rw [decide_eq_true_eq, hp]
      exact hf
  | none =>
    have hnone := List.find?_eq_none.mp hsearch
    simp only [List.headD_cons]
    constructor
    · intro hcon
      exact absurd hcon (by decide)
    · intro hcon
      obtain ⟨dd, hmem, hfret⟩ := hcon
      exact absurd (hnone dd hmem) (by simp [hfret])

end FretDiagram

open FretDiagram

/-- C5: for an in-range string and a non-NONE type, `setMarker(s, t)`
stores the marker at `s`, erases the dots entry of `s` (so the `dot`
accessor reports no existing dot on `s` for any fret), and removes exactly
the barres whose span covers `s` (open end included); barres not touching
`s` and dots/markers of other strings are unchanged. -/
theorem c5_setMarker_effect (d : FretDiagram) (s : Int) (t : FretMarkerType)
    (h : 0 ≤ s ∧ s < d.strings) (ht : t ≠ FretMarkerType.NONE)
    (hsd : SMap.SortedKeys d.dots) (hsb : SMap.SortedKeys d.barres)
    (hbex : ∀ p ∈ d.barres, p.2.exists' = true) :
    SMap.find? (d.setMarker s t).markers s = some (FretItem.Marker.mk t) ∧
    SMap.find? (d.setMarker s t).dots s = none ∧
    (∀ f dd, dd ∈ (d.setMarker s t).dot s f → dd.exists' = false) ∧
    (∀ f, SMap.find? (d.setMarker s t).barres f =
      match SMap.find? d.barres f with
      | some b =>
        if b.startString ≤ s ∧ (b.endString ≥ s ∨ b.endString = -1) then none else some b
      | none => none) ∧
    (∀ q, q ≠ s → SMap.find? (d.setMarker s t).dots q = SMap.find? d.dots q ∧
      SMap.find? (d.setMarker s t).markers q = SMap.find? d.markers q) := by
  rw [setMarker_some d s t h ht]
  have hdots : SMap.find? (SMap.erase d.dots s) s = none :=
    SMap.find?_erase_self d.dots s hsd
  refine ⟨SMap.find?_insert_self _ _ _, hdots, ?_, ?_, ?_⟩
  · intro f dd hdd
    rw [dot_of_find?_none _ s f hdots] at hdd
    simp only [List.mem_singleton] at hdd
    subst hdd
    decide
  · intro f
    show SMap.find? (d.barres.filter (fun i => !(barreTouches s i))) f = _
    rw [SMap.find?_filter d.barres _ f hsb]
    cases hfind : SMap.find? d.barres f with
    | none => rfl
    | some b =>
      have hbx : b.exists' = true := hbex (f, b) (SMap.find?_mem d.barres f b hfind)
      by_cases hspan : b.startString ≤ s ∧ (b.endString ≥ s ∨ b.endString = -1)
      · have htouch : barreTouches s (f, b) = true := by
          unfold barreTouches
          rw [hbx]
          simp only [Bool.true_and, Bool.and_eq_true, Bool.or_eq_true, decide_eq_true_eq]
          exact ⟨hspan.1, hspan.2⟩
        simp [htouch, hspan]
      · have htouch : barreTouches s (f, b) = false := by
          unfold barreTouches
          rw [hbx]
          cases hB : (decide (b.startString ≤ s)
              && (decide (b.endString ≥ s) || decide (b.endString = -1))) with
          | false =>
            simp [hB]
          | true =>
            simp only [Bool.and_eq_true, Bool.or_eq_true, decide_eq_true_eq] at hB
            exact absurd ⟨hB.1, hB.2⟩ hspan
        simp [htouch, hspan]
  · intro q hq
    exact ⟨SMap.find?_erase_ne d.dots s q hq, SMap.find?_insert_ne d.markers s q _ hq⟩

/-- C5 witness: `setMarker(1, CIRCLE)` on a diagram with a dot at (1, 2)
and a barre `(0, -1)` at fret 2 yields the stored marker, no dots on
string 1, and no barre at fret 2. -/
theorem c5_witness :
    SMap.find?
      ((((initDiagram 6 4).setDot 1 2 true FretDotType.NORMAL).setBarre 0 (-1) 2
        ).setMarker 1 FretMarkerType.CIRCLE).markers 1
      = some (FretItem.Marker.mk FretMarkerType.CIRCLE) ∧
    SMap.find?
      ((((initDiagram 6 4).setDot 1 2 true FretDotType.NORMAL).setBarre 0 (-1) 2
        ).setMarker 1 FretMarkerType.CIRCLE).dots 1 = none := by
  have hc := c5_setMarker_effect
    (((initDiagram 6 4).setDot 1 2 true FretDotType.NORMAL).setBarre 0 (-1) 2)
    1 FretMarkerType.CIRCLE (by decide) (by decide) (by decide) (by decide) (by decide)
  exact ⟨hc.1, hc.2.1⟩

namespace FretDiagram

theorem remainingDots_wf_eq (d : FretDiagram) (s f : Int)
    (hwf : ∀ dd ∈ (SMap.find? d.dots s).getD [], 0 < dd.fret) :
    remainingDots d s f =
      ((SMap.find? d.dots s).getD []).filter (fun dd => decide (dd.fret ≠ f)) := by
  unfold remainingDots
  apply List.filter_congr
  intro dd hdd
  have : dd.exists' = true := by
    unfold FretItem.Dot.exists'
    rw [decide_eq_true_eq]
    exact hwf dd hdd
  rw [this, Bool.true_and]

end FretDiagram

/-- C4: the `setDot` contract on an in-range string and positive fret,
for a dots vector of existing dots: with `add`, an existing dot at
`(s, f)` is toggled off keeping the other frets, otherwise the new dot is
appended; without `add`, the entry becomes exactly the single new dot and
the marker of `s` is cleared (reported non-existing); fret `0` drops all
dots of the string; afterwards the accessor `dot(s, f)` yields the
existing stored dot; other strings are never touched. -/
theorem c4_setDot_effect (d : FretDiagram) (s f : Int) (t : FretDotType)
    (h : 0 ≤ s ∧ s < d.strings) (hf : 0 < f)
    (hsd : SMap.SortedKeys d.dots)
    (hwf : ∀ dd ∈ (SMap.find? d.dots s).getD [], 0 < dd.fret) :
    ((∃ dd ∈ (SMap.find? d.dots s).getD [], dd.fret = f) →
      SMap.find? (d.setDot s f true t).dots s =
        (if ((SMap.find? d.dots s).getD []).filter (fun dd => decide (dd.fret ≠ f)) = []
         then none
         else some (((SMap.find? d.dots s).getD []).filter
            (fun dd => decide (dd.fret ≠ f))))) ∧
    ((¬ ∃ dd ∈ (SMap.find? d.dots s).getD [], dd.fret = f) →
      SMap.find? (d.setDot s f true t).dots s =
        some ((SMap.find? d.dots s).getD [] ++ [FretItem.Dot.mk f t])) ∧
    (SMap.find? (d.setDot s f false t).dots s = some [FretItem.Dot.mk f t] ∧
     ((d.setDot s f false t).marker s).exists' = false) ∧
    (∀ add, SMap.find? (d.setDot s 0 add t).dots s = none) ∧
    ((d.setDot s f false t).dot s f = [FretItem.Dot.mk f t] ∧
      (FretItem.Dot.mk f t).exists' = true) ∧
    (∀ add q, q ≠ s → SMap.find? (d.setDot s f add t).dots q = SMap.find? d.dots q) := by
  have hf' : f ≠ 0 := by omega
  have hrem := remainingDots_wf_eq d s f hwf
  refine ⟨?_, ?_, ?_, ?_, ?_, ?_⟩
  · intro hex
    have hcheck : ((d.dot s f).headD (FretItem.Dot.mk 0 FretDotType.NORMAL)).exists' = true :=
      (dot_head_exists_iff d s f hf).mpr hex
    rw [setDot_add_found d s f t hf' h hcheck]
    rw [find?_dots_removeDot d s f s hsd, if_pos rfl, if_pos hf, hrem]
  · intro hex
    have hcheck : ((d.dot s f).headD (FretItem.Dot.mk 0 FretDotType.NORMAL)).exists' = false := by
      cases hc : ((d.dot s f).headD (FretItem.Dot.mk 0 FretDotType.NORMAL)).exists' with
      | false => rfl
      | true => exact absurd ((dot_head_exists_iff d s f hf).mp hc) hex
    rw [setDot_add_new d s f t hf' h hcheck]
    exact SMap.find?_insert_self _ _ _
  · rw [setDot_replace d s f t hf' h]
    refine ⟨SMap.find?_insert_self _ _ _, ?_⟩
    rw [marker_eq]
    show FretItem.Marker.exists'
        ((SMap.find? (SMap.insert d.markers s (FretItem.Marker.mk FretMarkerType.NONE)) s).getD
          (FretItem.Marker.mk FretMarkerType.NONE)) = false
    rw [SMap.find?_insert_self]
    decide
  · intro add
    rw [setDot_zero d s add t]
    show SMap.find? (SMap.erase d.dots s) s = none
    exact SMap.find?_erase_self d.dots s hsd
  · constructor
    · rw [dot_pos_eq _ s f hf']
      rw [setDot_replace d s f t hf' h]
      show (match SMap.find? (SMap.insert d.dots s [FretItem.Dot.mk f t]) s |>.getD []
            |>.find? (fun dd => decide (dd.fret = f)) with
        | some dd => [dd]
        | none => [FretItem.Dot.mk 0 FretDotType.NORMAL]) = [FretItem.Dot.mk f t]
      rw [SMap.find?_insert_self]
      simp
    · unfold FretItem.Dot.exists'
      rw [decide_eq_true_eq]
      exact hf
  · intro add q hq
    cases add with
    | true =>
      cases hc : ((d.dot s f).headD (FretItem.Dot.mk 0 FretDotType.NORMAL)).exists' with
      | true =>
        rw [setDot_add_found d s f t hf' h hc]
        rw [find?_dots_removeDot d s f q hsd, if_neg hq]
      | false =>
        rw [setDot_add_new d s f t hf' h hc]
        exact SMap.find?_insert_ne d.dots s q _ hq
    | false =>
      rw [setDot_replace d s f t hf' h]
      exact SMap.find?_insert_ne d.dots s q _ hq

/-- C4 witness: concrete checks on a 6-string diagram with one dot at
(0, 2): toggling it off empties the string, and `setDot(0, 3)` leaves the
single dot (3, NORMAL) with the accessor finding it. -/
theorem c4_witness :
    SMap.find?
      (((initDiagram 6 4).setDot 0 2 true FretDotType.NORMAL).setDot 0 2 true
        FretDotType.NORMAL).dots 0 = none ∧
    ((initDiagram 6 4).setDot 0 3 false FretDotType.NORMAL).dot 0 3
      = [FretItem.Dot.mk 3 FretDotType.NORMAL] := by
  have h1 := c4_setDot_effect ((initDiagram 6 4).setDot 0 2 true FretDotType.NORMAL)
    0 2 FretDotType.NORMAL (by decide) (by decide) (by decide) (by decide)
  have h2 := c4_setDot_effect (initDiagram 6 4) 0 3 FretDotType.NORMAL
    (by decide) (by decide) (by decide) (by decide)
  constructor
  · have := h1.1 (by decide)
    rw [this]
    decide
  · exact h2.2.2.2.2.1.1

/-! ## Dots non-emptiness invariant (claim C10) -/

namespace SMap

theorem mapNE_erase {α : Type} (m : SMap (List α)) (k : Int)
    (h : ∀ p ∈ m, p.2 ≠ []) : ∀ p ∈ erase m k, p.2 ≠ [] :=
  fun p hp => h p (mem_of_mem_erase m k p hp)

theorem mapNE_insert {α : Type} (m : SMap (List α)) (k : Int) (v : List α)
    (hv : v ≠ []) (h : ∀ p ∈ m, p.2 ≠ []) : ∀ p ∈ insert m k v, p.2 ≠ [] := by
  intro p hp
  rcases mem_insert m k v p hp with h1 | h1
  · rw [h1]
    exact hv
  · exact h p h1

end SMap

namespace FretDiagram

theorem dotsNE_removeDot (d : FretDiagram) (s f : Int)
    (h : DotsNonEmpty d) : DotsNonEmpty (d.removeDot s f) := by
  by_cases hf : 0 < f
  · by_cases hl : remainingDots d s f = []
    · rw [removeDot_def_pos_empty d s f hf hl]
      exact SMap.mapNE_erase d.dots s h
    · rw [removeDot_def_pos_nonempty d s f hf hl]
      exact SMap.mapNE_insert d.dots s _ hl h
  · rw [removeDot_def_nonpos d s f hf]
    exact SMap.mapNE_erase d.dots s h

theorem dotsNE_rdmStep (fret : Int) (d : FretDiagram) (s : Int)
    (h : DotsNonEmpty d) : DotsNonEmpty (rdmStep fret d s) := by
  have : (rdmStep fret d s).dots = (d.removeDot s fret).dots := rdmStep_dots fret d s
  unfold DotsNonEmpty
  rw [this]
  exact dotsNE_removeDot d s fret h

theorem dotsNE_rdmFold (fret : Int) (L : List Int) (d : FretDiagram)
    (h : DotsNonEmpty d) : DotsNonEmpty (L.foldl (rdmStep fret) d) := by
  induction L generalizing d with
  | nil => exact h
  | cons s0 rest ih =>
    simp only [List.foldl_cons]
    exact ih (rdmStep fret d s0) (dotsNE_rdmStep fret d s0 h)

theorem dotsNE_removeDotsMarkers (d : FretDiagram) (ss es fret : Int)
    (h : DotsNonEmpty d) : DotsNonEmpty (d.removeDotsMarkers ss es fret) := by
  unfold removeDotsMarkers
  by_cases hss : ss = -1
  · rw [if_pos hss]
    exact h
  · rw [if_neg hss]
    exact dotsNE_rdmFold fret _ d h

theorem dotsNE_setDot (d : FretDiagram) (s f : Int) (add : Bool) (t : FretDotType)
    (h : DotsNonEmpty d) : DotsNonEmpty (d.setDot s f add t) := by
  by_cases hf : f = 0
  · subst hf
    rw [setDot_zero d s add t]
    exact SMap.mapNE_erase d.dots s h
  · by_cases hin : 0 ≤ s ∧ s < d.strings
    · cases add with
      | true =>
        cases hc : ((d.dot s f).headD (FretItem.Dot.mk 0 FretDotType.NORMAL)).exists' with
        | true =>
          rw [setDot_add_found d s f t hf hin hc]
          exact dotsNE_removeDot d s f h
        | false =>
          rw [setDot_add_new d s f t hf hin hc]
          exact SMap.mapNE_insert d.dots s _ (by simp) h
      | false =>
        rw [setDot_replace d s f t hf hin]
        exact SMap.mapNE_insert d.dots s _ (by simp) h
    · rw [setDot_out d s f add t hf hin]
      exact h

theorem dotsNE_setMarker (d : FretDiagram) (s : Int) (t : FretMarkerType)
    (h : DotsNonEmpty d) : DotsNonEmpty (d.setMarker s t) := by
  by_cases hin : 0 ≤ s ∧ s < d.strings
  · by_cases ht : t = FretMarkerType.NONE
    · subst ht
      rw [setMarker_none d s hin]
      exact h
    · rw [setMarker_some d s t hin ht]
      exact SMap.mapNE_erase d.dots s h
  · rw [setMarker_out d s t hin]
    exact h

theorem dotsNE_setBarre (d : FretDiagram) (ss es f : Int)
    (h : DotsNonEmpty d) : DotsNonEmpty (d.setBarre ss es f) := by
  by_cases hss : ss = -1
  · subst hss
    rw [setBarre_remove d es f]
    exact h
  · by_cases hg : 0 ≤ ss ∧ -1 ≤ es ∧ ss < d.strings ∧ es < d.strings
    · rw [setBarre_store d ss es f hss hg]
      exact h
    · rw [setBarre_out d ss es f hss hg]
      exact h

theorem dotsNE_setBarreToggle (d : FretDiagram) (s f : Int)
    (h : DotsNonEmpty d) : DotsNonEmpty (d.setBarreToggle s f) := by
  cases hb : (d.barre f).exists' with
  | false =>
    by_cases hs : s < d.strings - 1
    · rw [setBarreToggle_create d s f hb hs]
      exact dotsNE_removeDotsMarkers _ s (-1) f h
    · rw [setBarreToggle_noop d s f hb hs]
      exact h
  | true =>
    by_cases he : (d.barre f).endString = -1 ∧ (d.barre f).startString < s
    · rw [setBarreToggle_close d s f hb he]
      exact h
    · rw [setBarreToggle_remove d s f hb he]
      exact dotsNE_removeDotsMarkers d _ _ f h

theorem setStringsBarreStep_frame (diff : Int) (acc : FretDiagram) (fret : Int) :
    (setStringsBarreStep diff acc fret).dots = acc.dots ∧
    (setStringsBarreStep diff acc fret).markers = acc.markers ∧
    (setStringsBarreStep diff acc fret).strings = acc.strings ∧
    (setStringsBarreStep diff acc fret).frets = acc.frets := by
  simp only [setStringsBarreStep]
  split
  · split
    · exact ⟨rfl, rfl, rfl, rfl⟩
    · exact ⟨rfl, rfl, rfl, rfl⟩
  · exact ⟨rfl, rfl, rfl, rfl⟩

theorem foldl_barreStep_frame (diff : Int) (L : List Int) (acc : FretDiagram) :
    (L.foldl (setStringsBarreStep diff) acc).dots = acc.dots ∧
    (L.foldl (setStringsBarreStep diff) acc).markers = acc.markers ∧
    (L.foldl (setStringsBarreStep diff) acc).strings = acc.strings ∧
    (L.foldl (setStringsBarreStep diff) acc).frets = acc.frets := by
  induction L generalizing acc with
  | nil => exact ⟨rfl, rfl, rfl, rfl⟩
  | cons f0 rest ih =>
    simp only [List.foldl_cons]
    obtain ⟨i1, i2, i3, i4⟩ := ih (setStringsBarreStep diff acc f0)
    obtain ⟨s1, s2, s3, s4⟩ := setStringsBarreStep_frame diff acc f0
    exact ⟨i1.trans s1, i2.trans s2, i3.trans s3, i4.trans s4⟩

theorem setStrings_noop (d : FretDiagram) (n : Int)
    (hc : n - d.strings = 0 ∨ n ≤ 0) : d.setStrings n = d := by
  unfold setStrings
  rw [if_pos hc]

theorem setStrings_dots (d : FretDiagram) (n : Int)
    (hc : ¬ (n - d.strings = 0 ∨ n ≤ 0)) :
    (d.setStrings n).dots =
      (intRange 0 d.strings).foldl (setStringsDotStep d (n - d.strings)) [] := by
  simp only [setStrings]
  rw [if_neg hc]
  exact (foldl_barreStep_frame _ _ _).1

theorem setStrings_markers (d : FretDiagram) (n : Int)
    (hc : ¬ (n - d.strings = 0 ∨ n ≤ 0)) :
    (d.setStrings n).markers =
      (intRange 0 d.strings).foldl (setStringsMarkerStep d (n - d.strings)) [] := by
  simp only [setStrings]
  rw [if_neg hc]
  exact (foldl_barreStep_frame _ _ _).2.1

theorem setStrings_strings (d : FretDiagram) (n : Int)
    (hc : ¬ (n - d.strings = 0 ∨ n ≤ 0)) : (d.setStrings n).strings = n := by
  simp only [setStrings]
  rw [if_neg hc]

theorem setStrings_barres (d : FretDiagram) (n : Int)
    (hc : ¬ (n - d.strings = 0 ∨ n ≤ 0)) :
    (d.setStrings n).barres =
      ((intRangeIncl 1 d.frets).foldl (setStringsBarreStep (n - d.strings))
        { d with dots := (intRange 0 d.strings).foldl (setStringsDotStep d (n - d.strings)) [],
                 markers := (intRange 0 d.strings).foldl
                   (setStringsMarkerStep d (n - d.strings)) [] }).barres := by
  simp only [setStrings]
  rw [if_neg hc]

theorem mapNE_setStringsDotStep (d : FretDiagram) (diff : Int)
    (m : SMap (List FretItem.Dot)) (s : Int)
    (h : ∀ p ∈ m, p.2 ≠ []) : ∀ p ∈ setStringsDotStep d diff m s, p.2 ≠ [] := by
  unfold setStringsDotStep
  by_cases hskip : s + diff < 0
  · rw [if_pos hskip]
    exact h
  · rw [if_neg hskip]
    generalize d.dot s 0 = l
    induction l generalizing m with
    | nil => exact h
    | cons dd rest ih =>
      simp only [List.foldl_cons]
      by_cases hex : dd.exists' = true
      · rw [if_pos hex]
        exact ih _ (SMap.mapNE_insert m (s + diff) _ (by simp) h)
      · rw [if_neg hex]
        exact ih m h

theorem dotsNE_setStrings (d : FretDiagram) (n : Int)
    (h : DotsNonEmpty d) : DotsNonEmpty (d.setStrings n) := by
  by_cases hc : n - d.strings = 0 ∨ n ≤ 0
  · rw [setStrings_noop d n hc]
    exact h
  · unfold DotsNonEmpty
    rw [setStrings_dots d n hc]
    generalize intRange 0 d.strings = L
    have H : ∀ (L : List Int) (m : SMap (List FretItem.Dot)),
        (∀ p ∈ m, p.2 ≠ []) →
        ∀ p ∈ L.foldl (setStringsDotStep d (n - d.strings)) m, p.2 ≠ [] := by
      intro L
      induction L with
      | nil => intro m hm; exact hm
      | cons s0 rest ih =>
        intro m hm
        simp only [List.foldl_cons]
        exact ih _ (mapNE_setStringsDotStep d _ m s0 hm)
    exact H L [] (by simp)

theorem dotsNE_clear (d : FretDiagram) : DotsNonEmpty d.clear := by
  intro p hp
  simp [clear] at hp

/-- C10: every string key present in the dots map of a reachable diagram
holds a non-empty vector (removal prunes emptied keys, insertion always
stores a non-empty vector), and consequently the `dot` accessor never
returns an empty vector — so the element access `dot(string, fret)[0]`
inside `setDot`'s add-toggle check is always within bounds. -/
theorem c10_dots_nonempty :
    (∀ d : FretDiagram, Reachable d → DotsNonEmpty d) ∧
    (∀ (d : FretDiagram) (s f : Int), DotsNonEmpty d → d.dot s f ≠ []) := by
  constructor
  · intro d hd
    induction hd with
    | init strings frets => intro p hp; simp [initDiagram] at hp
    | setDot d s f add t _ ih => exact dotsNE_setDot d s f add t ih
    | setMarker d s t _ ih => exact dotsNE_setMarker d s t ih
    | setBarre d ss es f _ ih => exact dotsNE_setBarre d ss es f ih
    | setBarreToggle d s f _ ih => exact dotsNE_setBarreToggle d s f ih
    | setStrings d n _ ih => exact dotsNE_setStrings d n ih
    | clear d _ _ => exact dotsNE_clear d
    | removeDot d s f _ ih => exact dotsNE_removeDot d s f ih
  · intro d s f hne
    by_cases hf : f ≠ 0
    · rw [dot_pos_eq d s f hf]
      cases ((SMap.find? d.dots s).getD []).find? (fun dd => decide (dd.fret = f)) <;> simp
    · have hf0 : f = 0 := by omega
      subst hf0
      rw [dot_zero]
      cases hfind : SMap.find? d.dots s with
      | none => simp
      | some l =>
        simp only [Option.getD_some]
        show l ≠ []
        exact hne (s, l) (SMap.find?_mem d.dots s l hfind)

/-- C10 witness: a concrete reachable diagram with one dot satisfies the
invariant, and its `dot` accessor returns a non-empty vector. -/
theorem c10_witness :
    DotsNonEmpty ((initDiagram 6 4).setDot 0 2 true FretDotType.NORMAL) ∧
    ((initDiagram 6 4).setDot 0 2 true FretDotType.NORMAL).dot 0 2 ≠ [] := by
  have h1 := c10_dots_nonempty.1 ((initDiagram 6 4).setDot 0 2 true FretDotType.NORMAL)
    (Reachable.setDot _ 0 2 true FretDotType.NORMAL (Reachable.init 6 4))
  exact ⟨h1, c10_dots_nonempty.2 _ 0 2 h1⟩
end FretDiagram

namespace SMap

theorem find?_eq_none_of_keys_gt {V : Type} (m : SMap V) (k : Int)
    (h : ∀ p ∈ m, k < p.1) : find? m k = none := by
  rw [find?_eq_none_iff]
  intro p hp
  exact Int.ne_of_gt (h p hp)

theorem ext {V : Type} (m m' : SMap V) (hm : SortedKeys m) (hm' : SortedKeys m')
    (h : ∀ k, find? m k = find? m' k) : m = m' := by
  induction m generalizing m' with
  | nil =>
    cases m' with
    | nil => rfl
    | cons p rest =>
      obtain ⟨k, v⟩ := p
      have h1 := h k
      rw [find?_nil, find?_cons, if_pos rfl] at h1
      exact Option.noConfusion h1
  | cons p rest ih =>
    obtain ⟨k, v⟩ := p
    cases m' with
    | nil =>
      have h1 := h k
      rw [find?_nil, find?_cons, if_pos rfl] at h1
      exact Option.noConfusion h1
    | cons q rest' =>
      obtain ⟨k', v'⟩ := q
      have hk : k = k' := by
        by_contra hne
        rcases lt_or_gt_of_ne hne with hlt | hgt
        · have h1 := h k
          rw [find?_cons, find?_cons, if_pos rfl, if_neg hne] at h1
          rw [find?_eq_none_of_keys_gt rest' k
            (fun p hp => lt_trans hlt (sorted_head_lt hm' p hp))] at h1
          exact Option.noConfusion h1
        · have h1 := h k'
          rw [find?_cons, find?_cons, if_pos rfl] at h1
          rw [if_neg (show ¬ k' = k from fun hh => hne hh.symm)] at h1
          rw [find?_eq_none_of_keys_gt rest k'
            (fun p hp => lt_trans hgt (sorted_head_lt hm p hp))] at h1
          exact Option.noConfusion h1.symm
      subst hk
      have hv : v = v' := by
        have h1 := h k
        rw [find?_cons, find?_cons, if_pos rfl, if_pos rfl] at h1
        exact Option.some.inj h1
      subst hv
      have htail : ∀ k0, find? rest k0 = find? rest' k0 := by
        intro k0
        by_cases hk0 : k0 = k
        · subst hk0
          rw [find?_eq_none_of_keys_gt rest k0 (sorted_head_lt hm),
            find?_eq_none_of_keys_gt rest' k0 (sorted_head_lt hm')]
        · have h1 := h k0
          rw [find?_cons, find?_cons, if_neg hk0, if_neg hk0] at h1
          exact h1
      rw [ih rest' (sorted_tail hm) (sorted_tail hm') htail]

theorem find?_filterMap_shift {V W : Type} (m : SMap V) (diff : Int)
    (t : Int → V → Option W) (k : Int) (hs : SortedKeys m) :
    find? (m.filterMap (fun p => (t p.1 p.2).map (fun w => (p.1 + diff, w)))) k
      = (find? m (k - diff)).bind (t (k - diff)) := by
  induction m with
  | nil => simp [find?]
  | cons p rest ih =>
    obtain ⟨k0, v0⟩ := p
    rw [List.filterMap_cons]
    by_cases hk : k - diff = k0
    · rw [find?_cons, if_pos hk]
      cases ht : t k0 v0 with
      | some w =>
        simp only [ht, Option.map_some']
        rw [find?_cons, if_pos (show k = k0 + diff by omega), hk]
        exact ht.symm
      | none =>
        simp only [ht, Option.map_none']
        rw [hk, show ((some v0).bind (t k0)) = t k0 v0 from rfl, ht]
        apply find?_eq_none_of_keys_gt
        intro q hq
        obtain ⟨p, hp, hgp⟩ := List.mem_filterMap.mp hq
        cases htv : t p.1 p.2 with
        | none => rw [htv] at hgp; exact Option.noConfusion hgp
        | some w =>
          rw [htv] at hgp
          simp only [Option.map_some', Option.some.injEq] at hgp
          have hlt : k0 < p.1 := sorted_head_lt hs p hp
          rw [← hgp]
          show k < p.1 + diff
          omega
    · rw [find?_cons, if_neg hk]
      cases ht : t k0 v0 with
      | some w =>
        simp only [ht, Option.map_some']
        rw [find?_cons, if_neg (by omega)]
        exact ih (sorted_tail hs)
      | none =>
        simp only [ht, Option.map_none']
        exact ih (sorted_tail hs)

theorem sorted_filterMap_shift {V W : Type} (m : SMap V) (diff : Int)
    (t : Int → V → Option W) (hs : SortedKeys m) :
    SortedKeys (m.filterMap (fun p => (t p.1 p.2).map (fun w => (p.1 + diff, w)))) := by
  induction m with
  | nil => simp [SortedKeys]
  | cons p rest ih =>
    obtain ⟨k0, v0⟩ := p
    rw [List.filterMap_cons]
    cases ht : t k0 v0 with
    | none => exact ih (sorted_tail hs)
    | some w =>
      simp only [ht, Option.map_some']
      refine List.pairwise_cons.mpr ⟨?_, ih (sorted_tail hs)⟩
      intro q hq
      obtain ⟨p, hp, hgp⟩ := List.mem_filterMap.mp hq
      cases htv : t p.1 p.2 with
      | none => rw [htv] at hgp; exact Option.noConfusion hgp
      | some w' =>
        rw [htv] at hgp
        simp only [Option.map_some', Option.some.injEq] at hgp
        have hlt : k0 < p.1 := sorted_head_lt hs p hp
        rw [← hgp]
        show k0 + diff < p.1 + diff
        omega

end SMap

namespace FretDiagram

theorem foldl_push_go (k : Int) (l : List FretItem.Dot) (m : SMap (List FretItem.Dot))
    (p : List FretItem.Dot) (hm : SMap.find? m k = some p) (hs : SMap.SortedKeys m) :
    l.foldl (fun m2 dd =>
        if dd.exists' then
          SMap.insert m2 k ((SMap.find? m2 k).getD [] ++ [dd])
        else m2) m
      = SMap.insert m k (p ++ l.filter (fun dd => dd.exists')) := by
  induction l generalizing m p with
  | nil =>
    simp only [List.foldl_nil, List.filter_nil, List.append_nil]
    exact (SMap.insert_of_find?_eq m k p hs hm).symm
  | cons dd rest ih =>
    simp only [List.foldl_cons]
    by_cases hex : dd.exists' = true
    · rw [if_pos hex, hm]
      simp only [Option.getD_some]
      rw [ih (SMap.insert m k (p ++ [dd])) (p ++ [dd]) (SMap.find?_insert_self m k _)
        (SMap.sorted_insert m k _ hs)]
      rw [SMap.insert_insert]
      rw [List.filter_cons_of_pos hex]
      simp
    · rw [if_neg hex]
      rw [ih m p hm hs]
      rw [List.filter_cons_of_neg (by simp [hex])]

theorem foldl_push_fresh (k : Int) (l : List FretItem.Dot) (m : SMap (List FretItem.Dot))
    (hm : SMap.find? m k = none) (hs : SMap.SortedKeys m) :
    l.foldl (fun m2 dd =>
        if dd.exists' then
          SMap.insert m2 k ((SMap.find? m2 k).getD [] ++ [dd])
        else m2) m
      = (if l.filter (fun dd => dd.exists') = [] then m
         else SMap.insert m k (l.filter (fun dd => dd.exists'))) := by
  induction l with
  | nil => simp
  | cons dd rest ih =>
    simp only [List.foldl_cons]
    by_cases hex : dd.exists' = true
    · rw [if_pos hex, hm]
      simp only [Option.getD_none, List.nil_append]
      rw [foldl_push_go k rest (SMap.insert m k [dd]) [dd] (SMap.find?_insert_self m k _)
        (SMap.sorted_insert m k _ hs)]
      rw [SMap.insert_insert]
      rw [List.filter_cons_of_pos hex]
      rw [if_neg (by simp)]
      rfl
    · rw [if_neg hex, ih]
      rw [List.filter_cons_of_neg (by simp [hex])]

theorem setStringsDotStep_eq (d : FretDiagram) (diff : Int)
    (m : SMap (List FretItem.Dot)) (i : Int)
    (hm : SMap.find? m (i + diff) = none) (hs : SMap.SortedKeys m) :
    setStringsDotStep d diff m i =
      (if i + diff < 0 then m
       else if existingDots d i = [] then m
       else SMap.insert m (i + diff) (existingDots d i)) := by
  unfold setStringsDotStep
  by_cases hskip : i + diff < 0
  · rw [if_pos hskip, if_pos hskip]
  · rw [if_neg hskip, if_neg hskip]
    have hdot : (d.dot i 0).filter (fun dd => dd.exists') = existingDots d i := by
      unfold existingDots
      exact dot_zero_filter d i _ (by decide)
    rw [foldl_push_fresh (i + diff) (d.dot i 0) m hm hs]
    rw [hdot]

theorem setStringsDotStep_sorted (d : FretDiagram) (diff : Int)
    (m : SMap (List FretItem.Dot)) (i : Int)
    (hm : SMap.find? m (i + diff) = none) (hs : SMap.SortedKeys m) :
    SMap.SortedKeys (setStringsDotStep d diff m i) := by
  rw [setStringsDotStep_eq d diff m i hm hs]
  split
  · exact hs
  · split
    · exact hs
    · exact SMap.sorted_insert _ _ _ hs

theorem setStringsDotStep_find? (d : FretDiagram) (diff : Int)
    (m : SMap (List FretItem.Dot)) (i k : Int)
    (hm : SMap.find? m (i + diff) = none) (hs : SMap.SortedKeys m) :
    SMap.find? (setStringsDotStep d diff m i) k =
      (if k = i + diff ∧ ¬ i + diff < 0 ∧ existingDots d i ≠ [] then some (existingDots d i)
       else SMap.find? m k) := by
  rw [setStringsDotStep_eq d diff m i hm hs]
  by_cases hskip : i + diff < 0
  · rw [if_pos hskip, if_neg (by tauto)]
  · rw [if_neg hskip]
    by_cases hex : existingDots d i = []
    · rw [if_pos hex, if_neg (by tauto)]
    · rw [if_neg hex]
      by_cases hk : k = i + diff
      · rw [if_pos ⟨hk, hskip, hex⟩, hk]
        exact SMap.find?_insert_self m (i + diff) _
      · rw [if_neg (by tauto)]
        exact SMap.find?_insert_ne m (i + diff) k _ hk

end FretDiagram

namespace SMap

theorem find?_filterMap_keyed {V W : Type} (m : SMap V) (t : Int → V → Option W)
    (k : Int) (hs : SortedKeys m) :
    find? (m.filterMap (fun p => (t p.1 p.2).map (fun w => (p.1, w)))) k
      = (find? m k).bind (t k) := by
  have h := find?_filterMap_shift m 0 t k hs
  have he : (fun (p : Int × _) => (t p.1 p.2).map (fun w => (p.1 + 0, w)))
      = (fun (p : Int × _) => (t p.1 p.2).map (fun w => (p.1, w))) := by
    funext p
    simp
  rw [he] at h
  simpa using h

theorem sorted_filterMap_keyed {V W : Type} (m : SMap V) (t : Int → V → Option W)
    (hs : SortedKeys m) :
    SortedKeys (m.filterMap (fun p => (t p.1 p.2).map (fun w => (p.1, w)))) := by
  have h := sorted_filterMap_shift m 0 t hs
  have he : (fun (p : Int × _) => (t p.1 p.2).map (fun w => (p.1 + 0, w)))
      = (fun (p : Int × _) => (t p.1 p.2).map (fun w => (p.1, w))) := by
    funext p
    simp
  rwa [he] at h

theorem filter_map_eq_filterMap {V : Type} (m : SMap V) (diff : Int)
    (C : Int × V → Bool) :
    (m.filter C).map (fun p => (p.1 + diff, p.2)) =
      m.filterMap (fun p =>
        ((if C (p.1, p.2) then some p.2 else none)).map (fun w => (p.1 + diff, w))) := by
  induction m with
  | nil => rfl
  | cons p rest ih =>
    obtain ⟨k0, v0⟩ := p
    rw [List.filter_cons, List.filterMap_cons]
    by_cases hc : C (k0, v0) = true
    · rw [if_pos hc, if_pos hc]
      simp only [List.map_cons, Option.map_some']
      rw [ih]
    · rw [if_neg hc, if_neg hc]
      simp only [Option.map_none']
      rw [ih]

end SMap

namespace FretDiagram

theorem dotStepFold_find? (d : FretDiagram) (diff : Int) (L : List Int) (hL : L.Nodup)
    (m : SMap (List FretItem.Dot)) (hs : SMap.SortedKeys m)
    (hfresh : ∀ j ∈ L, SMap.find? m (j + diff) = none) :
    SMap.SortedKeys (L.foldl (setStringsDotStep d diff) m) ∧
    (∀ k, SMap.find? (L.foldl (setStringsDotStep d diff) m) k =
      (if (k - diff) ∈ L ∧ ¬ k < 0 ∧ existingDots d (k - diff) ≠ []
       then some (existingDots d (k - diff))
       else SMap.find? m k)) := by
  induction L generalizing m with
  | nil =>
    refine ⟨hs, fun k => ?_⟩
    rw [if_neg (by simp)]
    rfl
  | cons i0 rest ih =>
    have hi0 : i0 ∉ rest := (List.nodup_cons.mp hL).1
    have hrest : rest.Nodup := (List.nodup_cons.mp hL).2
    have hfresh0 : SMap.find? m (i0 + diff) = none := hfresh i0 (by simp)
    have hs' : SMap.SortedKeys (setStringsDotStep d diff m i0) :=
      setStringsDotStep_sorted d diff m i0 hfresh0 hs
    have hfresh' : ∀ j ∈ rest, SMap.find? (setStringsDotStep d diff m i0) (j + diff) = none := by
      intro j hj
      rw [setStringsDotStep_find? d diff m i0 (j + diff) hfresh0 hs]
      have hne : j ≠ i0 := fun hh => hi0 (hh ▸ hj)
      rw [if_neg (by intro hc; exact hne (by omega))]
      exact hfresh j (by simp [hj])
    obtain ⟨ihs, ihf⟩ := ih hrest (setStringsDotStep d diff m i0) hs' hfresh'
    simp only [List.foldl_cons]
    refine ⟨ihs, fun k => ?_⟩
    rw [ihf k]
    have hstep := setStringsDotStep_find? d diff m i0 k hfresh0 hs
    by_cases hmem : (k - diff) ∈ rest
    · have hne : ¬ k = i0 + diff := by
        intro hh
        exact hi0 (by rw [show i0 = k - diff by omega]; exact hmem)
      by_cases hcond : ¬ k < 0 ∧ existingDots d (k - diff) ≠ []
      · rw [if_pos ⟨hmem, hcond.1, hcond.2⟩,
          if_pos ⟨List.mem_cons.mpr (Or.inr hmem), hcond.1, hcond.2⟩]
      · rw [if_neg (by tauto), if_neg (by
          intro hc
          exact hcond ⟨hc.2.1, hc.2.2⟩)]
        rw [hstep, if_neg (by tauto)]
    · by_cases hk : k - diff = i0
      · have hkk : k = i0 + diff := by omega
        by_cases hcond : ¬ k < 0 ∧ existingDots d (k - diff) ≠ []
        · rw [if_neg (by tauto),
            if_pos ⟨List.mem_cons.mpr (Or.inl hk), hcond.1, hcond.2⟩]
          rw [hstep, if_pos ⟨hkk, by omega, by rw [show i0 = k - diff by omega]; exact hcond.2⟩]
          rw [show i0 = k - diff by omega]
        · rw [if_neg (by tauto), if_neg (by
            intro hc
            exact hcond ⟨hc.2.1, hc.2.2⟩)]
          rw [hstep, if_neg (by
            intro hc
            rcases hc with ⟨hc1, hc2, hc3⟩
            refine hcond ⟨by omega, ?_⟩
            rw [show k - diff = i0 from hk]
            exact hc3)]
      · have hne : ¬ k = i0 + diff := by omega
        rw [if_neg (by tauto), if_neg (by
          intro hc
          rcases List.mem_cons.mp hc.1 with h1 | h1
          · exact hk h1
          · exact hmem h1)]
        rw [hstep, if_neg (by tauto)]

end FretDiagram

namespace FretDiagram

theorem setStringsMarkerStep_find? (d : FretDiagram) (diff : Int)
    (m : SMap FretItem.Marker) (i k : Int) :
    SMap.find? (setStringsMarkerStep d diff m i) k =
      (if k = i + diff ∧ ¬ i + diff < 0 ∧ (d.marker i).exists' = true
       then some (d.marker i)
       else SMap.find? m k) := by
  unfold setStringsMarkerStep
  by_cases hskip : i + diff < 0
  · rw [if_pos hskip, if_neg (by tauto)]
  · rw [if_neg hskip]
    by_cases hex : (d.marker i).exists' = true
    · rw [if_pos hex]
      by_cases hk : k = i + diff
      · rw [if_pos ⟨hk, hskip, hex⟩, hk]
        exact SMap.find?_insert_self m (i + diff) _
      · rw [if_neg (by tauto)]
        exact SMap.find?_insert_ne m (i + diff) k _ hk
    · rw [if_neg hex, if_neg (by tauto)]

theorem setStringsMarkerStep_sorted (d : FretDiagram) (diff : Int)
    (m : SMap FretItem.Marker) (i : Int) (hs : SMap.SortedKeys m) :
    SMap.SortedKeys (setStringsMarkerStep d diff m i) := by
  unfold setStringsMarkerStep
  split
  · exact hs
  · split
    · exact SMap.sorted_insert _ _ _ hs
    · exact hs

theorem markerStepFold_find? (d : FretDiagram) (diff : Int) (L : List Int) (hL : L.Nodup)
    (m : SMap FretItem.Marker) (hs : SMap.SortedKeys m)
    (hfresh : ∀ j ∈ L, SMap.find? m (j + diff) = none) :
    SMap.SortedKeys (L.foldl (setStringsMarkerStep d diff) m) ∧
    (∀ k, SMap.find? (L.foldl (setStringsMarkerStep d diff) m) k =
      (if (k - diff) ∈ L ∧ ¬ k < 0 ∧ (d.marker (k - diff)).exists' = true
       then some (d.marker (k - diff))
       else SMap.find? m k)) := by
  induction L generalizing m with
  | nil =>
    refine ⟨hs, fun k => ?_⟩
    rw [if_neg (by simp)]
    rfl
  | cons i0 rest ih =>
    have hi0 : i0 ∉ rest := (List.nodup_cons.mp hL).1
    have hrest : rest.Nodup := (List.nodup_cons.mp hL).2
    have hfresh0 : SMap.find? m (i0 + diff) = none := hfresh i0 (by simp)
    have hs' : SMap.SortedKeys (setStringsMarkerStep d diff m i0) :=
      setStringsMarkerStep_sorted d diff m i0 hs
    have hfresh' : ∀ j ∈ rest,
        SMap.find? (setStringsMarkerStep d diff m i0) (j + diff) = none := by
      intro j hj
      rw [setStringsMarkerStep_find? d diff m i0 (j + diff)]
      have hne : j ≠ i0 := fun hh => hi0 (hh ▸ hj)
      rw [if_neg (by intro hc; exact hne (by omega))]
      exact hfresh j (by simp [hj])
    obtain ⟨ihs, ihf⟩ := ih hrest (setStringsMarkerStep d diff m i0) hs' hfresh'
    simp only [List.foldl_cons]
    refine ⟨ihs, fun k => ?_⟩
    rw [ihf k]
    have hstep := setStringsMarkerStep_find? d diff m i0 k
    by_cases hmem : (k - diff) ∈ rest
    · have hne : ¬ k = i0 + diff := by
        intro hh
        exact hi0 (by rw [show i0 = k - diff by omega]; exact hmem)
      by_cases hcond : ¬ k < 0 ∧ (d.marker (k - diff)).exists' = true
      · rw [if_pos ⟨hmem, hcond.1, hcond.2⟩,
          if_pos ⟨List.mem_cons.mpr (Or.inr hmem), hcond.1, hcond.2⟩]
      · rw [if_neg (by tauto), if_neg (by
          intro hc
          exact hcond ⟨hc.2.1, hc.2.2⟩)]
        rw [hstep, if_neg (by tauto)]
    · by_cases hk : k - diff = i0
      · have hkk : k = i0 + diff := by omega
        by_cases hcond : ¬ k < 0 ∧ (d.marker (k - diff)).exists' = true
        · rw [if_neg (by tauto),
            if_pos ⟨List.mem_cons.mpr (Or.inl hk), hcond.1, hcond.2⟩]
          rw [hstep, if_pos ⟨hkk, by omega, by rw [show i0 = k - diff by omega]; exact hcond.2⟩]
          rw [show i0 = k - diff by omega]
        · rw [if_neg (by tauto), if_neg (by
            intro hc
            exact hcond ⟨hc.2.1, hc.2.2⟩)]
          rw [hstep, if_neg (by
            intro hc
            rcases hc with ⟨hc1, hc2, hc3⟩
            refine hcond ⟨by omega, ?_⟩
            rw [show k - diff = i0 from hk]
            exact hc3)]
      · rw [if_neg (by tauto), if_neg (by
          intro hc
          rcases List.mem_cons.mp hc.1 with h1 | h1
          · exact hk h1
          · exact hmem h1)]
        rw [hstep, if_neg (by omega)]

end FretDiagram

namespace FretDiagram

theorem setStringsBarreStep_find? (diff : Int) (acc : FretDiagram) (f k : Int)
    (hs : SMap.SortedKeys acc.barres) :
    SMap.find? (setStringsBarreStep diff acc f).barres k =
      (if k = f then
        (match SMap.find? acc.barres f with
         | some b => if b.exists' = true then shiftedBarre diff b else some b
         | none => none)
       else SMap.find? acc.barres k) := by
  simp only [setStringsBarreStep]
  split
  · next hex =>
    have hfind : ∃ b, SMap.find? acc.barres f = some b := by
      rw [barre_eq] at hex
      cases hfind : SMap.find? acc.barres f with
      | none =>
        rw [hfind] at hex
        simp only [Option.getD_none] at hex
        exact absurd hex (by decide)
      | some b => exact ⟨b, rfl⟩
    obtain ⟨b, hb⟩ := hfind
    have hbx : b.exists' = true := by
      rw [barre_eq, hb] at hex
      exact hex
    rw [hb]
    simp only [Option.getD_some]
    split
    · next hdrop =>
      show SMap.find? (SMap.erase acc.barres f) k = _
      by_cases hk : k = f
      · subst hk
        rw [SMap.find?_erase_self acc.barres k hs, if_pos rfl]
        simp [hbx, shiftedBarre, hdrop]
      · rw [SMap.find?_erase_ne acc.barres f k hk, if_neg hk]
    · next hkeep =>
      by_cases hk : k = f
      · subst hk
        show SMap.find? (SMap.insert acc.barres k _) k = _
        rw [SMap.find?_insert_self, if_pos rfl]
        simp [hbx, shiftedBarre, hkeep]
      · show SMap.find? (SMap.insert acc.barres f _) k = _
        rw [SMap.find?_insert_ne acc.barres f k _ hk, if_neg hk]
  · next hex =>
    by_cases hk : k = f
    · subst hk
      rw [if_pos rfl]
      cases hfind : SMap.find? acc.barres k with
      | none => rfl
      | some b =>
        have hbx : b.exists' = false := by
          rw [barre_eq, hfind] at hex
          simp only [Option.getD_some] at hex
          simpa using hex
        simp [hbx]
    · rw [if_neg hk]

theorem setStringsBarreStep_sorted (diff : Int) (acc : FretDiagram) (f : Int)
    (hs : SMap.SortedKeys acc.barres) :
    SMap.SortedKeys (setStringsBarreStep diff acc f).barres := by
  simp only [setStringsBarreStep]
  split
  · split
    · exact SMap.sorted_erase _ _ hs
    · exact SMap.sorted_insert _ _ _ hs
  · exact hs

theorem barreStepFold_find? (diff : Int) (L : List Int) (hL : L.Nodup)
    (acc : FretDiagram) (hs : SMap.SortedKeys acc.barres) :
    SMap.SortedKeys (L.foldl (setStringsBarreStep diff) acc).barres ∧
    (∀ k, SMap.find? (L.foldl (setStringsBarreStep diff) acc).barres k =
      (if k ∈ L then
        (match SMap.find? acc.barres k with
         | some b => if b.exists' = true then shiftedBarre diff b else some b
         | none => none)
       else SMap.find? acc.barres k)) := by
  induction L generalizing acc with
  | nil =>
    refine ⟨hs, fun k => ?_⟩
    rw [if_neg (by simp)]
    rfl
  | cons f0 rest ih =>
    have hf0 : f0 ∉ rest := (List.nodup_cons.mp hL).1
    have hrest : rest.Nodup := (List.nodup_cons.mp hL).2
    have hs' : SMap.SortedKeys (setStringsBarreStep diff acc f0).barres :=
      setStringsBarreStep_sorted diff acc f0 hs
    obtain ⟨ihs, ihf⟩ := ih hrest (setStringsBarreStep diff acc f0) hs'
    simp only [List.foldl_cons]
    refine ⟨ihs, fun k => ?_⟩
    rw [ihf k]
    by_cases hmem : k ∈ rest
    · have hne : k ≠ f0 := fun hh => hf0 (hh ▸ hmem)
      rw [if_pos hmem, if_pos (List.mem_cons.mpr (Or.inr hmem))]
      rw [setStringsBarreStep_find? diff acc f0 k hs, if_neg hne]
    · rw [if_neg hmem]
      by_cases hk : k = f0
      · rw [if_pos (List.mem_cons.mpr (Or.inl hk))]
        rw [setStringsBarreStep_find? diff acc f0 k hs, if_pos hk, hk]
      · rw [if_neg (by
          intro hc
          rcases List.mem_cons.mp hc with h1 | h1
          · exact hk h1
          · exact hmem h1)]
        rw [setStringsBarreStep_find? diff acc f0 k hs, if_neg hk]

end FretDiagram


open FretDiagram

/-- C3: re-indexing keeps a shifted barre only when its new start string
is at least `1`: the code drops a barre whose shifted start would be `0`
(`startString + difference <= 0`), although `0` lies inside `[0, n)`.  On
a 6-string diagram with an open barre starting at string 1, `setStrings 5`
(delta `-1`, new start `0`) removes the barre entirely. -/
theorem c3_counterexample :
    (((initDiagram 6 4).setBarre 1 (-1) 2).barres
      = [(2, FretItem.Barre.mk 1 (-1))]) ∧
    ((((initDiagram 6 4).setBarre 1 (-1) 2).setStrings 5).barres = []) := by
  constructor
  · decide
  · decide

/-- C3 (amended): `setStrings n` is a no-op for `n ≤ 0` or `n = strings`;
otherwise, with `diff = n - strings`, it keeps exactly the dots and the
existing (non-NONE) markers whose shifted index is `≥ 0` (the new index is
automatically `< n`), shifted by `diff`, and keeps a barre only when its
shifted start string is `≥ 1` — a barre whose new start would be `0` is
dropped — shifting its end and leaving an open end `-1` unchanged. -/
theorem c3_setStrings_effect (d : FretDiagram) (n : Int)
    (hd : DotsWF d) (hm : MarkersWF d) (hb : BarresWF d) :
    (n ≤ 0 ∨ n = d.strings → d.setStrings n = d) ∧
    (0 < n → n ≠ d.strings →
      (d.setStrings n).strings = n ∧
      (d.setStrings n).dots =
        (d.dots.filter (fun p => decide (0 ≤ p.1 + (n - d.strings)))).map
          (fun p => (p.1 + (n - d.strings), p.2)) ∧
      (d.setStrings n).markers =
        (d.markers.filter
          (fun p => p.2.exists' && decide (0 ≤ p.1 + (n - d.strings)))).map
          (fun p => (p.1 + (n - d.strings), p.2)) ∧
      (d.setStrings n).barres = d.barres.filterMap
          (fun p => (shiftedBarre (n - d.strings) p.2).map (fun b => (p.1, b)))) := by
  constructor
  · intro hc
    apply setStrings_noop
    omega
  · intro hn hneq
    have hc : ¬ (n - d.strings = 0 ∨ n ≤ 0) := by omega
    have hnil : SMap.SortedKeys ([] : SMap (List FretItem.Dot)) := List.Pairwise.nil
    have hnodup : (intRange 0 d.strings).Nodup := intRange_nodup 0 d.strings
    refine ⟨setStrings_strings d n hc, ?_, ?_, ?_⟩
    · rw [setStrings_dots d n hc]
      obtain ⟨hsfold, hffold⟩ := dotStepFold_find? d (n - d.strings) (intRange 0 d.strings)
        hnodup [] hnil (fun j _ => rfl)
      rw [SMap.filter_map_eq_filterMap d.dots (n - d.strings) _]
      apply SMap.ext _ _ hsfold
        (SMap.sorted_filterMap_shift d.dots (n - d.strings)
          (fun i v => if decide (0 ≤ i + (n - d.strings)) = true then some v else none) hd.1)
      intro k
      rw [hffold k]
      rw [SMap.find?_filterMap_shift d.dots (n - d.strings)
        (fun i v => if decide (0 ≤ i + (n - d.strings)) = true then some v else none) k hd.1]
      cases hfind : SMap.find? d.dots (k - (n - d.strings)) with
      | none =>
        have hex : existingDots d (k - (n - d.strings)) = [] := by
          unfold existingDots
          rw [hfind]
          rfl
        rw [if_neg (fun hcon => hcon.2.2 hex)]
        rfl
      | some l =>
        have hmem := SMap.find?_mem d.dots (k - (n - d.strings)) l hfind
        obtain ⟨hk0, hk1, hne, hpos, _⟩ := hd.2 (k - (n - d.strings), l) hmem
        have hex : existingDots d (k - (n - d.strings)) = l := by
          unfold existingDots
          rw [hfind]
          simp only [Option.getD_some]
          apply List.filter_eq_self.mpr
          intro dd hdd
          unfold FretItem.Dot.exists'
          rw [decide_eq_true_eq]
          exact hpos dd hdd
        have hrange : (k - (n - d.strings)) ∈ intRange 0 d.strings := by
          rw [mem_intRange]
          exact ⟨hk0, hk1⟩
        simp only [Option.some_bind]
        by_cases h0 : 0 ≤ k
        · rw [if_pos ⟨hrange, by omega, by rw [hex]; exact hne⟩]
          rw [hex]
          rw [if_pos (by rw [decide_eq_true_eq]; omega)]
        · rw [if_neg (fun hcon => absurd hcon.2.1 (by omega))]
          rw [if_neg (by rw [decide_eq_true_eq]; omega)]
          rfl
    · rw [setStrings_markers d n hc]
      obtain ⟨hsfold, hffold⟩ := markerStepFold_find? d (n - d.strings) (intRange 0 d.strings)
        hnodup [] List.Pairwise.nil (fun j _ => rfl)
      rw [SMap.filter_map_eq_filterMap d.markers (n - d.strings) _]
      apply SMap.ext _ _ hsfold
        (SMap.sorted_filterMap_shift d.markers (n - d.strings)
          (fun i v =>
            if (v.exists' && decide (0 ≤ i + (n - d.strings))) = true then some v else none)
          hm.1)
      intro k
      rw [hffold k]
      rw [SMap.find?_filterMap_shift d.markers (n - d.strings)
        (fun i v =>
          if (v.exists' && decide (0 ≤ i + (n - d.strings))) = true then some v else none)
        k hm.1]
      cases hfind : SMap.find? d.markers (k - (n - d.strings)) with
      | none =>
        have hex : (d.marker (k - (n - d.strings))).exists' = false := by
          rw [marker_eq, hfind]
          rfl
        rw [if_neg (fun hcon => by rw [hex] at hcon; exact Bool.false_ne_true hcon.2.2)]
        rfl
      | some v =>
        have hmem := SMap.find?_mem d.markers (k - (n - d.strings)) v hfind
        obtain ⟨hk0, hk1⟩ := hm.2 (k - (n - d.strings), v) hmem
        have hveq : d.marker (k - (n - d.strings)) = v := by
          rw [marker_eq, hfind]
          rfl
        have hrange : (k - (n - d.strings)) ∈ intRange 0 d.strings := by
          rw [mem_intRange]
          exact ⟨hk0, hk1⟩
        simp only [Option.some_bind]
        by_cases hvex : v.exists' = true
        · by_cases h0 : 0 ≤ k
          · rw [if_pos ⟨hrange, by omega, by rw [hveq]; exact hvex⟩, hveq]
            rw [if_pos (by rw [Bool.and_eq_true, decide_eq_true_eq]; exact ⟨hvex, by omega⟩)]
          · rw [if_neg (fun hcon => absurd hcon.2.1 (by omega))]
            rw [if_neg (by rw [Bool.and_eq_true, decide_eq_true_eq]; intro hcon; omega)]
            rfl
        · rw [if_neg (fun hcon => by rw [hveq] at hcon; exact hvex hcon.2.2)]
          rw [if_neg (by rw [Bool.and_eq_true]; intro hcon; exact hvex hcon.1)]
          rfl
    · rw [setStrings_barres d n hc]
      obtain ⟨hsfold, hffold⟩ := barreStepFold_find? (n - d.strings) (intRangeIncl 1 d.frets) (intRange_nodup 1 (d.frets + 1)) { d with dots := (intRange 0 d.strings).foldl (setStringsDotStep d (n - d.strings)) [], markers := (intRange 0 d.strings).foldl (setStringsMarkerStep d (n - d.strings)) [] } hb.1
      apply SMap.ext _ _ hsfold
        (SMap.sorted_filterMap_keyed d.barres (fun _ b => shiftedBarre (n - d.strings) b) hb.1)
      intro k
      rw [hffold k]
      rw [SMap.find?_filterMap_keyed d.barres (fun _ b => shiftedBarre (n - d.strings) b) k hb.1]
      show (if k ∈ intRangeIncl 1 d.frets then
          (match SMap.find? d.barres k with
           | some b => if b.exists' = true then shiftedBarre (n - d.strings) b else some b
           | none => none)
        else SMap.find? d.barres k) = _
      cases hfind : SMap.find? d.barres k with
      | none =>
        by_cases hmem : k ∈ intRangeIncl 1 d.frets
        · rw [if_pos hmem]
          rfl
        · rw [if_neg hmem]
          rfl
      | some b =>
        have hmem2 := SMap.find?_mem d.barres k b hfind
        obtain ⟨hf1, hf2, hst0, _, _, _⟩ := hb.2 (k, b) hmem2
        have hmem : k ∈ intRangeIncl 1 d.frets := by
          unfold intRangeIncl
          rw [mem_intRange]
          omega
        rw [if_pos hmem]
        have hst0' : (0 : Int) ≤ b.startString := hst0
        have hbx : b.exists' = true := by
          unfold FretItem.Barre.exists'
          rw [decide_eq_true_eq]
          omega
        simp only [hbx, if_pos rfl]
        rfl

/-- C3 witness: shrinking a 6-string diagram with a dot at (2, 3) to five
strings moves the dot to string 1, and `setStrings` with the current count
is a no-op. -/
theorem c3_witness :
    ((0 : Int) < 5 ∧ (5 : Int) ≠ 6) ∧
    (((initDiagram 6 4).setDot 2 3 true FretDotType.NORMAL).setStrings 5).dots
      = [(1, [FretItem.Dot.mk 3 FretDotType.NORMAL])] ∧
    ((initDiagram 6 4).setDot 2 3 true FretDotType.NORMAL).setStrings 6
      = (initDiagram 6 4).setDot 2 3 true FretDotType.NORMAL := by
  have h := c3_setStrings_effect ((initDiagram 6 4).setDot 2 3 true FretDotType.NORMAL) 5
    (by constructor <;> decide) (by constructor <;> decide) (by constructor <;> decide)
  have h2 := c3_setStrings_effect ((initDiagram 6 4).setDot 2 3 true FretDotType.NORMAL) 6
    (by constructor <;> decide) (by constructor <;> decide) (by constructor <;> decide)
  refine ⟨⟨by decide, by decide⟩, ?_, ?_⟩
  · rw [(h.2 (by decide) (by decide)).2.1]
    decide
  · exact h2.1 (Or.inr (by decide))


theorem enumFilterMap_keys {β : Type} (f : Nat × Char → Option (Int × β))
    (hf : ∀ j c x, f (j, c) = some x → x.1 = (j : Int)) :
    ∀ (s : List Char) (j0 : Nat) p, p ∈ (s.enumFrom j0).filterMap f →
      (j0 : Int) ≤ p.1 ∧ p.1 < (j0 : Int) + (s.length : Int) := by
  intro s
  induction s with
  | nil => intro j0 p hp; simp [List.enumFrom] at hp
  | cons c rest ih =>
    intro j0 p hp
    rw [List.enumFrom, List.filterMap_cons] at hp
    cases hfc : f (j0, c) with
    | none =>
      rw [hfc] at hp
      have := ih (j0 + 1) p hp
      push_cast at this ⊢
      simp only [List.length_cons]
      push_cast
      omega
    | some x =>
      rw [hfc] at hp
      rcases List.mem_cons.mp hp with h1 | h2
      · have hx : p.1 = (j0 : Int) := by rw [h1]; exact hf j0 c x hfc
        simp only [List.length_cons]
        push_cast
        omega
      · have := ih (j0 + 1) p h2
        simp only [List.length_cons]
        push_cast at this ⊢
        omega

theorem enumFilterMap_sorted {β : Type} (f : Nat × Char → Option (Int × β))
    (hf : ∀ j c x, f (j, c) = some x → x.1 = (j : Int)) :
    ∀ (s : List Char) (j0 : Nat),
      List.Pairwise (fun (a b : Int × β) => a.1 < b.1) ((s.enumFrom j0).filterMap f) := by
  intro s
  induction s with
  | nil => intro j0; simp [List.enumFrom]
  | cons c rest ih =>
    intro j0
    rw [List.enumFrom, List.filterMap_cons]
    cases hfc : f (j0, c) with
    | none => exact ih (j0 + 1)
    | some x =>
      refine List.Pairwise.cons ?_ (ih (j0 + 1))
      intro q hq
      have hx := hf j0 c x hfc
      have hq' := enumFilterMap_keys f hf rest (j0 + 1) q hq
      push_cast at hq'
      omega

theorem c9DigitsFrom_cons (j0 : Nat) (c : Char) (rest : List Char) :
    c9DigitsFrom j0 (c :: rest) =
      (if digitValue c = -1 then c9DigitsFrom (j0 + 1) rest
       else ((j0 : Int), digitValue c) :: c9DigitsFrom (j0 + 1) rest) := by
  by_cases h : digitValue c = -1
  · simp [c9DigitsFrom, List.enumFrom, List.filterMap_cons, h]
  · simp [c9DigitsFrom, List.enumFrom, List.filterMap_cons, h]

theorem c9MarkersFrom_cons (j0 : Nat) (c : Char) (rest : List Char) :
    c9MarkersFrom j0 (c :: rest) =
      (if c = 'X' then ((j0 : Int), FretItem.Marker.mk FretMarkerType.CROSS)
          :: c9MarkersFrom (j0 + 1) rest
       else if c = 'O' then ((j0 : Int), FretItem.Marker.mk FretMarkerType.CIRCLE)
          :: c9MarkersFrom (j0 + 1) rest
       else c9MarkersFrom (j0 + 1) rest) := by
  by_cases hx : c = 'X'
  · simp [c9MarkersFrom, List.enumFrom, List.filterMap_cons, hx]
  · by_cases ho : c = 'O'
    · have hxo : ¬ ('O' = 'X') := by decide
      simp [c9MarkersFrom, List.enumFrom, List.filterMap_cons, hx, ho, hxo]
    · simp [c9MarkersFrom, List.enumFrom, List.filterMap_cons, hx, ho]

theorem c9DashFrom_cons (j0 : Nat) (c : Char) (rest : List Char) :
    c9DashFrom j0 (c :: rest) =
      (if c = '-' then (j0 : Int) else c9DashFrom (j0 + 1) rest) := by
  by_cases h : c = '-'
  · simp [c9DashFrom, List.enumFrom, List.find?_cons, h]
  · simp [c9DashFrom, List.enumFrom, List.find?_cons, h]

theorem setMarker_on_clean (d : FretDiagram) (i : Int) (mt : FretMarkerType)
    (hd : d.dots = []) (hb : d.barres = [])
    (hr : 0 ≤ i ∧ i < d.strings) (hmt : mt ≠ FretMarkerType.NONE) :
    d.setMarker i mt =
      { d with markers := SMap.insert d.markers i (FretItem.Marker.mk mt) } := by
  obtain ⟨st, fr, fo, dts, mks, brs⟩ := d
  simp only at hd hb
  subst hd hb
  simp only [setMarker]
  rw [if_pos hr, if_pos hmt]
  rfl

theorem offFold_eq_max : ∀ (L : List (Int × Int)) (o : Int), 0 ≤ o →
    L.foldl (fun o p => if 0 < p.2 - 3 ∧ o < p.2 - 3 then p.2 - 3 else o) o
      = L.foldl (fun o p => max o (p.2 - 3)) o := by
  intro L
  induction L with
  | nil => intro o _; rfl
  | cons p rest ih =>
    intro o ho
    simp only [List.foldl_cons]
    have hstep : (if 0 < p.2 - 3 ∧ o < p.2 - 3 then p.2 - 3 else o) = max o (p.2 - 3) := by
      by_cases h : 0 < p.2 - 3 ∧ o < p.2 - 3
      · rw [if_pos h]; omega
      · rw [if_neg h]; omega
    rw [hstep]
    exact ih _ (by omega)

theorem maxFold_nonneg : ∀ (L : List (Int × Int)) (o : Int), 0 ≤ o →
    0 ≤ L.foldl (fun o p => max o (p.2 - 3)) o := by
  intro L
  induction L with
  | nil => intro o ho; exact ho
  | cons p rest ih =>
    intro o ho
    simp only [List.foldl_cons]
    exact ih _ (by omega)

theorem scanFold : ∀ (s : List Char) (j0 : Nat) (st : ScanState),
    st.fd.dots = [] → st.fd.barres = [] →
    SMap.SortedKeys st.fd.markers →
    (∀ p ∈ st.fd.markers, p.1 < (j0 : Int)) →
    ((j0 : Int) + (s.length : Int) ≤ st.fd.strings) →
    (((s.enumFrom j0).foldl (fun st p => scanStep st (p.1 : Int) p.2) st).fd.strings
        = st.fd.strings ∧
      ((s.enumFrom j0).foldl (fun st p => scanStep st (p.1 : Int) p.2) st).fd.frets
        = st.fd.frets ∧
      ((s.enumFrom j0).foldl (fun st p => scanStep st (p.1 : Int) p.2) st).fd.fretOffset
        = st.fd.fretOffset ∧
      ((s.enumFrom j0).foldl (fun st p => scanStep st (p.1 : Int) p.2) st).fd.dots = [] ∧
      ((s.enumFrom j0).foldl (fun st p => scanStep st (p.1 : Int) p.2) st).fd.barres = []) ∧
    ((s.enumFrom j0).foldl (fun st p => scanStep st (p.1 : Int) p.2) st).fd.markers
      = st.fd.markers ++ c9MarkersFrom j0 s ∧
    ((s.enumFrom j0).foldl (fun st p => scanStep st (p.1 : Int) p.2) st).offset
      = (c9DigitsFrom j0 s).foldl
          (fun o p => if 0 < p.2 - 3 ∧ o < p.2 - 3 then p.2 - 3 else o) st.offset ∧
    ((s.enumFrom j0).foldl (fun st p => scanStep st (p.1 : Int) p.2) st).barreString
      = (if st.barreString = -1 then c9DashFrom j0 s else st.barreString) ∧
    ((s.enumFrom j0).foldl (fun st p => scanStep st (p.1 : Int) p.2) st).dotsToAdd
      = st.dotsToAdd ++ c9DigitsFrom j0 s := by
  intro s
  induction s with
  | nil =>
    intro j0 st hd hb hsm hkeys hlen
    simp [List.enumFrom, c9MarkersFrom, c9DigitsFrom, c9DashFrom, hd, hb]
    by_cases h : st.barreString = -1
    · rw [if_pos h, h]
    · rw [if_neg h]
  | cons c rest ih =>
    intro j0 st hd hb hsm hkeys hlen
    rw [List.enumFrom]
    simp only [List.foldl_cons, List.length_cons] at hlen ⊢
    by_cases hXO : c = 'X' ∨ c = 'O'
    · have hr : 0 ≤ (j0 : Int) ∧ (j0 : Int) < st.fd.strings := by
        constructor
        · omega
        · push_cast at hlen; omega
      have hmt : (if c = 'X' then FretMarkerType.CROSS else FretMarkerType.CIRCLE)
          ≠ FretMarkerType.NONE := by
        by_cases hx : c = 'X' <;> simp [hx]
      have hstep : scanStep st (j0 : Int) c = { st with fd := { st.fd with markers := SMap.insert st.fd.markers (j0 : Int) (FretItem.Marker.mk (if c = 'X' then FretMarkerType.CROSS else FretMarkerType.CIRCLE)) } } := by
        simp only [scanStep]
        rw [if_pos hXO]
        rw [setMarker_on_clean st.fd (j0 : Int) _ hd hb hr hmt]
      rw [hstep]
      have hins : SMap.insert st.fd.markers (j0 : Int) (FretItem.Marker.mk (if c = 'X' then FretMarkerType.CROSS else FretMarkerType.CIRCLE)) = st.fd.markers ++ [((j0 : Int), FretItem.Marker.mk (if c = 'X' then FretMarkerType.CROSS else FretMarkerType.CIRCLE))] :=
        SMap.insert_append _ _ _ hkeys
      obtain ⟨hframe, hmk, hoff, hbs, hdta⟩ := ih (j0 + 1) { st with fd := { st.fd with markers := SMap.insert st.fd.markers (j0 : Int) (FretItem.Marker.mk (if c = 'X' then FretMarkerType.CROSS else FretMarkerType.CIRCLE)) } }
        hd hb (SMap.sorted_insert _ _ _ hsm)
        (by
          intro p hp
          rcases SMap.mem_insert _ _ _ p hp with h1 | h2
          · rw [h1]; push_cast; omega
          · have := hkeys p h2; push_cast; omega)
        (by push_cast at hlen ⊢; omega)
      refine ⟨hframe, ?_, ?_, ?_, ?_⟩
      · rw [hmk]
        simp only [hins]
        rw [c9MarkersFrom_cons]
        rcases hXO with hx | ho
        · rw [if_pos hx, hx]
          simp [List.append_assoc]
        · have hxne : c ≠ 'X' := by rw [ho]; decide
          rw [if_neg hxne, if_pos ho, ho]
          simp [List.append_assoc]
      · rw [hoff]
        rw [c9DigitsFrom_cons]
        have hdv : digitValue c = -1 := by
          rcases hXO with hx | ho
          · rw [hx]; decide
          · rw [ho]; decide
        rw [if_pos hdv]
      · rw [hbs]
        rw [c9DashFrom_cons]
        have hcd : c ≠ '-' := by
          rcases hXO with hx | ho
          · rw [hx]; decide
          · rw [ho]; decide
        rw [if_neg hcd]
      · rw [hdta]
        rw [c9DigitsFrom_cons]
        have hdv : digitValue c = -1 := by
          rcases hXO with hx | ho
          · rw [hx]; decide
          · rw [ho]; decide
        rw [if_pos hdv]
    · by_cases hdash : c = '-' ∧ st.barreString = -1
      · have hstep : scanStep st (j0 : Int) c = { st with barreString := (j0 : Int) } := by
          simp only [scanStep]
          rw [if_neg hXO, if_pos hdash]
        rw [hstep]
        obtain ⟨hframe, hmk, hoff, hbs, hdta⟩ := ih (j0 + 1)
          { st with barreString := (j0 : Int) } hd hb hsm
          (by intro p hp; have := hkeys p hp; push_cast; omega)
          (by push_cast at hlen ⊢; omega)
        have hdv : digitValue c = -1 := by rw [hdash.1]; decide
        refine ⟨hframe, ?_, ?_, ?_, ?_⟩
        · rw [hmk, c9MarkersFrom_cons]
          have hx : c ≠ 'X' := fun h => hXO (Or.inl h)
          have ho : c ≠ 'O' := fun h => hXO (Or.inr h)
          rw [if_neg hx, if_neg ho]
        · rw [hoff, c9DigitsFrom_cons, if_pos hdv]
        · rw [hbs, c9DashFrom_cons, if_pos hdash.1, if_pos hdash.2]
          rw [if_neg (show ¬ ((j0 : Int) = -1) by omega)]
        · rw [hdta, c9DigitsFrom_cons, if_pos hdv]
      · by_cases hdig : digitValue c = -1
        · have hstep : scanStep st (j0 : Int) c = st := by
            simp only [scanStep]
            rw [if_neg hXO, if_neg hdash]
            simp [hdig]
          rw [hstep]
          obtain ⟨hframe, hmk, hoff, hbs, hdta⟩ := ih (j0 + 1) st hd hb hsm
            (by intro p hp; have := hkeys p hp; push_cast; omega)
            (by push_cast at hlen ⊢; omega)
          refine ⟨hframe, ?_, ?_, ?_, ?_⟩
          · rw [hmk, c9MarkersFrom_cons]
            have hx : c ≠ 'X' := fun h => hXO (Or.inl h)
            have ho : c ≠ 'O' := fun h => hXO (Or.inr h)
            rw [if_neg hx, if_neg ho]
          · rw [hoff, c9DigitsFrom_cons, if_pos hdig]
          · rw [hbs, c9DashFrom_cons]
            by_cases hbs0 : st.barreString = -1
            · have hcd : c ≠ '-' := by
                intro hcd
                exact hdash ⟨hcd, hbs0⟩
              rw [if_neg hcd]
            · rw [if_neg hbs0, if_neg hbs0]
          · rw [hdta, c9DigitsFrom_cons, if_pos hdig]
        · have hstep : scanStep st (j0 : Int) c = { st with dotsToAdd := st.dotsToAdd ++ [((j0 : Int), digitValue c)], offset := if 0 < digitValue c - 3 ∧ st.offset < digitValue c - 3 then digitValue c - 3 else st.offset } := by
            simp only [scanStep]
            rw [if_neg hXO, if_neg hdash]
            simp [hdig]
          rw [hstep]
          obtain ⟨hframe, hmk, hoff, hbs, hdta⟩ := ih (j0 + 1) { st with dotsToAdd := st.dotsToAdd ++ [((j0 : Int), digitValue c)], offset := if 0 < digitValue c - 3 ∧ st.offset < digitValue c - 3 then digitValue c - 3 else st.offset } hd hb hsm
            (by intro p hp; have := hkeys p hp; push_cast; omega)
            (by push_cast at hlen ⊢; omega)
          have hcd : c ≠ '-' := by
            intro hcd
            rw [hcd] at hdig
            exact hdig (by decide)
          refine ⟨hframe, ?_, ?_, ?_, ?_⟩
          · rw [hmk, c9MarkersFrom_cons]
            have hx : c ≠ 'X' := fun h => hXO (Or.inl h)
            have ho : c ≠ 'O' := fun h => hXO (Or.inr h)
            rw [if_neg hx, if_neg ho]
          · rw [hoff, c9DigitsFrom_cons, if_neg hdig]
            rfl
          · rw [hbs, c9DashFrom_cons, if_neg hcd]
          · rw [hdta, c9DigitsFrom_cons, if_neg hdig]
            simp [List.append_assoc]

theorem dotsAddFold : ∀ (L : List (Int × Int)) (d : FretDiagram) (off : Int),
    SMap.SortedKeys d.dots →
    (∀ p ∈ d.dots, ∀ q ∈ L, p.1 < q.1) →
    List.Pairwise (fun (a b : Int × Int) => a.1 < b.1) L →
    (∀ q ∈ L, 0 ≤ q.1 ∧ q.1 < d.strings) →
    (L.foldl (fun acc p => acc.setDot p.1 (p.2 - off) true FretDotType.NORMAL) d).dots
      = d.dots ++ L.filterMap (fun p => if p.2 - off = 0 then none
          else some (p.1, [FretItem.Dot.mk (p.2 - off) FretDotType.NORMAL])) ∧
    (L.foldl (fun acc p => acc.setDot p.1 (p.2 - off) true FretDotType.NORMAL) d).markers
      = d.markers ∧
    (L.foldl (fun acc p => acc.setDot p.1 (p.2 - off) true FretDotType.NORMAL) d).barres
      = d.barres ∧
    (L.foldl (fun acc p => acc.setDot p.1 (p.2 - off) true FretDotType.NORMAL) d).strings
      = d.strings ∧
    (L.foldl (fun acc p => acc.setDot p.1 (p.2 - off) true FretDotType.NORMAL) d).frets
      = d.frets ∧
    (L.foldl (fun acc p => acc.setDot p.1 (p.2 - off) true FretDotType.NORMAL) d).fretOffset
      = d.fretOffset := by
  intro L
  induction L with
  | nil =>
    intro d off hs hlt hp hb
    simp
  | cons q rest ih =>
    intro d off hs hlt hp hb
    obtain ⟨i, dv⟩ := q
    have hfind : SMap.find? d.dots i = none := by
      rw [SMap.find?_eq_none_iff]
      intro p hpm
      have := hlt p hpm (i, dv) (by simp)
      omega
    simp only [List.foldl_cons, List.filterMap_cons]
    by_cases hf0 : dv - off = 0
    · have hstep : d.setDot i (dv - off) true FretDotType.NORMAL = d := by
        simp only [setDot]
        rw [if_pos hf0]
        simp only [removeDot]
        rw [if_neg (by omega)]
        rw [SMap.erase_of_not_mem d.dots i (by
          intro p hpm
          have := hlt p hpm (i, dv) (by simp)
          omega)]
      rw [hstep]
      simp only [hf0, if_pos rfl]
      exact ih d off hs
        (fun p hpm q hq => hlt p hpm q (by simp [hq]))
        (List.Pairwise.sublist (List.sublist_cons_self _ _) hp)
        (fun q hq => hb q (by simp [hq]))
    · have hrange : 0 ≤ i ∧ i < d.strings := hb (i, dv) (by simp)
      have hdot : d.dot i (dv - off) = [FretItem.Dot.mk 0 FretDotType.NORMAL] := by
        simp only [dot]
        rw [hfind]
      have hstep : d.setDot i (dv - off) true FretDotType.NORMAL
          = { d with dots := SMap.insert d.dots i [FretItem.Dot.mk (dv - off) FretDotType.NORMAL] } := by
        simp only [setDot]
        rw [if_neg hf0, if_pos hrange]
        rw [if_neg (by rw [hdot]; simp [FretItem.Dot.exists'])]
        simp [hfind]
      rw [hstep]
      have hins : SMap.insert d.dots i [FretItem.Dot.mk (dv - off) FretDotType.NORMAL]
          = d.dots ++ [(i, [FretItem.Dot.mk (dv - off) FretDotType.NORMAL])] := by
        apply SMap.insert_append
        intro p hpm
        exact hlt p hpm (i, dv) (by simp)
      have hrest := ih { d with dots := SMap.insert d.dots i [FretItem.Dot.mk (dv - off) FretDotType.NORMAL] } off
        (SMap.sorted_insert _ _ _ hs)
        (by
          intro p hpm q hq
          rcases SMap.mem_insert _ _ _ p hpm with h1 | h2
          · rw [h1]
            have := List.rel_of_pairwise_cons hp hq
            simpa using this
          · exact hlt p h2 q (by simp [hq]))
        (List.Pairwise.sublist (List.sublist_cons_self _ _) hp)
        (fun q hq => hb q (by simp [hq]))
      rw [if_neg hf0]
      refine ⟨?_, hrest.2.1, hrest.2.2.1, hrest.2.2.2.1, hrest.2.2.2.2.1, hrest.2.2.2.2.2⟩
      rw [hrest.1]
      simp only [hins]
      simp [List.append_assoc]

theorem c9DashFrom_bounds : ∀ (s : List Char) (j0 : Nat),
    c9DashFrom j0 s = -1 ∨
      ((j0 : Int) ≤ c9DashFrom j0 s ∧ c9DashFrom j0 s < (j0 : Int) + (s.length : Int)) := by
  intro s
  induction s with
  | nil => intro j0; left; rfl
  | cons c rest ih =>
    intro j0
    rw [c9DashFrom_cons]
    by_cases h : c = '-'
    · right
      rw [if_pos h]
      simp only [List.length_cons]
      push_cast
      omega
    · rw [if_neg h]
      rcases ih (j0 + 1) with h1 | h2
      · left; exact h1
      · right
        simp only [List.length_cons]
        push_cast at h2 ⊢
        omega

theorem c9Offset_nonneg (s : List Char) : 0 ≤ c9Offset s :=
  maxFold_nonneg _ 0 le_rfl

theorem scanResult (s : List Char) :
    ((s.enumFrom 0).foldl (fun st p => scanStep st (p.1 : Int) p.2)
        (ScanState.mk (initDiagram (s.length : Int) 4) 0 (-1) [])).fd
      = FretDiagram.mk (s.length : Int) 4 0 [] (c9MarkersFrom 0 s) [] ∧
    ((s.enumFrom 0).foldl (fun st p => scanStep st (p.1 : Int) p.2)
        (ScanState.mk (initDiagram (s.length : Int) 4) 0 (-1) [])).offset = c9Offset s ∧
    ((s.enumFrom 0).foldl (fun st p => scanStep st (p.1 : Int) p.2)
        (ScanState.mk (initDiagram (s.length : Int) 4) 0 (-1) [])).barreString
      = c9DashFrom 0 s ∧
    ((s.enumFrom 0).foldl (fun st p => scanStep st (p.1 : Int) p.2)
        (ScanState.mk (initDiagram (s.length : Int) 4) 0 (-1) [])).dotsToAdd
      = c9DigitsFrom 0 s := by
  obtain ⟨⟨e1, e2, e3, e4, e5⟩, e6, e7, e8, e9⟩ :=
    scanFold s 0 (ScanState.mk (initDiagram (s.length : Int) 4) 0 (-1) [])
      rfl rfl List.Pairwise.nil
      (fun p hp => absurd hp (List.not_mem_nil p))
      (by simp [initDiagram])
  refine ⟨?_, ?_, ?_, ?_⟩
  · have heta : ((s.enumFrom 0).foldl (fun st p => scanStep st (p.1 : Int) p.2)
        (ScanState.mk (initDiagram (s.length : Int) 4) 0 (-1) [])).fd
      = FretDiagram.mk (((s.enumFrom 0).foldl (fun st p => scanStep st (p.1 : Int) p.2)
        (ScanState.mk (initDiagram (s.length : Int) 4) 0 (-1) [])).fd.strings)
        (((s.enumFrom 0).foldl (fun st p => scanStep st (p.1 : Int) p.2)
        (ScanState.mk (initDiagram (s.length : Int) 4) 0 (-1) [])).fd.frets)
        (((s.enumFrom 0).foldl (fun st p => scanStep st (p.1 : Int) p.2)
        (ScanState.mk (initDiagram (s.length : Int) 4) 0 (-1) [])).fd.fretOffset)
        (((s.enumFrom 0).foldl (fun st p => scanStep st (p.1 : Int) p.2)
        (ScanState.mk (initDiagram (s.length : Int) 4) 0 (-1) [])).fd.dots)
        (((s.enumFrom 0).foldl (fun st p => scanStep st (p.1 : Int) p.2)
        (ScanState.mk (initDiagram (s.length : Int) 4) 0 (-1) [])).fd.markers)
        (((s.enumFrom 0).foldl (fun st p => scanStep st (p.1 : Int) p.2)
        (ScanState.mk (initDiagram (s.length : Int) 4) 0 (-1) [])).fd.barres) := rfl
    rw [heta, e1, e2, e3, e4, e5, e6]
    rfl
  · rw [e7, offFold_eq_max _ _ le_rfl]
    rfl
  · rw [e8]
    simp
  · rw [e9]
    rfl

theorem setStringsBarreStep_fretOffset (diff : Int) (acc : FretDiagram) (fret : Int) :
    (setStringsBarreStep diff acc fret).fretOffset = acc.fretOffset := by
  simp only [setStringsBarreStep]
  split
  · split
    · rfl
    · rfl
  · rfl

theorem foldl_barreStep_fretOffset (diff : Int) : ∀ (L : List Int) (acc : FretDiagram),
    (L.foldl (setStringsBarreStep diff) acc).fretOffset = acc.fretOffset := by
  intro L
  induction L with
  | nil => intro acc; rfl
  | cons f0 rest ih =>
    intro acc
    simp only [List.foldl_cons]
    rw [ih (setStringsBarreStep diff acc f0), setStringsBarreStep_fretOffset]

theorem initDiagram_setStrings (n : Int) (h : 0 < n) :
    (initDiagram 6 4).setStrings n = initDiagram n 4 := by
  by_cases h6 : n = 6
  · rw [setStrings_noop _ _ (by rw [h6]; left; rfl), h6]
  · have hc : ¬ (n - (initDiagram 6 4).strings = 0 ∨ n ≤ 0) := by
      simp only [initDiagram]
      omega
    have hdots : ((initDiagram 6 4).setStrings n).dots = [] := by
      rw [setStrings_dots _ n hc]
      obtain ⟨hsf, hff⟩ := dotStepFold_find? (initDiagram 6 4)
        (n - (initDiagram 6 4).strings) (intRange 0 (initDiagram 6 4).strings)
        (intRange_nodup _ _) [] List.Pairwise.nil (fun j _ => rfl)
      apply SMap.ext _ _ hsf List.Pairwise.nil
      intro k
      rw [hff k]
      rw [if_neg (fun hcon => hcon.2.2 rfl)]
    have hmks : ((initDiagram 6 4).setStrings n).markers = [] := by
      rw [setStrings_markers _ n hc]
      obtain ⟨hsf, hff⟩ := markerStepFold_find? (initDiagram 6 4)
        (n - (initDiagram 6 4).strings) (intRange 0 (initDiagram 6 4).strings)
        (intRange_nodup _ _) [] List.Pairwise.nil (fun j _ => rfl)
      apply SMap.ext _ _ hsf List.Pairwise.nil
      intro k
      rw [hff k]
      rw [if_neg (fun hcon => Bool.false_ne_true hcon.2.2)]
    have hbrs : ((initDiagram 6 4).setStrings n).barres = [] := by
      rw [setStrings_barres _ n hc]
      obtain ⟨hsf, hff⟩ := barreStepFold_find? (n - (initDiagram 6 4).strings)
        (intRangeIncl 1 (initDiagram 6 4).frets) (intRange_nodup _ _)
        { initDiagram 6 4 with dots := (intRange 0 (initDiagram 6 4).strings).foldl (setStringsDotStep (initDiagram 6 4) (n - (initDiagram 6 4).strings)) [], markers := (intRange 0 (initDiagram 6 4).strings).foldl (setStringsMarkerStep (initDiagram 6 4) (n - (initDiagram 6 4).strings)) [] }
        List.Pairwise.nil
      apply SMap.ext _ _ hsf List.Pairwise.nil
      intro k
      rw [hff k]
      show (if k ∈ intRangeIncl 1 (initDiagram 6 4).frets
          then (none : Option FretItem.Barre) else none) = none
      rw [ite_self]
    have hstr := setStrings_strings (initDiagram 6 4) n hc
    have hfr : ((initDiagram 6 4).setStrings n).frets = 4 := by
      simp only [setStrings]
      rw [if_neg hc]
      exact (foldl_barreStep_frame _ _ _).2.2.2
    have hfo : ((initDiagram 6 4).setStrings n).fretOffset = 0 := by
      simp only [setStrings]
      rw [if_neg hc]
      exact foldl_barreStep_fretOffset _ _ _
    have heta : (initDiagram 6 4).setStrings n
        = FretDiagram.mk (((initDiagram 6 4).setStrings n).strings)
          (((initDiagram 6 4).setStrings n).frets)
          (((initDiagram 6 4).setStrings n).fretOffset)
          (((initDiagram 6 4).setStrings n).dots)
          (((initDiagram 6 4).setStrings n).markers)
          (((initDiagram 6 4).setStrings n).barres) := rfl
    rw [heta, hstr, hfr, hfo, hdots, hmks, hbrs]
    rfl

theorem fd_eq_mk (d : FretDiagram) (a b c : Int) (x : SMap (List FretItem.Dot))
    (y : SMap FretItem.Marker) (z : SMap FretItem.Barre)
    (h1 : d.strings = a) (h2 : d.frets = b) (h3 : d.fretOffset = c)
    (h4 : d.dots = x) (h5 : d.markers = y) (h6 : d.barres = z) :
    d = FretDiagram.mk a b c x y z := by
  subst h1 h2 h3 h4 h5 h6
  rfl

/-- C9 (amended): for a non-empty pattern, `createFromString` yields one
string per character, `CROSS`/`CIRCLE` markers at the `X`/`O` positions,
fret offset `max(0, maxDigit - 3)` over the recorded digits, a dot at
fret `d - offset` for exactly those recorded digits with `d - offset ≠ 0`
(a digit whose adjusted fret is `0` places nothing), and a single open
barre at relative fret 1 from the first `-` position when one was seen. -/
theorem c9_createFromString_spec (s : List Char) (hne : s ≠ []) :
    createFromString (initDiagram 6 4) s
      = FretDiagram.mk (s.length : Int) 4 (c9Offset s) (c9Dots s) (c9MarkersFrom 0 s)
          (c9Barres s) := by
  have hlen : 0 < s.length := List.length_pos.mpr hne
  simp only [createFromString]
  rw [initDiagram_setStrings _ (by exact_mod_cast hlen)]
  rw [show (initDiagram ((s.length : Nat) : Int) 4).setFrets 4
      = initDiagram ((s.length : Nat) : Int) 4 from rfl]
  obtain ⟨hfd, hoff, hbar, hdta⟩ := scanResult s
  rw [hoff, hbar, hdta, hfd]
  have hfd2 : (if 0 < c9Offset s
      then (FretDiagram.mk ((s.length : Nat) : Int) 4 0 [] (c9MarkersFrom 0 s) []).setFretOffset
        (c9Offset s)
      else FretDiagram.mk ((s.length : Nat) : Int) 4 0 [] (c9MarkersFrom 0 s) [])
      = FretDiagram.mk ((s.length : Nat) : Int) 4 (c9Offset s) [] (c9MarkersFrom 0 s) [] := by
    by_cases h : 0 < c9Offset s
    · rw [if_pos h]
      rfl
    · rw [if_neg h]
      have h0 : c9Offset s = 0 := le_antisymm (not_lt.mp h) (c9Offset_nonneg s)
      rw [h0]
  rw [hfd2]
  have hfdig : ∀ (j : Nat) (c : Char) (x : Int × Int),
      (if digitValue c = -1 then none else some ((j : Int), digitValue c)) = some x →
      x.1 = (j : Int) := by
    intro j c x hx
    by_cases hd : digitValue c = -1
    · rw [if_pos hd] at hx
      exact absurd hx (by simp)
    · rw [if_neg hd] at hx
      rw [← Option.some.inj hx]
  obtain ⟨d1, d2, d3, d4, d5, d6⟩ := dotsAddFold (c9DigitsFrom 0 s)
    (FretDiagram.mk ((s.length : Nat) : Int) 4 (c9Offset s) [] (c9MarkersFrom 0 s) [])
    (c9Offset s)
    List.Pairwise.nil
    (fun p hp => absurd hp (List.not_mem_nil p))
    (enumFilterMap_sorted _ hfdig s 0)
    (by
      intro q hq
      have := enumFilterMap_keys _ hfdig s 0 q hq
      show 0 ≤ q.1 ∧ q.1 < ((s.length : Nat) : Int)
      push_cast at this
      omega)
  have e1 : _ = ((s.length : Nat) : Int) := d4
  have e2 : _ = (4 : Int) := d5
  have e3 : _ = c9Offset s := d6
  have e4 : _ = c9Dots s := d1
  have e5 : _ = c9MarkersFrom 0 s := d2
  have e6 : _ = ([] : SMap FretItem.Barre) := d3
  have hF3 := fd_eq_mk _ _ _ _ _ _ _ e1 e2 e3 e4 e5 e6
  rw [hF3]
  by_cases hdash : 0 ≤ c9DashFrom 0 s
  · rw [if_pos hdash]
    have hdb : c9DashFrom 0 s < ((s.length : Nat) : Int) := by
      rcases c9DashFrom_bounds s 0 with h1 | h2
      · omega
      · push_cast at h2
        omega
    simp only [setBarre]
    rw [if_neg (show ¬ (c9DashFrom 0 s = -1) by omega)]
    rw [if_pos (show (0 ≤ c9DashFrom 0 s ∧ -1 ≤ (-1 : Int)
        ∧ c9DashFrom 0 s < (FretDiagram.mk ((s.length : Nat) : Int) 4 (c9Offset s) (c9Dots s)
            (c9MarkersFrom 0 s) []).strings
        ∧ (-1 : Int) < (FretDiagram.mk ((s.length : Nat) : Int) 4 (c9Offset s) (c9Dots s)
            (c9MarkersFrom 0 s) []).strings)
      from ⟨hdash, by omega, by show c9DashFrom 0 s < ((s.length : Nat) : Int); omega,
        by show (-1 : Int) < ((s.length : Nat) : Int); omega⟩)]
    show FretDiagram.mk ((s.length : Nat) : Int) 4 (c9Offset s) (c9Dots s) (c9MarkersFrom 0 s)
        [(1, FretItem.Barre.mk (c9DashFrom 0 s) (-1))] = _
    unfold c9Barres
    rw [if_pos hdash]
  · rw [if_neg hdash]
    unfold c9Barres
    rw [if_neg hdash]

/-- C9: the claim says every recorded digit `d` places a dot at fret
`d - offset`; but `setDot` treats fret `0` as removal, so a digit whose
offset-adjusted fret is `0` places nothing.  The pattern `"0"` records the
digit `0` with offset `0`, yet the resulting dots map is empty. -/
theorem c9_counterexample :
    digitValue '0' = 0 ∧
    (createFromString (initDiagram 6 4) ['0']).strings = 1 ∧
    (createFromString (initDiagram 6 4) ['0']).fretOffset = 0 ∧
    (createFromString (initDiagram 6 4) ['0']).dots = [] := by
  refine ⟨by decide, by decide, by decide, by decide⟩

theorem c9_witness :
    (['X', '3', '2', '0', '1', '0'] : List Char) ≠ [] ∧
    createFromString (initDiagram 6 4) ['X', '3', '2', '0', '1', '0']
      = FretDiagram.mk 6 4 0
          [(1, [FretItem.Dot.mk 3 FretDotType.NORMAL]),
           (2, [FretItem.Dot.mk 2 FretDotType.NORMAL]),
           (4, [FretItem.Dot.mk 1 FretDotType.NORMAL])]
          [(0, FretItem.Marker.mk FretMarkerType.CROSS)] [] := by
  constructor
  · decide
  · rw [c9_createFromString_spec _ (by decide)]
    decide

theorem marker_name_roundtrip (t : FretMarkerType) :
    FretItem.nameToMarkerType (FretItem.markerTypeToName t) = t := by
  cases t <;> rfl

theorem dot_name_roundtrip (t : FretDotType) :
    FretItem.nameToDotType (FretItem.dotTypeToName t) = t := by
  cases t <;> rfl

theorem intRange_pairwise (lo hi : Int) :
    List.Pairwise (fun a b => a < b) (intRange lo hi) := by
  unfold intRange
  refine List.Pairwise.map _ ?_ (List.pairwise_lt_range (hi - lo).toNat)
  intro a b hab
  show lo + (a : Int) < lo + (b : Int)
  have hab' : (a : Int) < (b : Int) := by exact_mod_cast hab
  omega

theorem filterMap_find?_eq {V W : Type} :
    ∀ (L : List Int) (m : SMap V) (g : Int → V → W),
    List.Pairwise (fun a b => a < b) L → SMap.SortedKeys m → (∀ p ∈ m, p.1 ∈ L) →
    L.filterMap (fun k => (SMap.find? m k).map (fun v => g k v))
      = m.map (fun p => g p.1 p.2) := by
  intro L
  induction L with
  | nil =>
    intro m g _ _ hsub
    cases m with
    | nil => rfl
    | cons p rest => exact absurd (hsub p (by simp)) (List.not_mem_nil p.1)
  | cons j R ih =>
    intro m g hL hs hsub
    rw [List.filterMap_cons]
    have hR : ∀ r ∈ R, j < r := fun r hr => List.rel_of_pairwise_cons hL hr
    cases m with
    | nil => simp [SMap.find?_nil]
    | cons q m' =>
      obtain ⟨k, v⟩ := q
      by_cases hkj : k = j
      · subst hkj
        rw [SMap.find?_cons, if_pos rfl]
        simp only [Option.map_some']
        rw [List.map_cons]
        congr 1
        rw [← ih m' g (List.Pairwise.sublist (List.sublist_cons_self _ _) hL)
          (SMap.sorted_tail hs)
          (by
            intro p hp
            have hgt := SMap.sorted_head_lt hs p hp
            have := hsub p (by simp [hp])
            rcases List.mem_cons.mp this with h1 | h2
            · omega
            · exact h2)]
        apply List.filterMap_congr
        intro r hr
        have hjr : k < r := hR r hr
        rw [SMap.find?_cons, if_neg (by omega)]
      · have hjk : ∀ p ∈ (k, v) :: m', j < p.1 := by
          intro p hp
          have hmem := hsub p hp
          rcases List.mem_cons.mp hmem with h1 | h2
          · rcases List.mem_cons.mp hp with hq1 | hq2
            · rw [hq1] at h1
              exact absurd h1 hkj
            · have hgt := SMap.sorted_head_lt hs p hq2
              have hkmem := hsub (k, v) (by simp)
              rcases List.mem_cons.mp hkmem with hk1 | hk2
              · exact absurd hk1 hkj
              · have := hR k hk2
                omega
          · exact hR p.1 h2
        rw [SMap.find?_eq_none_of_keys_gt _ _ hjk]
        simp only [Option.map_none']
        rw [ih ((k, v) :: m') g (List.Pairwise.sublist (List.sublist_cons_self _ _) hL)
          hs
          (by
            intro p hp
            have hmem := hsub p hp
            rcases List.mem_cons.mp hmem with h1 | h2
            · have := hjk p hp
              omega
            · exact h2)]

theorem setBarre_frame (d : FretDiagram) (ss es f : Int) :
    (d.setBarre ss es f).dots = d.dots ∧ (d.setBarre ss es f).markers = d.markers ∧
    (d.setBarre ss es f).strings = d.strings ∧ (d.setBarre ss es f).frets = d.frets ∧
    (d.setBarre ss es f).fretOffset = d.fretOffset := by
  unfold setBarre removeBarre
  split
  · exact ⟨rfl, rfl, rfl, rfl, rfl⟩
  · split
    · exact ⟨rfl, rfl, rfl, rfl, rfl⟩
    · exact ⟨rfl, rfl, rfl, rfl, rfl⟩

theorem setMarker_fresh (d : FretDiagram) (i : Int) (mt : FretMarkerType)
    (hnd : ∀ p ∈ d.dots, p.1 ≠ i) (hb : d.barres = [])
    (hr : 0 ≤ i ∧ i < d.strings) (hmt : mt ≠ FretMarkerType.NONE) :
    d.setMarker i mt =
      { d with markers := SMap.insert d.markers i (FretItem.Marker.mk mt) } := by
  obtain ⟨st, fr, fo, dts, mks, brs⟩ := d
  simp only at hb hnd
  subst hb
  simp only [setMarker]
  rw [if_pos hr, if_pos hmt]
  simp only [removeDot]
  rw [if_neg (by omega)]
  simp only [removeBarres]
  rw [SMap.erase_of_not_mem dts i hnd]
  rfl

theorem readDot_step (acc : FretDiagram) (i fret : Int) (dt : FretDotType)
    (hfret : fret ≠ 0) (hr : 0 ≤ i ∧ i < acc.strings)
    (hnew : ∀ dd ∈ (SMap.find? acc.dots i).getD [], dd.fret ≠ fret) :
    acc.setDot i fret true dt =
      { acc with dots := SMap.insert acc.dots i ((SMap.find? acc.dots i).getD [] ++ [FretItem.Dot.mk fret dt]) } := by
  simp only [setDot]
  rw [if_neg hfret, if_pos hr]
  have hdot : ((acc.dot i fret).headD (FretItem.Dot.mk 0 FretDotType.NORMAL)).exists' = false := by
    simp only [dot]
    cases hfind : SMap.find? acc.dots i with
    | none => rfl
    | some l =>
      show ((if fret ≠ 0 then
          match List.find? (fun dd => decide (dd.fret = fret)) l with
          | some dd => [dd]
          | none => [FretItem.Dot.mk 0 FretDotType.NORMAL]
        else l).headD (FretItem.Dot.mk 0 FretDotType.NORMAL)).exists' = false
      rw [if_pos hfret]
      cases hv : List.find? (fun dd => decide (dd.fret = fret)) l with
      | none => rfl
      | some dd =>
        have hmem := List.mem_of_find?_eq_some hv
        have heq := List.find?_some hv
        rw [decide_eq_true_eq] at heq
        exact absurd heq (hnew dd (by rw [hfind]; exact hmem))
  rw [if_neg (by rw [hdot]; simp)]
  simp

theorem readDotsFold : ∀ (ds : List FretItem.Dot) (acc : FretDiagram) (i : Int),
    (0 ≤ i ∧ i < acc.strings) →
    (∀ dd ∈ ds, dd.fret ≠ 0) →
    ((((SMap.find? acc.dots i).getD []) ++ ds).map (fun dd => dd.fret)).Nodup →
    (ds.foldl (fun a dd => a.setDot i dd.fret true dd.dtype) acc) =
      (if ds = [] then acc
       else { acc with dots := SMap.insert acc.dots i (((SMap.find? acc.dots i).getD []) ++ ds) }) := by
  intro ds
  induction ds with
  | nil =>
    intro acc i _ _ _
    rw [if_pos rfl]
    rfl
  | cons dd rest ih =>
    intro acc i hr h0 hnd
    rw [if_neg (by simp)]
    simp only [List.foldl_cons]
    have hnd2 := hnd
    rw [List.map_append] at hnd2
    have hdisj := (List.nodup_append.mp hnd2).2.2
    have hnew : ∀ dd2 ∈ (SMap.find? acc.dots i).getD [], dd2.fret ≠ dd.fret := by
      intro dd2 hdd2 hcon
      exact hdisj (List.mem_map_of_mem _ hdd2)
        (by rw [hcon]; exact List.mem_map_of_mem _ (by simp))
    have hstep := readDot_step acc i dd.fret dd.dtype (h0 dd (by simp)) hr hnew
    rw [hstep]
    rw [ih { acc with dots := SMap.insert acc.dots i ((SMap.find? acc.dots i).getD [] ++ [FretItem.Dot.mk dd.fret dd.dtype]) } i hr (fun x hx => h0 x (by simp [hx]))
      (by
        show ((((SMap.find? (SMap.insert acc.dots i ((SMap.find? acc.dots i).getD [] ++ [FretItem.Dot.mk dd.fret dd.dtype])) i).getD []) ++ rest).map (fun x => x.fret)).Nodup
        rw [SMap.find?_insert_self, Option.getD_some, List.append_assoc, List.singleton_append]
        exact hnd)]
    by_cases hrest : rest = []
    · subst hrest
      rw [if_pos rfl]
    · rw [if_neg hrest]
      have hdots : SMap.insert (SMap.insert acc.dots i ((SMap.find? acc.dots i).getD [] ++ [FretItem.Dot.mk dd.fret dd.dtype])) i (((SMap.find? (SMap.insert acc.dots i ((SMap.find? acc.dots i).getD [] ++ [FretItem.Dot.mk dd.fret dd.dtype])) i).getD []) ++ rest) = SMap.insert acc.dots i ((SMap.find? acc.dots i).getD [] ++ dd :: rest) := by
        rw [SMap.find?_insert_self, Option.getD_some, SMap.insert_insert, List.append_assoc, List.singleton_append]
      exact fd_eq_mk _ _ _ _ _ _ _ rfl rfl rfl hdots rfl rfl

theorem readBlockFold (d acc : FretDiagram) (i : Int)
    (hd : DotsWF d)
    (hka : ∀ p ∈ acc.dots, p.1 < i)
    (hmk : ∀ p ∈ acc.markers, p.1 < i)
    (hb : acc.barres = [])
    (hstr : acc.strings = d.strings)
    (hr : 0 ≤ i ∧ i < d.strings) :
    (writeNewString d i).foldl readNewItem acc
      = { acc with dots := acc.dots ++ ((SMap.find? d.dots i).map (fun v => (i, v))).toList, markers := acc.markers ++ (if (d.marker i).exists' then [(i, d.marker i)] else []) } := by
  have hracc : 0 ≤ i ∧ i < acc.strings := by rw [hstr]; exact hr
  cases hfind : SMap.find? d.dots i with
  | none =>
    have hAllDots : d.dot i 0 = [FretItem.Dot.mk 0 FretDotType.NORMAL] := by
      simp [dot, hfind]
    by_cases hme : (d.marker i).exists' = true
    · have hmt : (d.marker i).mtype ≠ FretMarkerType.NONE := by
        unfold FretItem.Marker.exists' at hme
        rw [decide_eq_true_eq] at hme
        exact hme
      have hblock : writeNewString d i
          = [WireItem.marker i (FretItem.markerTypeToName (d.marker i).mtype)] := by
        simp [writeNewString, hAllDots, hme, FretItem.Dot.exists']
      rw [hblock]
      simp only [List.foldl_cons, List.foldl_nil, readNewItem]
      rw [marker_name_roundtrip]
      rw [setMarker_fresh acc i (d.marker i).mtype
        (fun p hp => by have := hka p hp; omega) hb hracc hmt]
      rw [SMap.insert_append acc.markers i _ hmk]
      simp [hme]
    · have hblock : writeNewString d i = [] := by
        simp [writeNewString, hAllDots, FretItem.Dot.exists', hme]
      rw [hblock]
      simp only [List.foldl_nil]
      simp [hme]
  | some v =>
    obtain ⟨hk0, hk1, hvne, hvpos, hvnd⟩ := hd.2 (i, v) (SMap.find?_mem _ _ _ hfind)
    have hAllDots : d.dot i 0 = v := by
      simp [dot, hfind]
    have hde : (d.dot i 0).any (fun dd => dd.exists') = true := by
      rw [hAllDots]
      cases v with
      | nil => exact absurd rfl hvne
      | cons dd rest =>
        have := hvpos dd (by simp)
        simp only [List.any_cons, Bool.or_eq_true]
        left
        unfold FretItem.Dot.exists'
        rw [decide_eq_true_eq]
        exact this
    have hfilter : (d.dot i 0).filter (fun dd => dd.exists') = v := by
      rw [hAllDots]
      apply List.filter_eq_self.mpr
      intro dd hdd
      unfold FretItem.Dot.exists'
      rw [decide_eq_true_eq]
      exact hvpos dd hdd
    have hfun : (fun (a : FretDiagram) (dd : FretItem.Dot) =>
          readNewItem a (WireItem.dot i dd.fret (FretItem.dotTypeToName dd.dtype)))
        = (fun a dd => a.setDot i dd.fret true dd.dtype) := by
      funext a dd
      simp only [readNewItem]
      rw [dot_name_roundtrip]
    by_cases hme : (d.marker i).exists' = true
    · have hmt : (d.marker i).mtype ≠ FretMarkerType.NONE := by
        unfold FretItem.Marker.exists' at hme
        rw [decide_eq_true_eq] at hme
        exact hme
      have hblock : writeNewString d i
          = WireItem.marker i (FretItem.markerTypeToName (d.marker i).mtype)
            :: v.map (fun dd => WireItem.dot i dd.fret (FretItem.dotTypeToName dd.dtype)) := by
        simp only [writeNewString, hde, hme, hfilter]
        simp
      rw [hblock]
      simp only [List.foldl_cons, readNewItem]
      rw [marker_name_roundtrip]
      rw [setMarker_fresh acc i (d.marker i).mtype
        (fun p hp => by have := hka p hp; omega) hb hracc hmt]
      rw [List.foldl_map]
      have hstep : (fun (x : FretDiagram) (y : FretItem.Dot) =>
          readNewItem x (WireItem.dot i y.fret (FretItem.dotTypeToName y.dtype)))
        = (fun a dd => a.setDot i dd.fret true dd.dtype) := hfun
      rw [hstep]
      have hfacc : SMap.find? ({ acc with markers := SMap.insert acc.markers i (FretItem.Marker.mk (d.marker i).mtype) } : FretDiagram).dots i = none := by
        rw [SMap.find?_eq_none_iff]
        intro p hp
        have := hka p hp
        omega
      rw [readDotsFold v { acc with markers := SMap.insert acc.markers i (FretItem.Marker.mk (d.marker i).mtype) } i hracc
        (fun dd hdd => by have := hvpos dd hdd; omega)
        (by rw [hfacc]; simpa using hvnd)]
      rw [if_neg hvne]
      have hdots2 : SMap.insert acc.dots i (((SMap.find? acc.dots i).getD []) ++ v) = acc.dots ++ [(i, v)] := by
        rw [(SMap.find?_eq_none_iff _ _).mpr (fun p hp => by have := hka p hp; omega)]
        rw [Option.getD_none, List.nil_append]
        exact SMap.insert_append _ _ _ hka
      have hmks2 : SMap.insert acc.markers i (FretItem.Marker.mk (d.marker i).mtype) = acc.markers ++ [(i, d.marker i)] := by
        rw [SMap.insert_append acc.markers i _ hmk]
      refine fd_eq_mk _ _ _ _ _ _ _ rfl rfl rfl ?_ ?_ rfl
      · show SMap.insert acc.dots i (((SMap.find? ({ acc with markers := SMap.insert acc.markers i (FretItem.Marker.mk (d.marker i).mtype) } : FretDiagram).dots i).getD []) ++ v) = acc.dots ++ ((some v).map (fun v => (i, v))).toList
        rw [hfacc, Option.getD_none, List.nil_append]
        rw [(SMap.find?_eq_none_iff _ _).mpr (fun p hp => by have := hka p hp; omega), Option.getD_none, List.nil_append] at hdots2
        rw [hdots2]
        rfl
      · show SMap.insert acc.markers i (FretItem.Marker.mk (d.marker i).mtype) = acc.markers ++ (if (d.marker i).exists' then [(i, d.marker i)] else [])
        rw [hmks2, if_pos hme]
    · have hblock : writeNewString d i
          = v.map (fun dd => WireItem.dot i dd.fret (FretItem.dotTypeToName dd.dtype)) := by
        simp only [writeNewString, hde, hme, hfilter]
        simp [hme]
      rw [hblock]
      rw [List.foldl_map]
      have hstep : (fun (x : FretDiagram) (y : FretItem.Dot) =>
          readNewItem x (WireItem.dot i y.fret (FretItem.dotTypeToName y.dtype)))
        = (fun a dd => a.setDot i dd.fret true dd.dtype) := hfun
      rw [hstep]
      have hfacc : SMap.find? acc.dots i = none :=
        (SMap.find?_eq_none_iff _ _).mpr (fun p hp => by have := hka p hp; omega)
      rw [readDotsFold v acc i hracc
        (fun dd hdd => by have := hvpos dd hdd; omega)
        (by rw [hfacc]; simpa using hvnd)]
      rw [if_neg hvne]
      refine fd_eq_mk _ _ _ _ _ _ _ rfl rfl rfl ?_ ?_ rfl
      · show SMap.insert acc.dots i (((SMap.find? acc.dots i).getD []) ++ v) = acc.dots ++ ((some v).map (fun v => (i, v))).toList
        rw [hfacc, Option.getD_none, List.nil_append]
        rw [SMap.insert_append _ _ _ hka]
        rfl
      · show acc.markers = acc.markers ++ (if (d.marker i).exists' then [(i, d.marker i)] else [])
        rw [if_neg hme, List.append_nil]

theorem readBlocksFold : ∀ (L : List Int) (d acc : FretDiagram),
    DotsWF d →
    List.Pairwise (fun a b => a < b) L →
    (∀ p ∈ acc.dots, ∀ j ∈ L, p.1 < j) →
    (∀ p ∈ acc.markers, ∀ j ∈ L, p.1 < j) →
    acc.barres = [] →
    acc.strings = d.strings →
    (∀ j ∈ L, 0 ≤ j ∧ j < d.strings) →
    ((L.map (fun i => writeNewString d i)).flatten.foldl readNewItem acc)
      = { acc with dots := acc.dots ++ L.filterMap (fun j => (SMap.find? d.dots j).map (fun v => (j, v))), markers := acc.markers ++ L.filterMap (fun j => if (d.marker j).exists' then some (j, d.marker j) else none) } := by
  intro L
  induction L with
  | nil =>
    intro d acc _ _ _ _ _ _ _
    simp only [List.map_nil, List.flatten_nil, List.foldl_nil, List.filterMap_nil,
      List.append_nil]
  | cons i L' ih =>
    intro d acc hd hL hka hmk hb hstr hrng
    simp only [List.map_cons, List.flatten_cons, List.foldl_append]
    rw [readBlockFold d acc i hd
      (fun p hp => hka p hp i (by simp))
      (fun p hp => hmk p hp i (by simp))
      hb hstr (hrng i (by simp))]
    have hiL : ∀ j ∈ L', i < j := fun j hj => List.rel_of_pairwise_cons hL hj
    rw [ih d { acc with dots := acc.dots ++ ((SMap.find? d.dots i).map (fun v => (i, v))).toList, markers := acc.markers ++ (if (d.marker i).exists' then [(i, d.marker i)] else []) } hd
      (List.Pairwise.sublist (List.sublist_cons_self _ _) hL)
      (by
        intro p hp j hj
        rcases List.mem_append.mp hp with h1 | h2
        · have := hka p h1 i (by simp)
          have := hiL j hj
          omega
        · cases hf : SMap.find? d.dots i with
          | none => rw [hf] at h2; exact absurd h2 (by simp)
          | some v =>
            rw [hf] at h2
            simp only [Option.map_some', Option.toList_some, List.mem_singleton] at h2
            rw [h2]
            exact hiL j hj)
      (by
        intro p hp j hj
        rcases List.mem_append.mp hp with h1 | h2
        · have := hmk p h1 i (by simp)
          have := hiL j hj
          omega
        · by_cases hme : (d.marker i).exists' = true
          · rw [if_pos hme] at h2
            simp only [List.mem_singleton] at h2
            rw [h2]
            exact hiL j hj
          · rw [if_neg hme] at h2
            exact absurd h2 (by simp))
      hb hstr
      (fun j hj => hrng j (by simp [hj]))]
    refine fd_eq_mk _ _ _ _ _ _ _ rfl rfl rfl ?_ ?_ rfl
    · show (acc.dots ++ ((SMap.find? d.dots i).map (fun v => (i, v))).toList) ++ L'.filterMap (fun j => (SMap.find? d.dots j).map (fun v => (j, v))) = acc.dots ++ (i :: L').filterMap (fun j => (SMap.find? d.dots j).map (fun v => (j, v)))
      rw [List.filterMap_cons, List.append_assoc]
      cases hf : SMap.find? d.dots i with
      | none => simp
      | some v => simp
    · show (acc.markers ++ (if (d.marker i).exists' then [(i, d.marker i)] else [])) ++ L'.filterMap (fun j => if (d.marker j).exists' then some (j, d.marker j) else none) = acc.markers ++ (i :: L').filterMap (fun j => if (d.marker j).exists' then some (j, d.marker j) else none)
      rw [List.filterMap_cons, List.append_assoc]
      by_cases hme : (d.marker i).exists' = true
      · rw [if_pos hme, if_pos hme]
        simp
      · rw [if_neg hme, if_neg hme]
        simp

theorem dotsFilterMap_collapse (d : FretDiagram) (hd : DotsWF d) :
    (intRange 0 d.strings).filterMap (fun j => (SMap.find? d.dots j).map (fun v => (j, v)))
      = d.dots := by
  rw [filterMap_find?_eq (intRange 0 d.strings) d.dots (fun j v => (j, v))
    (intRange_pairwise 0 d.strings) hd.1
    (by
      intro p hp
      obtain ⟨h1, h2, _⟩ := hd.2 p hp
      rw [mem_intRange]
      exact ⟨h1, h2⟩)]
  simp

theorem markersFilterMap_collapse (d : FretDiagram) (hm : MarkersWF d) :
    (intRange 0 d.strings).filterMap
        (fun j => if (d.marker j).exists' then some (j, d.marker j) else none)
      = d.markers.filter (fun p => p.2.exists') := by
  rw [List.filterMap_congr (g := fun j =>
      (SMap.find? (d.markers.filter (fun p => p.2.exists')) j).map (fun v => (j, v)))
    ?_]
  · rw [filterMap_find?_eq _ _ (fun j v => (j, v)) (intRange_pairwise 0 d.strings)
      (SMap.sorted_filter d.markers _ hm.1)
      (by
        intro p hp
        obtain ⟨h1, h2⟩ := hm.2 p (List.mem_of_mem_filter hp)
        rw [mem_intRange]
        exact ⟨h1, h2⟩)]
    simp
  · intro j hj
    show (if (d.marker j).exists' = true then some (j, d.marker j) else none)
      = (SMap.find? (List.filter (fun p => p.2.exists') d.markers) j).map (fun v => (j, v))
    rw [SMap.find?_filter d.markers _ j hm.1]
    cases hf : SMap.find? d.markers j with
    | none =>
      have : d.marker j = FretItem.Marker.mk FretMarkerType.NONE := by
        rw [marker_eq, hf]
        rfl
      rw [if_neg (by rw [this]; simp [FretItem.Marker.exists'])]
      rfl
    | some v =>
      have hveq : d.marker j = v := by
        rw [marker_eq, hf]
        rfl
      by_cases hve : v.exists' = true
      · rw [if_pos (by rw [hveq]; exact hve)]
        show some (j, d.marker j)
          = (if (j, v).2.exists' = true then some v else none).map (fun w => (j, w))
        rw [if_pos (show ((j, v).2.exists' = true) from hve)]
        simp only [Option.map_some']
        rw [hveq]
      · rw [if_neg (by rw [hveq]; simp [hve])]
        show (none : Option (Int × FretItem.Marker))
          = (if (j, v).2.exists' = true then some v else none).map (fun w => (j, w))
        rw [if_neg (show ¬ ((j, v).2.exists' = true) from hve)]
        rfl

theorem writeNewBarreItems (d : FretDiagram) (hb : BarresWF d) :
    (intRangeIncl 1 d.frets).filterMap (fun f =>
        if (d.barre f).exists' then
          some (WireItem.barre (d.barre f).startString (d.barre f).endString f) else none)
      = d.barres.map (fun p => WireItem.barre p.2.startString p.2.endString p.1) := by
  rw [List.filterMap_congr (g := fun f =>
      (SMap.find? d.barres f).map (fun b => WireItem.barre b.startString b.endString f)) ?_]
  · exact filterMap_find?_eq _ _ (fun f b => WireItem.barre b.startString b.endString f)
      (intRange_pairwise 1 (d.frets + 1)) hb.1
      (by
        intro p hp
        obtain ⟨h1, h2, _⟩ := hb.2 p hp
        show p.1 ∈ intRange 1 (d.frets + 1)
        rw [mem_intRange]
        omega)
  · intro f hf
    show (if (d.barre f).exists' = true
        then some (WireItem.barre (d.barre f).startString (d.barre f).endString f) else none)
      = (SMap.find? d.barres f).map (fun b => WireItem.barre b.startString b.endString f)
    cases hfind : SMap.find? d.barres f with
    | none =>
      have : d.barre f = FretItem.Barre.mk (-1) (-1) := by
        rw [barre_eq, hfind]
        rfl
      rw [if_neg (by rw [this]; simp [FretItem.Barre.exists'])]
      rfl
    | some b =>
      have hbeq : d.barre f = b := by
        rw [barre_eq, hfind]
        rfl
      obtain ⟨_, _, h3, _⟩ := hb.2 (f, b) (SMap.find?_mem _ _ _ hfind)
      have h3' : (0 : Int) ≤ b.startString := h3
      rw [if_pos (by rw [hbeq]; unfold FretItem.Barre.exists'; rw [decide_eq_true_eq]; omega)]
      simp only [Option.map_some']
      rw [hbeq]

theorem readBarresFold : ∀ (bs : List (Int × FretItem.Barre)) (acc : FretDiagram),
    (∀ p ∈ bs, 0 ≤ p.2.startString ∧ p.2.startString < acc.strings ∧
      -1 ≤ p.2.endString ∧ p.2.endString < acc.strings) →
    (∀ p ∈ acc.barres, ∀ q ∈ bs, p.1 < q.1) →
    List.Pairwise (fun (a b : Int × FretItem.Barre) => a.1 < b.1) bs →
    ((bs.map (fun p => WireItem.barre p.2.startString p.2.endString p.1)).foldl readNewItem acc)
      = { acc with barres := acc.barres ++ bs } := by
  intro bs
  induction bs with
  | nil =>
    intro acc _ _ _
    simp only [List.map_nil, List.foldl_nil]
    exact fd_eq_mk _ _ _ _ _ _ _ rfl rfl rfl rfl rfl (List.append_nil _).symm
  | cons q rest ih =>
    intro acc hrng hlt hpw
    obtain ⟨f, b⟩ := q
    simp only [List.map_cons, List.foldl_cons, readNewItem]
    obtain ⟨hb1, hb2, hb3, hb4⟩ := hrng (f, b) (by simp)
    rw [setBarre_store acc _ _ f (by omega) ⟨hb1, hb3, hb2, hb4⟩]
    rw [SMap.insert_append acc.barres f _ (fun p hp => hlt p hp (f, b) (by simp))]
    rw [ih { acc with barres := acc.barres ++ [(f, FretItem.Barre.mk b.startString b.endString)] }
      (fun p hp => hrng p (by simp [hp]))
      (by
        intro p hp q2 hq2
        rcases List.mem_append.mp hp with h1 | h2
        · exact hlt p h1 q2 (by simp [hq2])
        · simp only [List.mem_singleton] at h2
          rw [h2]
          exact List.rel_of_pairwise_cons hpw hq2)
      (List.Pairwise.sublist (List.sublist_cons_self _ _) hpw)]
    refine fd_eq_mk _ _ _ _ _ _ _ rfl rfl rfl rfl rfl ?_
    show (acc.barres ++ [(f, FretItem.Barre.mk b.startString b.endString)]) ++ rest
        = acc.barres ++ (f, b) :: rest
    rw [List.append_assoc, List.singleton_append]

/-- C2: round-tripping through the current format is NOT an exact
reproduction of all three maps: a stored `NONE` marker entry (left behind
by `setDot(..., add=false)`) is not written, so it is missing after the
round trip.  The dots and barres maps of this state do survive. -/
theorem c2_counterexample :
    (((initDiagram 6 4).setDot 0 1 false FretDotType.NORMAL).markers
      = [(0, FretItem.Marker.mk FretMarkerType.NONE)]) ∧
    ((readNew (initDiagram 6 4)
        (writeNew ((initDiagram 6 4).setDot 0 1 false FretDotType.NORMAL))).markers = []) := by
  constructor
  · decide
  · decide

/-- C2 (amended): under the reachable-state invariants, `writeNew` then
`readNew` into a fresh diagram with the same string and fret counts
reproduces the dots and barres maps exactly and the markers map up to
dropping its `NONE` entries (which every read path reports as
non-existing). -/
theorem c2_writeNew_readNew (d : FretDiagram)
    (hd : DotsWF d) (hm : MarkersWF d) (hb : BarresWF d) :
    readNew (initDiagram d.strings d.frets) (writeNew d)
      = FretDiagram.mk d.strings d.frets 0 d.dots
          (d.markers.filter (fun p => p.2.exists')) d.barres := by
  simp only [readNew, writeNew]
  rw [List.foldl_append]
  rw [readBlocksFold (intRange 0 d.strings) d (initDiagram d.strings d.frets) hd
    (intRange_pairwise 0 d.strings)
    (fun p hp => absurd hp (List.not_mem_nil p))
    (fun p hp => absurd hp (List.not_mem_nil p))
    rfl rfl
    (fun j hj => (mem_intRange j 0 d.strings).mp hj)]
  rw [writeNewBarreItems d hb]
  rw [readBarresFold d.barres
    { initDiagram d.strings d.frets with dots := (initDiagram d.strings d.frets).dots ++ (intRange 0 d.strings).filterMap (fun j => (SMap.find? d.dots j).map (fun v => (j, v))), markers := (initDiagram d.strings d.frets).markers ++ (intRange 0 d.strings).filterMap (fun j => if (d.marker j).exists' then some (j, d.marker j) else none) }
    (by
      intro p hp
      obtain ⟨_, _, h3, h4, h5, h6⟩ := hb.2 p hp
      show 0 ≤ p.2.startString ∧ p.2.startString < d.strings ∧
        -1 ≤ p.2.endString ∧ p.2.endString < d.strings
      exact ⟨h3, h4, h5, h6⟩)
    (fun p hp => absurd hp (List.not_mem_nil p))
    hb.1]
  refine fd_eq_mk _ _ _ _ _ _ _ rfl rfl rfl ?_ ?_ ?_
  · show ([] : SMap (List FretItem.Dot)) ++ (intRange 0 d.strings).filterMap
        (fun j => (SMap.find? d.dots j).map (fun v => (j, v))) = d.dots
    rw [List.nil_append, dotsFilterMap_collapse d hd]
  · show ([] : SMap FretItem.Marker) ++ (intRange 0 d.strings).filterMap
        (fun j => if (d.marker j).exists' then some (j, d.marker j) else none)
      = d.markers.filter (fun p => p.2.exists')
    rw [List.nil_append, markersFilterMap_collapse d hm]
  · show ([] : SMap FretItem.Barre) ++ d.barres = d.barres
    rw [List.nil_append]

theorem c2_witness :
    readNew (initDiagram 6 4)
      (writeNew (FretDiagram.mk 6 4 0 [(2, [FretItem.Dot.mk 3 FretDotType.NORMAL])]
        [(0, FretItem.Marker.mk FretMarkerType.CROSS)] [(2, FretItem.Barre.mk 1 (-1))]))
      = FretDiagram.mk 6 4 0 [(2, [FretItem.Dot.mk 3 FretDotType.NORMAL])]
        [(0, FretItem.Marker.mk FretMarkerType.CROSS)] [(2, FretItem.Barre.mk 1 (-1))] := by
  have h := c2_writeNew_readNew
    (FretDiagram.mk 6 4 0 [(2, [FretItem.Dot.mk 3 FretDotType.NORMAL])]
      [(0, FretItem.Marker.mk FretMarkerType.CROSS)] [(2, FretItem.Barre.mk 1 (-1))])
    (by constructor <;> decide) (by constructor <;> decide) (by constructor <;> decide)
  exact h.trans (by decide)

theorem setDotFalse_frame (d : FretDiagram) (s f : Int) (t : FretDotType) (k : Int)
    (hk : k ≠ s) :
    SMap.find? (d.setDot s f false t).dots k = SMap.find? d.dots k ∧
    (d.setDot s f false t).barres = d.barres ∧
    (d.setDot s f false t).strings = d.strings := by
  by_cases hf : f = 0
  · subst hf
    rw [setDot_zero]
    exact ⟨SMap.find?_erase_ne d.dots s k hk, rfl, rfl⟩
  · by_cases hr : 0 ≤ s ∧ s < d.strings
    · rw [setDot_replace d s f t hf hr]
      exact ⟨SMap.find?_insert_ne d.dots s k _ hk, rfl, rfl⟩
    · rw [setDot_out d s f false t hf hr]
      exact ⟨rfl, rfl, rfl⟩

theorem setMarker_frame (d : FretDiagram) (s : Int) (t : FretMarkerType) (k : Int)
    (hk : k ≠ s) (hbar : d.barres = []) :
    SMap.find? (d.setMarker s t).dots k = SMap.find? d.dots k ∧
    (d.setMarker s t).barres = [] ∧
    (d.setMarker s t).strings = d.strings := by
  by_cases hr : 0 ≤ s ∧ s < d.strings
  · by_cases ht : t = FretMarkerType.NONE
    · subst ht
      rw [setMarker_none d s hr]
      exact ⟨rfl, hbar, rfl⟩
    · rw [setMarker_some d s t hr ht]
      refine ⟨SMap.find?_erase_ne d.dots s k hk, ?_, rfl⟩
      show d.barres.filter (fun i => !(barreTouches s i)) = []
      rw [hbar]
      rfl
  · rw [setMarker_out d s t hr]
    exact ⟨rfl, hbar, rfl⟩

theorem setDotFalseFold_frame : ∀ (fs : List Int) (acc : FretDiagram) (s : Int)
    (t : FretDotType) (k : Int), k ≠ s →
    SMap.find? ((fs.foldl (fun a f => a.setDot s f false t) acc)).dots k
      = SMap.find? acc.dots k ∧
    (fs.foldl (fun a f => a.setDot s f false t) acc).barres = acc.barres ∧
    (fs.foldl (fun a f => a.setDot s f false t) acc).strings = acc.strings := by
  intro fs
  induction fs with
  | nil => intro acc s t k _; exact ⟨rfl, rfl, rfl⟩
  | cons f rest ih =>
    intro acc s t k hk
    simp only [List.foldl_cons]
    obtain ⟨i1, i2, i3⟩ := ih (acc.setDot s f false t) s t k hk
    obtain ⟨s1, s2, s3⟩ := setDotFalse_frame acc s f t k hk
    exact ⟨i1.trans s1, i2.trans s2, i3.trans s3⟩

theorem readOldBlock_frame (acc : FretDiagram) (blk : LegacyStringBlock) (k : Int)
    (hk : k ≠ blk.no) (hbar : acc.barres = []) :
    SMap.find? (readOldBlock acc blk).dots k = SMap.find? acc.dots k ∧
    (readOldBlock acc blk).barres = [] ∧
    (readOldBlock acc blk).strings = acc.strings := by
  simp only [readOldBlock]
  cases hmc : blk.markerChar with
  | none =>
    obtain ⟨i1, i2, i3⟩ := setDotFalseFold_frame blk.dotFrets acc blk.no FretDotType.NORMAL k hk
    exact ⟨i1, i2.trans hbar, i3⟩
  | some c =>
    obtain ⟨m1, m2, m3⟩ := setMarker_frame acc blk.no
      (if c = 'X' then FretMarkerType.CROSS else FretMarkerType.CIRCLE) k hk hbar
    obtain ⟨i1, i2, i3⟩ := setDotFalseFold_frame blk.dotFrets
      (acc.setMarker blk.no (if c = 'X' then FretMarkerType.CROSS else FretMarkerType.CIRCLE))
      blk.no FretDotType.NORMAL k hk
    exact ⟨i1.trans m1, i2.trans m2, i3.trans m3⟩

theorem readOldBlocks_frame : ∀ (bl : List LegacyStringBlock) (acc : FretDiagram) (k : Int),
    (∀ blk ∈ bl, k ≠ blk.no) → acc.barres = [] →
    SMap.find? ((bl.foldl readOldBlock acc)).dots k = SMap.find? acc.dots k ∧
    (bl.foldl readOldBlock acc).barres = [] ∧
    (bl.foldl readOldBlock acc).strings = acc.strings := by
  intro bl
  induction bl with
  | nil => intro acc k _ hbar; exact ⟨rfl, hbar, rfl⟩
  | cons blk rest ih =>
    intro acc k hno hbar
    simp only [List.foldl_cons]
    obtain ⟨b1, b2, b3⟩ := readOldBlock_frame acc blk k (hno blk (by simp)) hbar
    obtain ⟨i1, i2, i3⟩ := ih (readOldBlock acc blk) k (fun b hb => hno b (by simp [hb])) b2
    exact ⟨i1.trans b1, i2, i3.trans b3⟩

theorem readOldDotsFold : ∀ (fs : List Int) (acc : FretDiagram) (s : Int),
    (∀ f ∈ fs, f ≠ 0) → (0 ≤ s ∧ s < acc.strings) →
    (fs.foldl (fun a f => a.setDot s f false FretDotType.NORMAL) acc)
      = (match fs.getLast? with
         | none => acc
         | some f => { acc with dots := SMap.insert acc.dots s [FretItem.Dot.mk f FretDotType.NORMAL], markers := SMap.insert acc.markers s (FretItem.Marker.mk FretMarkerType.NONE) }) := by
  intro fs
  induction fs with
  | nil => intro acc s _ _; rfl
  | cons f rest ih =>
    intro acc s h0 hr
    simp only [List.foldl_cons]
    rw [setDot_replace acc s f FretDotType.NORMAL (h0 f (by simp)) hr]
    cases rest with
    | nil =>
      simp only [List.foldl_nil]
      rfl
    | cons f2 rest2 =>
      rw [ih { acc with dots := SMap.insert acc.dots s [FretItem.Dot.mk f FretDotType.NORMAL], markers := SMap.insert acc.markers s (FretItem.Marker.mk FretMarkerType.NONE) }
        s (fun x hx => h0 x (by simp [hx])) hr]
      have hex : ∃ g, (f2 :: rest2).getLast? = some g := by
        cases hg : (f2 :: rest2).getLast? with
        | none => exact absurd hg (by simp)
        | some g => exact ⟨g, rfl⟩
      obtain ⟨g, hg⟩ := hex
      rw [List.getLast?_cons_cons, hg]
      exact fd_eq_mk _ _ _ _ _ _ _ rfl rfl rfl (SMap.insert_insert _ _ _ _) (SMap.insert_insert _ _ _ _) rfl

theorem writeOldLowest_snd (d : FretDiagram) :
    writeOldLowest d = (-1, -1) ∨ 0 ≤ (writeOldLowest d).2 := by
  unfold writeOldLowest
  have hinner : ∀ (ds : List FretItem.Dot) (i : Int) (q : Int × Int),
      0 ≤ i → (q = (-1, -1) ∨ 0 ≤ q.2) →
      ((ds.foldl (fun q dd =>
        if dd.exists' then
          if dd.fret < q.1 ∨ q.1 = -1 then (dd.fret, i)
          else if dd.fret = q.1 ∧ (i < q.2 ∨ q.2 = -1) then (q.1, i)
          else q
        else q) q) = (-1, -1) ∨ 0 ≤ (ds.foldl (fun q dd =>
        if dd.exists' then
          if dd.fret < q.1 ∨ q.1 = -1 then (dd.fret, i)
          else if dd.fret = q.1 ∧ (i < q.2 ∨ q.2 = -1) then (q.1, i)
          else q
        else q) q).2) := by
    intro ds
    induction ds with
    | nil => intro i q _ hq; exact hq
    | cons dd rest ih =>
      intro i q hi hq
      simp only [List.foldl_cons]
      apply ih i _ hi
      by_cases he : dd.exists' = true
      · rw [if_pos he]
        by_cases h1 : dd.fret < q.1 ∨ q.1 = -1
        · rw [if_pos h1]
          right
          exact hi
        · rw [if_neg h1]
          by_cases h2 : dd.fret = q.1 ∧ (i < q.2 ∨ q.2 = -1)
          · rw [if_pos h2]
            right
            exact hi
          · rw [if_neg h2]
            exact hq
      · rw [if_neg he]
        exact hq
  have houter : ∀ (L : List Int) (q : Int × Int),
      (∀ i ∈ L, 0 ≤ i) → (q = (-1, -1) ∨ 0 ≤ q.2) →
      ((L.foldl (fun p i =>
        let allDots := d.dot i 0
        if !(allDots.any (fun dd => dd.exists')) then p
        else allDots.foldl (fun q dd =>
          if dd.exists' then
            if dd.fret < q.1 ∨ q.1 = -1 then (dd.fret, i)
            else if dd.fret = q.1 ∧ (i < q.2 ∨ q.2 = -1) then (q.1, i)
            else q
          else q) p) q) = (-1, -1) ∨
      0 ≤ (L.foldl (fun p i =>
        let allDots := d.dot i 0
        if !(allDots.any (fun dd => dd.exists')) then p
        else allDots.foldl (fun q dd =>
          if dd.exists' then
            if dd.fret < q.1 ∨ q.1 = -1 then (dd.fret, i)
            else if dd.fret = q.1 ∧ (i < q.2 ∨ q.2 = -1) then (q.1, i)
            else q
          else q) p) q).2) := by
    intro L
    induction L with
    | nil => intro q _ hq; exact hq
    | cons i0 rest ih =>
      intro q hL hq
      simp only [List.foldl_cons]
      apply ih _ (fun j hj => hL j (by simp [hj]))
      by_cases hany : (!((d.dot i0 0).any (fun dd => dd.exists'))) = true
      · rw [if_pos hany]
        exact hq
      · rw [if_neg hany]
        exact hinner (d.dot i0 0) i0 q (hL i0 (by simp)) hq
  exact houter (intRange 0 d.strings) (-1, -1)
    (fun i hi => ((mem_intRange i 0 d.strings).mp hi).1) (Or.inl rfl)

theorem writeOld_flag_iff (d : FretDiagram) (hb : BarresWF d) :
    (writeOld d).barreFlag = true ↔ ∃ p ∈ d.barres,
      (p.2.exists' && decide (p.1 ≤ (writeOldLowest d).1) && decide (p.2.endString = -1)
        && !(decide (p.1 = (writeOldLowest d).1)
             && decide (p.2.startString > (writeOldLowest d).2))) = true := by
  have hflag : (writeOld d).barreFlag = decide (0 < (writeOldBarre d).2) := rfl
  have hwb : writeOldBarre d = (match List.find? (fun i =>
      i.2.exists' && decide (i.1 ≤ (writeOldLowest d).1) && decide (i.2.endString = -1)
      && !(decide (i.1 = (writeOldLowest d).1)
           && decide (i.2.startString > (writeOldLowest d).2))) d.barres with
    | some i => (i.2.startString, i.1)
    | none => ((-1 : Int), (-1 : Int))) := rfl
  constructor
  · intro h
    rw [hflag] at h
    rw [decide_eq_true_eq] at h
    cases hfind : List.find? (fun i =>
        i.2.exists' && decide (i.1 ≤ (writeOldLowest d).1) && decide (i.2.endString = -1)
        && !(decide (i.1 = (writeOldLowest d).1)
             && decide (i.2.startString > (writeOldLowest d).2))) d.barres with
    | none =>
      rw [hwb, hfind] at h
      exact absurd (show (0 : Int) < -1 from h) (by omega)
    | some q =>
      have hmem := List.mem_of_find?_eq_some hfind
      have hp := List.find?_some hfind
      exact ⟨q, hmem, hp⟩
  · intro ⟨p, hmem, hcond⟩
    have hsome : (List.find? (fun i =>
        i.2.exists' && decide (i.1 ≤ (writeOldLowest d).1) && decide (i.2.endString = -1)
        && !(decide (i.1 = (writeOldLowest d).1)
             && decide (i.2.startString > (writeOldLowest d).2))) d.barres).isSome := by
      rw [List.find?_isSome]
      exact ⟨p, hmem, hcond⟩
    cases hfind : List.find? (fun i =>
        i.2.exists' && decide (i.1 ≤ (writeOldLowest d).1) && decide (i.2.endString = -1)
        && !(decide (i.1 = (writeOldLowest d).1)
             && decide (i.2.startString > (writeOldLowest d).2))) d.barres with
    | none =>
      rw [hfind] at hsome
      exact absurd hsome (by simp)
    | some q =>
      obtain ⟨h1, _⟩ := hb.2 q (List.mem_of_find?_eq_some hfind)
      rw [hflag, hwb, hfind]
      rw [decide_eq_true_eq]
      show 0 < q.1
      omega

theorem writeOld_synthetic (d : FretDiagram) (hb : BarresWF d) (bss bf : Int)
    (hwb : writeOldBarre d = (bss, bf)) (h0 : 0 ≤ bss) :
    ∃ blk ∈ (writeOld d).blocks, blk.no = bss ∧
      blk.dotFrets = (((d.dot bss 0).filter (fun dd =>
          dd.exists' && !(decide (bss = bss) && decide (dd.fret = bf)))).map
        (fun dd => dd.fret)) ++ [bf] := by
  have hwb2 : writeOldBarre d = (match List.find? (fun i =>
      i.2.exists' && decide (i.1 ≤ (writeOldLowest d).1) && decide (i.2.endString = -1)
      && !(decide (i.1 = (writeOldLowest d).1)
           && decide (i.2.startString > (writeOldLowest d).2))) d.barres with
    | some i => (i.2.startString, i.1)
    | none => ((-1 : Int), (-1 : Int))) := rfl
  have hslt : bss < d.strings := by
    cases hfind : List.find? (fun i =>
        i.2.exists' && decide (i.1 ≤ (writeOldLowest d).1) && decide (i.2.endString = -1)
        && !(decide (i.1 = (writeOldLowest d).1)
             && decide (i.2.startString > (writeOldLowest d).2))) d.barres with
    | none =>
      rw [hwb2, hfind] at hwb
      have : bss = -1 := by
        have := congrArg Prod.fst hwb
        simp at this
        omega
      omega
    | some q =>
      rw [hwb2, hfind] at hwb
      have hss : q.2.startString = bss := by
        have := congrArg Prod.fst hwb
        simpa using this
      obtain ⟨_, _, _, h4, _⟩ := hb.2 q (List.mem_of_find?_eq_some hfind)
      omega
  have hblocks : (writeOld d).blocks = (intRange 0 d.strings).filterMap (fun i =>
      if !((d.dot i 0).any (fun dd => dd.exists')) && !(d.marker i).exists'
          && decide (i ≠ bss) then none
      else some (LegacyStringBlock.mk i
        (if (d.marker i).exists' then some (FretItem.markerToChar (d.marker i).mtype) else none)
        ((((d.dot i 0).filter (fun dd =>
              dd.exists' && !(decide (i = bss) && decide (dd.fret = bf)))).map
            (fun dd => dd.fret))
          ++ (if bss = i then [bf] else [])))) := by
    show (intRange 0 d.strings).filterMap (fun i =>
      if !((d.dot i 0).any (fun dd => dd.exists')) && !(d.marker i).exists'
          && decide (i ≠ (writeOldBarre d).1) then none
      else some (LegacyStringBlock.mk i
        (if (d.marker i).exists' then some (FretItem.markerToChar (d.marker i).mtype) else none)
        ((((d.dot i 0).filter (fun dd =>
              dd.exists' && !(decide (i = (writeOldBarre d).1)
                && decide (dd.fret = (writeOldBarre d).2)))).map
            (fun dd => dd.fret))
          ++ (if (writeOldBarre d).1 = i then [(writeOldBarre d).2] else [])))) = _
    rw [hwb]
  rw [hblocks]
  refine ⟨LegacyStringBlock.mk bss
    (if (d.marker bss).exists' then some (FretItem.markerToChar (d.marker bss).mtype) else none)
    ((((d.dot bss 0).filter (fun dd =>
        dd.exists' && !(decide (bss = bss) && decide (dd.fret = bf)))).map
      (fun dd => dd.fret)) ++ [bf]), ?_, rfl, rfl⟩
  apply List.mem_filterMap.mpr
  refine ⟨bss, (mem_intRange bss 0 d.strings).mpr ⟨h0, hslt⟩, ?_⟩
  rw [if_neg (by simp)]
  rw [if_pos rfl]

theorem setMarker_clean_facts (d : FretDiagram) (s : Int) (t : FretMarkerType)
    (hdots : d.dots = []) (hbar : d.barres = []) :
    (d.setMarker s t).dots = [] ∧ (d.setMarker s t).barres = [] ∧
    (d.setMarker s t).strings = d.strings := by
  by_cases hr : 0 ≤ s ∧ s < d.strings
  · by_cases ht : t = FretMarkerType.NONE
    · subst ht
      rw [setMarker_none d s hr]
      exact ⟨hdots, hbar, rfl⟩
    · rw [setMarker_some d s t hr ht]
      refine ⟨?_, ?_, rfl⟩
      · show SMap.erase d.dots s = []
        rw [hdots]
        rfl
      · show d.barres.filter (fun i => !(barreTouches s i)) = []
        rw [hbar]
        rfl
  · rw [setMarker_out d s t hr]
    exact ⟨hdots, hbar, rfl⟩

theorem readOld_scenario_generic (d0 : FretDiagram) (doc : LegacyDoc)
    (blk0 : LegacyStringBlock) (rest : List LegacyStringBlock) (F : Int)
    (hdocb : doc.blocks = blk0 :: rest) (hdocf : doc.barreFlag = true)
    (hno : blk0.no = 0)
    (hfs0 : ∀ f ∈ blk0.dotFrets, f ≠ 0) (hlast : blk0.dotFrets.getLast? = some F)
    (hF : 0 < F)
    (hrest : ∀ blk ∈ rest, blk.no ≠ 0)
    (hdots0 : d0.dots = []) (hbar0 : d0.barres = []) (hstr0 : 0 < d0.strings) :
    (readOld d0 doc).barres = [(F, FretItem.Barre.mk 0 (-1))] := by
  simp only [readOld]
  rw [hdocb, hdocf]
  rw [if_pos rfl]
  simp only [List.foldl_cons]
  have hblk : readOldBlock d0 blk0
      = { (match blk0.markerChar with
          | some c => d0.setMarker blk0.no
              (if c = 'X' then FretMarkerType.CROSS else FretMarkerType.CIRCLE)
          | none => d0) with
          dots := SMap.insert (match blk0.markerChar with
            | some c => d0.setMarker blk0.no
                (if c = 'X' then FretMarkerType.CROSS else FretMarkerType.CIRCLE)
            | none => d0).dots blk0.no [FretItem.Dot.mk F FretDotType.NORMAL],
          markers := SMap.insert (match blk0.markerChar with
            | some c => d0.setMarker blk0.no
                (if c = 'X' then FretMarkerType.CROSS else FretMarkerType.CIRCLE)
            | none => d0).markers blk0.no (FretItem.Marker.mk FretMarkerType.NONE) } := by
    simp only [readOldBlock]
    rw [readOldDotsFold blk0.dotFrets _ blk0.no hfs0 ?_]
    · simp only [hlast]
    · constructor
      · rw [hno]
      · rw [hno]
        cases hmc : blk0.markerChar with
        | none => exact hstr0
        | some c =>
          show 0 < (d0.setMarker 0
            (if c = 'X' then FretMarkerType.CROSS else FretMarkerType.CIRCLE)).strings
          rw [(setMarker_clean_facts d0 0
            (if c = 'X' then FretMarkerType.CROSS else FretMarkerType.CIRCLE)
            hdots0 hbar0).2.2]
          exact hstr0
  have hmfacts : (match blk0.markerChar with
      | some c => d0.setMarker blk0.no
          (if c = 'X' then FretMarkerType.CROSS else FretMarkerType.CIRCLE)
      | none => d0).dots = [] ∧
      (match blk0.markerChar with
      | some c => d0.setMarker blk0.no
          (if c = 'X' then FretMarkerType.CROSS else FretMarkerType.CIRCLE)
      | none => d0).barres = [] ∧
      (match blk0.markerChar with
      | some c => d0.setMarker blk0.no
          (if c = 'X' then FretMarkerType.CROSS else FretMarkerType.CIRCLE)
      | none => d0).strings = d0.strings := by
    cases hmc : blk0.markerChar with
    | none => exact ⟨hdots0, hbar0, rfl⟩
    | some c => exact setMarker_clean_facts d0 blk0.no _ hdots0 hbar0
  obtain ⟨hm1, hm2, hm3⟩ := hmfacts
  have hfr : (∀ blk ∈ rest, (0 : Int) ≠ blk.no) := fun blk hb2 => fun hc =>
    hrest blk hb2 hc.symm
  obtain ⟨hf1, hf2, hf3⟩ := readOldBlocks_frame rest (readOldBlock d0 blk0) 0 hfr
    (by rw [hblk]; exact hm2)
  have hd1dots : SMap.find? ((rest.foldl readOldBlock (readOldBlock d0 blk0))).dots 0
      = some [FretItem.Dot.mk F FretDotType.NORMAL] := by
    rw [hf1, hblk]
    show SMap.find? (SMap.insert _ blk0.no [FretItem.Dot.mk F FretDotType.NORMAL]) 0 = _
    rw [hno]
    exact SMap.find?_insert_self _ _ _
  have hd1str : (rest.foldl readOldBlock (readOldBlock d0 blk0)).strings = d0.strings := by
    rw [hf3, hblk]
    show (match blk0.markerChar with
      | some c => d0.setMarker blk0.no
          (if c = 'X' then FretMarkerType.CROSS else FretMarkerType.CIRCLE)
      | none => d0).strings = d0.strings
    exact hm3
  have hfed : firstExistingDot (rest.foldl readOldBlock (readOldBlock d0 blk0))
      = some (0, F) := by
    unfold firstExistingDot
    rw [hd1str, intRange_cons 0 d0.strings (by omega)]
    rw [List.findSome?_cons]
    have hdot0 : (rest.foldl readOldBlock (readOldBlock d0 blk0)).dot 0 0
        = [FretItem.Dot.mk F FretDotType.NORMAL] := by
      simp [dot, hd1dots]
    rw [hdot0]
    rw [List.find?_cons_of_pos _ (by
      unfold FretItem.Dot.exists'
      rw [decide_eq_true_eq]
      exact hF)]
  rw [hfed]
  show ((rest.foldl readOldBlock (readOldBlock d0 blk0)).setBarre 0 (-1) F).barres
    = [(F, FretItem.Barre.mk 0 (-1))]
  rw [setBarre_store _ 0 (-1) F (by omega) (by
    rw [hd1str]
    refine ⟨by omega, by omega, by omega, by omega⟩)]
  show SMap.insert (rest.foldl readOldBlock (readOldBlock d0 blk0)).barres F
      (FretItem.Barre.mk 0 (-1)) = _
  rw [hf2]
  rfl

theorem writeOld_readOld_roundtrip (d : FretDiagram) (hb : BarresWF d)
    (F : Int) (hbarres : d.barres = [(F, FretItem.Barre.mk 0 (-1))])
    (hlow : (writeOldLowest d).1 = F) :
    (readOld (initDiagram d.strings d.frets) (writeOld d)).barres
      = [(F, FretItem.Barre.mk 0 (-1))] := by
  obtain ⟨h1, h2, h3, h4, h5, h6⟩ := hb.2 (F, FretItem.Barre.mk 0 (-1))
    (by rw [hbarres]; simp)
  have h1' : 1 ≤ F := h1
  have hstr : (0 : Int) < d.strings := h4
  have hfu : 0 ≤ (writeOldLowest d).2 := by
    rcases writeOldLowest_snd d with hcase | hcase
    · rw [hcase] at hlow
      have hcon : (-1 : Int) = F := hlow
      omega
    · exact hcase
  have hdecfu : decide ((0 : Int) > (writeOldLowest d).2) = false := by
    rw [decide_eq_false_iff_not]
    omega
  have hpred : ((F, FretItem.Barre.mk 0 (-1)).2.exists'
      && decide ((F, FretItem.Barre.mk 0 (-1)).1 ≤ (writeOldLowest d).1)
      && decide ((F, FretItem.Barre.mk 0 (-1)).2.endString = -1)
      && !(decide ((F, FretItem.Barre.mk 0 (-1)).1 = (writeOldLowest d).1)
           && decide ((F, FretItem.Barre.mk 0 (-1)).2.startString > (writeOldLowest d).2)))
      = true := by
    show ((FretItem.Barre.mk 0 (-1)).exists'
      && decide (F ≤ (writeOldLowest d).1)
      && decide ((-1 : Int) = -1)
      && !(decide (F = (writeOldLowest d).1)
           && decide ((0 : Int) > (writeOldLowest d).2))) = true
    rw [hlow, hdecfu]
    simp [FretItem.Barre.exists']
  have hwb : writeOldBarre d = (0, F) := by
    have hwb2 : writeOldBarre d = (match List.find? (fun i =>
        i.2.exists' && decide (i.1 ≤ (writeOldLowest d).1) && decide (i.2.endString = -1)
        && !(decide (i.1 = (writeOldLowest d).1)
             && decide (i.2.startString > (writeOldLowest d).2))) d.barres with
      | some i => (i.2.startString, i.1)
      | none => ((-1 : Int), (-1 : Int))) := rfl
    have hfind : List.find? (fun i =>
        i.2.exists' && decide (i.1 ≤ (writeOldLowest d).1) && decide (i.2.endString = -1)
        && !(decide (i.1 = (writeOldLowest d).1)
             && decide (i.2.startString > (writeOldLowest d).2)))
        [(F, FretItem.Barre.mk 0 (-1))] = some (F, FretItem.Barre.mk 0 (-1)) := by
      rw [List.find?_cons_of_pos]
      exact hpred
    rw [hwb2, hbarres, hfind]
  have hflag : (writeOld d).barreFlag = true := by
    show decide (0 < (writeOldBarre d).2) = true
    rw [hwb]
    show decide ((0 : Int) < F) = true
    rw [decide_eq_true_eq]
    omega
  have hf0 : (if !((d.dot (0 : Int) 0).any (fun dd => dd.exists'))
        && !(d.marker (0 : Int)).exists' && decide ((0 : Int) ≠ ((0 : Int), F).1) then none
      else some (LegacyStringBlock.mk (0 : Int)
        (if (d.marker (0 : Int)).exists'
         then some (FretItem.markerToChar (d.marker (0 : Int)).mtype) else none)
        ((((d.dot (0 : Int) 0).filter (fun dd =>
              dd.exists' && !(decide ((0 : Int) = ((0 : Int), F).1)
                && decide (dd.fret = ((0 : Int), F).2)))).map
            (fun dd => dd.fret))
          ++ (if ((0 : Int), F).1 = 0 then [((0 : Int), F).2] else []))))
      = some (LegacyStringBlock.mk 0
        (if (d.marker 0).exists' then some (FretItem.markerToChar (d.marker 0).mtype) else none)
        ((((d.dot 0 0).filter (fun dd =>
              dd.exists' && !(decide ((0 : Int) = 0) && decide (dd.fret = F)))).map
            (fun dd => dd.fret)) ++ [F])) := by
    rw [if_neg (by simp)]
    rfl
  have hblocks : (writeOld d).blocks
      = LegacyStringBlock.mk 0
          (if (d.marker 0).exists' then some (FretItem.markerToChar (d.marker 0).mtype) else none)
          ((((d.dot 0 0).filter (fun dd =>
              dd.exists' && !(decide ((0 : Int) = 0) && decide (dd.fret = F)))).map
            (fun dd => dd.fret)) ++ [F])
        :: (intRange 1 d.strings).filterMap (fun (i : Int) =>
          if !((d.dot i 0).any (fun dd => dd.exists')) && !(d.marker i).exists'
              && decide (i ≠ ((0 : Int), F).1) then none
          else some (LegacyStringBlock.mk i
            (if (d.marker i).exists' then some (FretItem.markerToChar (d.marker i).mtype)
             else none)
            ((((d.dot i 0).filter (fun dd =>
                  dd.exists' && !(decide (i = ((0 : Int), F).1)
                    && decide (dd.fret = ((0 : Int), F).2)))).map
                (fun dd => dd.fret))
              ++ (if ((0 : Int), F).1 = i then [((0 : Int), F).2] else [])))) := by
    show (intRange 0 d.strings).filterMap (fun (i : Int) =>
      if !((d.dot i 0).any (fun dd => dd.exists')) && !(d.marker i).exists'
          && decide (i ≠ (writeOldBarre d).1) then none
      else some (LegacyStringBlock.mk i
        (if (d.marker i).exists' then some (FretItem.markerToChar (d.marker i).mtype) else none)
        ((((d.dot i 0).filter (fun dd =>
              dd.exists' && !(decide (i = (writeOldBarre d).1)
                && decide (dd.fret = (writeOldBarre d).2)))).map
            (fun dd => dd.fret))
          ++ (if (writeOldBarre d).1 = i then [(writeOldBarre d).2] else [])))) = _
    rw [hwb]
    rw [intRange_cons 0 d.strings (by omega), List.filterMap_cons, hf0]
    rfl
  apply readOld_scenario_generic (initDiagram d.strings d.frets) (writeOld d) _ _ F
    hblocks hflag rfl
    (by
      intro f hf
      rcases List.mem_append.mp hf with hl | hr
      · obtain ⟨dd, hdd, hddf⟩ := List.mem_map.mp hl
        obtain ⟨_, hpredd⟩ := List.mem_filter.mp hdd
        rw [Bool.and_eq_true] at hpredd
        have hex := hpredd.1
        unfold FretItem.Dot.exists' at hex
        rw [decide_eq_true_eq] at hex
        omega
      · simp only [List.mem_singleton] at hr
        omega)
    (List.getLast?_concat _)
    (by omega)
    (by
      intro blk hblk
      obtain ⟨i, hi, hfi⟩ := List.mem_filterMap.mp hblk
      have hi1 : 1 ≤ i := ((mem_intRange i 1 d.strings).mp hi).1
      by_cases hc : (!((d.dot i 0).any (fun dd => dd.exists')) && !(d.marker i).exists'
          && decide (i ≠ ((0 : Int), F).1)) = true
      · rw [if_pos hc] at hfi
        exact absurd hfi (by simp)
      · rw [if_neg hc] at hfi
        have := Option.some.inj hfi
        rw [← this]
        show i ≠ 0
        omega)
    rfl rfl (by show (0 : Int) < d.strings; omega)

/-- C6: `writeOld` emits the legacy `barre` flag exactly when some stored
barre exists, sits at a fret at or below the lowest dotted fret, has an
open end, and does not start right of the leftmost lowest dot when on that
fret; the selected barre contributes a synthetic dot at its fret appended
to its start string's block, with the real dot of that fret suppressed;
and a diagram whose only barre is full-width (start string `0`, open end)
at the lowest dotted fret round-trips through the legacy format to the
same open barre. -/
theorem c6_writeOldBarre (d : FretDiagram) (hb : BarresWF d) (F : Int) :
    ((writeOld d).barreFlag = true ↔ ∃ p ∈ d.barres,
      (p.2.exists' && decide (p.1 ≤ (writeOldLowest d).1) && decide (p.2.endString = -1)
        && !(decide (p.1 = (writeOldLowest d).1)
             && decide (p.2.startString > (writeOldLowest d).2))) = true) ∧
    (∀ bss bf : Int, writeOldBarre d = (bss, bf) → 0 ≤ bss →
      ∃ blk ∈ (writeOld d).blocks, blk.no = bss ∧
        blk.dotFrets = (((d.dot bss 0).filter (fun dd =>
            dd.exists' && !(decide (bss = bss) && decide (dd.fret = bf)))).map
          (fun dd => dd.fret)) ++ [bf]) ∧
    (d.barres = [(F, FretItem.Barre.mk 0 (-1))] → (writeOldLowest d).1 = F →
      (readOld (initDiagram d.strings d.frets) (writeOld d)).barres
        = [(F, FretItem.Barre.mk 0 (-1))]) :=
  ⟨writeOld_flag_iff d hb,
   fun bss bf hwb h0 => writeOld_synthetic d hb bss bf hwb h0,
   fun h1 h2 => writeOld_readOld_roundtrip d hb F h1 h2⟩

theorem c6_witness :
    ((writeOld (FretDiagram.mk 6 4 0 [(0, [FretItem.Dot.mk 2 FretDotType.NORMAL])] []
        [(2, FretItem.Barre.mk 0 (-1))])).barreFlag = true) ∧
    ((readOld (initDiagram 6 4)
        (writeOld (FretDiagram.mk 6 4 0 [(0, [FretItem.Dot.mk 2 FretDotType.NORMAL])] []
          [(2, FretItem.Barre.mk 0 (-1))]))).barres = [(2, FretItem.Barre.mk 0 (-1))]) := by
  have h := c6_writeOldBarre
    (FretDiagram.mk 6 4 0 [(0, [FretItem.Dot.mk 2 FretDotType.NORMAL])] []
      [(2, FretItem.Barre.mk 0 (-1))])
    (by constructor <;> decide) 2
  refine ⟨?_, ?_⟩
  · exact h.1.mpr (by decide)
  · exact h.2.2 (by decide) (by decide)
